import Mathlib

/-!
Shallow embedding of the AST-to-CFG lowering pass in
`src/cfg/builder/builder_walk.cc` (sorbet's CFG builder walk), together with
proofs about the claims of the natural-language specification.

Modelling conventions:
* Basic blocks are identified by their allocation index (`Nat`); the CFG's
  distinguished dead block is index `0` (`deadBlockId`), allocated on
  construction (`St.init`).
* C++ pointers to blocks become block indices; null block pointers in the
  lowering context (`nextScope` etc.) become `Option Nat`.
* `core::NameRef` becomes the inductive `Name`; `core::SymbolRef` becomes
  `SymbolRef`; `core::TypePtr` literal payloads become `TypePtr`.
* The mutable per-method state (the CFG with its blocks, the shared
  temporary counter, the alias and undeclared-field maps, and the error
  queue) is threaded explicitly through `St`.
* The `isSynthetic` flag lives on the emitted binding (in the source it is a
  field of the heap-allocated instruction set by `synthesizeExpr`).
* Forbidden AST variants, which the walker rejects with an internal
  exception (`ClassDef`, `MethodDef`, `UnresolvedConstantLit`, bare `Block`,
  assignment left-hand sides outside the four permitted shapes, unresolved
  identifier kinds other than class/instance variables), are excluded from
  the embedded AST: the walker's phase contract states they cannot reach it,
  and every claim under study concerns trees that satisfy that contract.
  Consequently the `try/catch` wrapper of `walk` never fires and the
  embedded walk is total.
-/

/-- Interned names (`core::NameRef`): reserved names used by the builder plus
user names, which are represented by an opaque index. -/
inductive Name where
  | noName
  | selfName
  | blockCallName
  | whileTemp
  | statTemp
  | returnTemp
  | ifTemp
  | keepForIde
  | nextTemp
  | blockBreakAssignName
  | rescueStartTemp
  | rescueEndTemp
  | exceptionClassTemp
  | isaCheckTemp
  | gotoDeadTemp
  | throwAwayTemp
  | hashTemp
  | arrayTemp
  | castTemp
  | magic
  | blockPreCallTemp
  | selfRestore
  | blkArg
  | blockReturnTemp
  | absurd
  | squareBrackets
  | is_a_p
  | buildHash
  | buildArray
  | letKind
  | user (n : Nat)
deriving DecidableEq, Repr

/-- Resolved symbols (`core::SymbolRef`). Only the distinguished symbols the
walker inspects are named; all others are an opaque index. -/
inductive SymbolRef where
  | StubModule
  | untyped
  | T
  | StandardError
  | Magic
  | other (n : Nat)
deriving DecidableEq, Repr

/-- Literal payloads (`core::TypePtr` values carried by `Literal`
instructions). -/
inductive TypePtr where
  | nilClass
  | boolLit (b : Bool)
  | intLit (i : Int)
  | other (n : Nat)
deriving DecidableEq, Repr

/-- Source locations (`core::Loc`); `zeroLength` models
`Loc::copyWithZeroLength` / `Loc::none`. -/
structure Loc where
  id : Nat
  zeroLength : Bool
deriving DecidableEq, Repr

/-- `core::Loc::none()`. -/
def Loc.noLoc : Loc := ⟨0, true⟩

/-- `Loc::copyWithZeroLength`. -/
def Loc.copyWithZeroLength (l : Loc) : Loc := ⟨l.id, true⟩

/-- `core::LocalVariable`: pair of interned name and unique suffix. -/
structure LocalVariable where
  name : Name
  unique : Nat
deriving DecidableEq, Repr

/-- `core::LocalVariable::noVariable()`: the absent condition on
unconditional terminators. -/
def LocalVariable.noVariable : LocalVariable := ⟨Name.noName, 0⟩

/-- The reserved `self` local. -/
def LocalVariable.selfVariable : LocalVariable := ⟨Name.selfName, 0⟩

/-- The reserved `blockCall` pseudo-local driving iterator-block headers. -/
def LocalVariable.blockCall : LocalVariable := ⟨Name.blockCallName, 0⟩

/-- Per-parameter flags of an iterator-block parameter
(`core::ArgInfo::ArgFlags`). -/
structure ArgFlags where
  isKeyword : Bool
  isRepeated : Bool
  isDefault : Bool
  isShadow : Bool
deriving DecidableEq, Repr

/-- `core::SendAndBlockLink`: the shared handle tying a send to its iterator
body. A fresh link carries a fresh `rubyBlockId`, so structural equality on
links coincides with the C++ identity of the shared allocation. -/
structure SendAndBlockLink where
  fn : Name
  argFlags : List ArgFlags
  rubyBlockId : Nat
deriving DecidableEq, Repr

/-- The three-address instruction set (`cfg::Instruction` variants). -/
inductive Instruction where
  | Literal (value : TypePtr)
  | Ident (what : LocalVariable)
  | Alias (what : SymbolRef)
  | Send (recv : LocalVariable) (fn : Name) (receiverLoc : Loc)
      (args : List LocalVariable) (argLocs : List Loc)
      (isPrivateOk : Bool) (link : Option SendAndBlockLink)
  | SolveConstraint (link : Option SendAndBlockLink) (sendTemp : LocalVariable)
  | LoadSelf (link : Option SendAndBlockLink) (fallback : LocalVariable)
  | LoadYieldParams (link : Option SendAndBlockLink)
  | BlockReturn (link : Option SendAndBlockLink) (what : LocalVariable)
  | Return (what : LocalVariable)
  | Cast (value : LocalVariable) (type : TypePtr) (cast : Name)
  | TAbsurd (what : LocalVariable)
  | Unanalyzable
deriving DecidableEq, Repr

/-- One in-block entry: destination local, source location, instruction, and
the `isSynthetic` flag (set by `synthesizeExpr`). -/
structure Binding where
  bind : LocalVariable
  loc : Loc
  value : Instruction
  isSynthetic : Bool
deriving DecidableEq, Repr

/-- The typed terminator of a basic block (`BasicBlock::bexit`). `condSet`
records whether the terminator has been written; a fresh block has it
unset. -/
structure BlockExit where
  condSet : Bool := false
  cond : LocalVariable := LocalVariable.noVariable
  thenb : Option Nat := none
  elseb : Option Nat := none
  loc : Loc := Loc.noLoc
deriving DecidableEq, Repr

/-- `cfg::BasicBlock`. -/
structure BasicBlock where
  id : Nat := 0
  outerLoops : Nat := 0
  rubyBlockId : Nat := 0
  exprs : List Binding := []
  backEdges : List Nat := []
  bexit : BlockExit := {}
  flags : Nat := 0
deriving DecidableEq, Repr

/-- `CFG::WAS_JUMP_DESTINATION` flag bit. -/
def WAS_JUMP_DESTINATION : Nat := 1

/-- `CFG::MIN_LOOP_LET`: sentinel for locals introduced by `let` casts. -/
def MIN_LOOP_LET : Int := -2

/-- Error codes enqueued by the walker (`core::errors::CFG` and
`core::errors::Internal`). -/
inductive ErrorCode where
  | UndeclaredVariable
  | MalformedTAbsurd
  | NoNextScope
  | InternalError
deriving DecidableEq, Repr

/-- The dead block's index: the CFG's singleton sink allocated on
construction. -/
def deadBlockId : Nat := 0

/-- The mutable per-method lowering state: the `cfg::CFG` under construction
(blocks indexed by allocation order, `maxRubyBlockId`, `minLoops`), plus the
state shared by reference through the lowering context (the monotonic
temporary counter, the alias map, the undeclared-field map) and the error
queue of `GlobalState`. -/
structure St where
  blocks : Nat → BasicBlock
  nblocks : Nat
  maxRubyBlockId : Nat
  minLoops : LocalVariable → Option Int
  temporaryCounter : Nat
  aliases : SymbolRef → Option LocalVariable
  discoveredUndeclaredFields : Name → Option LocalVariable
  errors : List (Loc × ErrorCode)

/-- A CFG as constructed: the dead block (index `0`) exists from the start
and nothing else. -/
def St.init : St where
  blocks := fun i => { id := i }
  nblocks := 1
  maxRubyBlockId := 0
  minLoops := fun _ => none
  temporaryCounter := 0
  aliases := fun _ => none
  discoveredUndeclaredFields := fun _ => none
  errors := []

/-- Update block `i` in place. -/
def St.upd (st : St) (i : Nat) (f : BasicBlock → BasicBlock) : St :=
  { st with blocks := fun j => if j = i then f (st.blocks j) else st.blocks j }

/-- `bb->exprs.emplace_back(var, loc, instruction)`, with the given
`isSynthetic` flag. -/
def St.pushExpr (st : St) (b : Nat) (bind : LocalVariable) (loc : Loc)
    (inst : Instruction) (isSynthetic : Bool) : St :=
  st.upd b (fun bb => { bb with exprs := bb.exprs ++ [⟨bind, loc, inst, isSynthetic⟩] })

/-- `CFG::freshBlock(outerLoops, rubyBlockId)`: allocate a new empty block
and return its index. -/
def St.freshBlock (st : St) (outerLoops rubyBlockId : Nat) : St × Nat :=
  ({ st with
      blocks := fun j =>
        if j = st.nblocks then
          { id := st.nblocks, outerLoops := outerLoops, rubyBlockId := rubyBlockId }
        else st.blocks j
      nblocks := st.nblocks + 1 },
   st.nblocks)

/-- `CFGContext::newTemporary`: pre-increment the shared counter and pair it
with the name. -/
def St.newTemporary (st : St) (name : Name) : St × LocalVariable :=
  ({ st with temporaryCounter := st.temporaryCounter + 1 },
   ⟨name, st.temporaryCounter + 1⟩)

/-- `GlobalState::beginError`: the core only enqueues structured errors. -/
def St.beginError (st : St) (loc : Loc) (code : ErrorCode) : St :=
  { st with errors := st.errors ++ [(loc, code)] }

/-- `CFGBuilder::synthesizeExpr`: emplace a binding and mark it synthetic. -/
def synthesizeExpr (st : St) (bb : Nat) (var : LocalVariable) (loc : Loc)
    (inst : Instruction) : St :=
  st.pushExpr bb var loc inst true

/-- `cfg::conditionalJump` (builder_walk.cc lines 13-28): mark both
successors as jump destinations; then, unless the source is the dead block,
set the source's terminator to branch on `cond` and append the source to both
successors' back-edges. -/
def conditionalJump (frm : Nat) (cond : LocalVariable) (thenb elseb : Nat)
    (inWhat : St) (loc : Loc) : St :=
  let inWhat := inWhat.upd thenb
    (fun b => { b with flags := b.flags ||| WAS_JUMP_DESTINATION })
  let inWhat := inWhat.upd elseb
    (fun b => { b with flags := b.flags ||| WAS_JUMP_DESTINATION })
  if frm ≠ deadBlockId then
    let inWhat := inWhat.upd frm (fun b =>
      { b with bexit :=
          { condSet := true, cond := cond, thenb := some thenb,
            elseb := some elseb, loc := loc } })
    let inWhat := inWhat.upd thenb
      (fun b => { b with backEdges := b.backEdges ++ [frm] })
    inWhat.upd elseb (fun b => { b with backEdges := b.backEdges ++ [frm] })
  else inWhat

/-- `cfg::unconditionalJump` (builder_walk.cc lines 30-42): mark the target
as a jump destination; then, unless the source is the dead block, set the
source's terminator to `noVariable` with both successors equal to the target
and append one back-edge. -/
def unconditionalJump (frm tgt : Nat) (inWhat : St) (loc : Loc) : St :=
  let inWhat := inWhat.upd tgt
    (fun b => { b with flags := b.flags ||| WAS_JUMP_DESTINATION })
  if frm ≠ deadBlockId then
    let inWhat := inWhat.upd frm (fun b =>
      { b with bexit :=
          { condSet := true, cond := LocalVariable.noVariable,
            thenb := some tgt, elseb := some tgt, loc := loc } })
    inWhat.upd tgt (fun b => { b with backEdges := b.backEdges ++ [frm] })
  else inWhat

/-- `cfg::jumpToDead` (builder_walk.cc lines 44-56): unless the source is
the dead block, set the source's terminator to `noVariable` with both
successors equal to the dead block and append one back-edge to it. Note that,
unlike `unconditionalJump`, it touches no flags. -/
def jumpToDead (frm : Nat) (inWhat : St) (loc : Loc) : St :=
  if frm ≠ deadBlockId then
    let inWhat := inWhat.upd frm (fun b =>
      { b with bexit :=
          { condSet := true, cond := LocalVariable.noVariable,
            thenb := some deadBlockId, elseb := some deadBlockId, loc := loc } })
    inWhat.upd deadBlockId (fun b => { b with backEdges := b.backEdges ++ [frm] })
  else inWhat

/-- Modelled from the spec: the read-only symbol-table reader (an external
collaborator, interface-only per spec section 1): resolution of
instance/class variables to a member symbol of the enclosing class, and the
interned name of a symbol (used to name its method-local alias). -/
structure GlobalEnv where
  resolveField : Bool → Name → Option SymbolRef
  symbolName : SymbolRef → Name

/-- The two unresolved-identifier kinds that may reach the walker (other
kinds were removed by the namer). -/
inductive IdentKind where
  | classVar
  | instanceVar
deriving DecidableEq, Repr

/-- `cfg::CFGContext`: the lowering context threaded through the walk. The
shared-mutable members (`temporaryCounter`, `aliases`,
`discoveredUndeclaredFields`) live in `St`; the rest is the per-walk copy. -/
structure CFGContext where
  target : LocalVariable
  loops : Nat
  rubyBlockId : Nat
  nextScope : Option Nat := none
  breakScope : Option Nat := none
  blockBreakTarget : LocalVariable
  rescueScope : Option Nat := none
  link : Option SendAndBlockLink := none
  isInsideRubyBlock : Bool := false
  genv : GlobalEnv

/-- Modelled from the spec: `CFGContext::withTarget` — builder returning a
modified copy with a new target local (spec section 4.4). -/
def CFGContext.withTarget (c : CFGContext) (t : LocalVariable) : CFGContext :=
  { c with target := t }

/-- Modelled from the spec: `CFGContext::withLoopScope(nextScope, breakScope,
insideRubyBlock)` — enter a loop/iterator-block body: set the `next`/`break`
target blocks, set `isInsideRubyBlock`, and increment the lexical loop depth
(spec sections 4.3-4.4: "loops — current lexical loop depth; increments
entering a loop/iterator-block body"). -/
def CFGContext.withLoopScope (c : CFGContext) (nextScope breakScope : Nat)
    (insideRubyBlock : Bool) : CFGContext :=
  { c with
      nextScope := some nextScope
      breakScope := some breakScope
      isInsideRubyBlock := insideRubyBlock
      loops := c.loops + 1 }

/-- Modelled from the spec: `CFGContext::withBlockBreakTarget` — set the
local that a `break` should assign to (spec section 4.4). -/
def CFGContext.withBlockBreakTarget (c : CFGContext) (t : LocalVariable) :
    CFGContext :=
  { c with blockBreakTarget := t }

/-- Modelled from the spec: `CFGContext::withSendAndBlockLink` — set the
active iterator-block link (spec section 4.4). -/
def CFGContext.withSendAndBlockLink (c : CFGContext) (l : SendAndBlockLink) :
    CFGContext :=
  { c with link := some l }

/-- Modelled from the spec: `CFGContext::withRubyBlockId` — set the id of the
innermost iterator-block scope (spec section 4.4). -/
def CFGContext.withRubyBlockId (c : CFGContext) (id : Nat) : CFGContext :=
  { c with rubyBlockId := id }

/-- `cfg::global2Local` (builder_walk.cc lines 58-66): the method-local alias
for a global symbol, lazily allocating a fresh temporary named after the
symbol the first time it is aliased. -/
def global2Local (cctx : CFGContext) (what : SymbolRef) (st : St) :
    St × LocalVariable :=
  match st.aliases what with
  | some a => (st, a)
  | none =>
    let (st, a) := st.newTemporary (cctx.genv.symbolName what)
    ({ st with aliases := fun s => if s = what then some a else st.aliases s }, a)

/-- `cfg::unresolvedIdent2Local` (builder_walk.cc lines 68-103): resolve an
instance/class variable through the enclosing class; on failure report
`UndeclaredVariable` once and cache a fresh temporary keyed by name. -/
def unresolvedIdent2Local (cctx : CFGContext) (kind : IdentKind) (name : Name)
    (loc : Loc) (st : St) : St × LocalVariable :=
  match cctx.genv.resolveField (kind = IdentKind.classVar) name with
  | some sym => global2Local cctx sym st
  | none =>
    match st.discoveredUndeclaredFields name with
    | some lv => (st, lv)
    | none =>
      let st := st.beginError loc ErrorCode.UndeclaredVariable
      let (st, ret) := st.newTemporary name
      ({ st with
          discoveredUndeclaredFields := fun n =>
            if n = name then some ret else st.discoveredUndeclaredFields n },
       ret)

/-- A parsed iterator-block parameter. Modelled from the spec:
`ast::ArgParsing::parseArgs` is an external collaborator, so the embedded
block node carries its output (local, location, and the four shape flags)
directly. -/
structure ParsedArg where
  localVar : LocalVariable
  loc : Loc
  keyword : Bool
  repeated : Bool
  hasDefault : Bool
  shadow : Bool
deriving DecidableEq, Repr

/-- The four permitted assignment left-hand sides (builder_walk.cc lines
239-251); any other shape is a phase-contract violation and is excluded from
the embedding. -/
inductive LhsKind where
  | lhsConstantLit (loc : Loc) (symbol : SymbolRef)
  | lhsField (loc : Loc) (symbol : SymbolRef)
  | lhsLocal (loc : Loc) (localVariable : LocalVariable)
  | lhsUnresolvedIdent (loc : Loc) (kind : IdentKind) (name : Name)
deriving DecidableEq, Repr

/-- The left-hand-side local of an assignment (builder_walk.cc lines
239-251). -/
def lhs2Local (cctx : CFGContext) (lhs : LhsKind) (st : St) :
    St × LocalVariable :=
  match lhs with
  | .lhsConstantLit _ sym => global2Local cctx sym st
  | .lhsField _ sym => global2Local cctx sym st
  | .lhsLocal _ lv => (st, lv)
  | .lhsUnresolvedIdent loc kind name => unresolvedIdent2Local cctx kind name loc st

mutual
/-- The resolved AST reaching the walker (`ast::Expression` variants handled
by `CFGBuilder::walk`). Hash literals carry their parallel key/value vectors
as a list of pairs (the source walks `keys[i]`, `values[i]` in lockstep).
`ConstantLit.origScope` is the scope of the original
`UnresolvedConstantLit` when present (`a->original->scope`). -/
inductive Expression where
  | While (loc : Loc) (cond body : Expression)
  | Return (loc : Loc) (expr : Expression)
  | If (loc : Loc) (cond thenp elsep : Expression)
  | Literal (loc : Loc) (value : TypePtr)
  | UnresolvedIdent (loc : Loc) (kind : IdentKind) (name : Name)
  | Field (loc : Loc) (symbol : SymbolRef)
  | ConstantLit (loc : Loc) (symbol : SymbolRef) (origScope : OptExpression)
  | Local (loc : Loc) (localVariable : LocalVariable)
  | Assign (loc : Loc) (lhs : LhsKind) (rhs : Expression)
  | InsSeq (loc : Loc) (stats : ExpressionList) (expr : Expression)
  | Send (loc : Loc) (recv : Expression) (fn : Name) (args : ExpressionList)
      (isPrivateOk : Bool) (blk : OptBlock)
  | Next (loc : Loc) (expr : Expression)
  | Break (loc : Loc) (expr : Expression)
  | Retry (loc : Loc)
  | Rescue (loc : Loc) (body : Expression) (rescueCases : RescueCaseList)
      (elseExpr : Expression) (ensureExpr : Expression)
  | Hash (loc : Loc) (pairs : ExpressionPairList)
  | Array (loc : Loc) (elems : ExpressionList)
  | Cast (loc : Loc) (arg : Expression) (type : TypePtr) (cast : Name)
  | EmptyTree (loc : Loc)

/-- A vector of expressions (statement lists, call arguments, array
elements, exception-class lists). -/
inductive ExpressionList where
  | nil
  | cons (e : Expression) (es : ExpressionList)

/-- The parallel key/value vectors of a Hash literal, paired. -/
inductive ExpressionPairList where
  | nil
  | cons (k v : Expression) (rest : ExpressionPairList)

/-- An optional expression (`ConstantLit.origScope`). -/
inductive OptExpression where
  | none
  | some (e : Expression)

/-- An optional iterator block attached to a send. -/
inductive OptBlock where
  | none
  | some (b : BlockNode)

/-- `ast::Block`: an iterator block with its (parsed) parameters and body. -/
inductive BlockNode where
  | mk (loc : Loc) (args : List ParsedArg) (body : Expression)

/-- `ast::RescueCase`: exception-class list, the bound variable (the source
`ENFORCE`s it is an `ast::Local`), and the handler body. -/
inductive RescueCase where
  | mk (loc : Loc) (exceptions : ExpressionList) (var : LocalVariable)
      (varLoc : Loc) (body : Expression)

/-- The vector of rescue cases of a `Rescue` node. -/
inductive RescueCaseList where
  | nil
  | cons (c : RescueCase) (cs : RescueCaseList)
end

/-- The source location of a node (`ast::Expression::loc`). -/
def Expression.loc : Expression → Loc
  | .While l _ _ => l
  | .Return l _ => l
  | .If l _ _ _ => l
  | .Literal l _ => l
  | .UnresolvedIdent l _ _ => l
  | .Field l _ => l
  | .ConstantLit l _ _ => l
  | .Local l _ => l
  | .Assign l _ _ => l
  | .InsSeq l _ _ => l
  | .Send l _ _ _ _ _ => l
  | .Next l _ => l
  | .Break l _ => l
  | .Retry l => l
  | .Rescue l _ _ _ _ => l
  | .Hash l _ => l
  | .Array l _ => l
  | .Cast l _ _ _ => l
  | .EmptyTree l => l

/-- `ast::isa_tree<ast::Send>`. -/
def Expression.isSend : Expression → Bool
  | .Send _ _ _ _ _ _ => true
  | _ => false

/-- `ast::cast_tree<ast::ConstantLit>(s->recv)` together with the
`cnst->symbol == core::Symbols::T()` check of the `T.absurd` special case. -/
def recvResolvesToT : Expression → Bool
  | .ConstantLit _ sym _ => sym = SymbolRef.T
  | _ => false

/-- Length of an expression vector. -/
def ExpressionList.length : ExpressionList → Nat
  | .nil => 0
  | .cons _ es => es.length + 1

/-- `exceptions.empty()`. -/
def ExpressionList.isEmpty : ExpressionList → Bool
  | .nil => true
  | .cons _ _ => false

/-- `emplace_back` on an expression vector. -/
def ExpressionList.push : ExpressionList → Expression → ExpressionList
  | .nil, x => .cons x .nil
  | .cons e es, x => .cons e (es.push x)

/-- `pop_back` on an expression vector. -/
def ExpressionList.popBack : ExpressionList → ExpressionList
  | .nil => .nil
  | .cons _ .nil => .nil
  | .cons e (.cons f es) => .cons e ((ExpressionList.cons f es).popBack)

/-- `ast::MK::Constant(loc, symbol)`: a resolved constant literal with no
original. -/
def MKConstant (loc : Loc) (symbol : SymbolRef) : Expression :=
  .ConstantLit loc symbol .none

/-- Builder_walk.cc lines 539-544: the exception vector actually iterated
over for one rescue case, and the `added` flag — a `rescue` without a class
list temporarily has a synthetic `StandardError` constant appended. -/
def rescueCaseExceptionsToWalk (exceptions : ExpressionList) (varLoc : Loc) :
    ExpressionList × Bool :=
  if exceptions.isEmpty then
    (exceptions.push (MKConstant varLoc SymbolRef.StandardError), true)
  else (exceptions, false)

/-- Builder_walk.cc lines 565-567: after the case's classes are processed,
the synthetic `StandardError` is popped back off when it had been `added`,
restoring the input AST's exception vector. -/
def rescueCaseExceptionsAfter (exceptions : ExpressionList) (varLoc : Loc) :
    ExpressionList :=
  let p := rescueCaseExceptionsToWalk exceptions varLoc
  if p.2 then p.1.popBack else p.1

/-- The `ArgFlags` extracted from parsed block parameters (builder_walk.cc
lines 315-322). -/
def parsedArgFlags (args : List ParsedArg) : List ArgFlags :=
  args.map (fun e => ⟨e.keyword, e.repeated, e.hasDefault, e.shadow⟩)

/-- Builder_walk.cc lines 345-373: bind each block parameter from `argTemp`.
A repeated parameter at position 0 binds directly; at other positions it is
bound to `Alias untyped`; a normal parameter is bound by a synthetic
zero-length literal index followed by a `Send(argTemp, [], [idx])`. -/
def bindBlockArgs (st : St) (bodyBlock : Nat) (argTemp idxTmp : LocalVariable)
    (blockLoc : Loc) (args : List ParsedArg) (i : Nat) : St :=
  match args with
  | [] => st
  | arg :: rest =>
    let st :=
      if arg.repeated then
        if i ≠ 0 then
          st.pushExpr bodyBlock arg.localVar arg.loc (.Alias SymbolRef.untyped) false
        else
          st.pushExpr bodyBlock arg.localVar arg.loc (.Ident argTemp) false
      else
        let zeroLengthLoc := arg.loc.copyWithZeroLength
        let st := st.pushExpr bodyBlock idxTmp zeroLengthLoc
          (.Literal (.intLit (Int.ofNat i))) false
        st.pushExpr bodyBlock arg.localVar arg.loc
          (.Send argTemp Name.squareBrackets blockLoc [idxTmp] [zeroLengthLoc]
            false none) false
    bindBlockArgs st bodyBlock argTemp idxTmp blockLoc rest (i + 1)

/-- Builder_walk.cc lines 550-563: after one exception class has been walked
into `exceptionClass`, emit the `is_a?` check into the handlers block,
allocate the next handler-head block, and conditional-jump between the case
body and that block. Returns the new handlers head. -/
def exceptionStep (cctx : CFGContext) (localVar : LocalVariable) (eloc : Loc)
    (exceptionClass : LocalVariable) (caseBody handlers : Nat) (st : St) :
    St × Nat :=
  let (st, isaCheck) := st.newTemporary Name.isaCheckTemp
  let st := st.pushExpr handlers isaCheck eloc
    (.Send localVar Name.is_a_p eloc [exceptionClass] [eloc] false none) false
  let (st, otherHandlerBlock) := st.freshBlock cctx.loops cctx.rubyBlockId
  let st := conditionalJump handlers isaCheck caseBody otherHandlerBlock st eloc
  (st, otherHandlerBlock)

mutual
/-- `CFGBuilder::walk(cctx, what, current)` (builder_walk.cc lines 113-657):
evaluate `what` starting in block `current`, storing its value into
`cctx.target`; returns the continuation block. -/
def walk (cctx : CFGContext) (what : Expression) (current : Nat) (st : St) :
    St × Nat :=
  match what with
  | .While loc cond body =>
    let (st, headerBlock) := st.freshBlock (cctx.loops + 1) cctx.rubyBlockId
    let (st, breakNotCalledBlock) := st.freshBlock cctx.loops cctx.rubyBlockId
    let (st, continueBlock) := st.freshBlock cctx.loops cctx.rubyBlockId
    let st := unconditionalJump current headerBlock st loc
    let (st, condSym) := st.newTemporary Name.whileTemp
    let (st, headerEnd) :=
      walk ((cctx.withTarget condSym).withLoopScope headerBlock continueBlock false)
        cond headerBlock st
    let (st, bodyBlock) := st.freshBlock (cctx.loops + 1) cctx.rubyBlockId
    let st := conditionalJump headerEnd condSym bodyBlock breakNotCalledBlock st cond.loc
    let (st, bodySym) := st.newTemporary Name.statTemp
    let (st, bodyEnd) :=
      walk ((((cctx.withTarget bodySym).withLoopScope headerBlock continueBlock
          false)).withBlockBreakTarget cctx.target) body bodyBlock st
    let st := unconditionalJump bodyEnd headerBlock st loc
    let st := synthesizeExpr st breakNotCalledBlock cctx.target loc
      (.Literal TypePtr.nilClass)
    let st := unconditionalJump breakNotCalledBlock continueBlock st loc
    (st, continueBlock)
  | .Return loc expr =>
    let (st, retSym) := st.newTemporary Name.returnTemp
    let (st, cont) := walk (cctx.withTarget retSym) expr current st
    let st := st.pushExpr cont cctx.target loc (.Return retSym) false
    let st := jumpToDead cont st loc
    (st, deadBlockId)
  | .If loc cond thenp elsep =>
    let (st, ifSym) := st.newTemporary Name.ifTemp
    let (st, cont) := walk (cctx.withTarget ifSym) cond current st
    let (st, thenBlock) := st.freshBlock cctx.loops cctx.rubyBlockId
    let (st, elseBlock) := st.freshBlock cctx.loops cctx.rubyBlockId
    let st := conditionalJump cont ifSym thenBlock elseBlock st cond.loc
    let (st, thenEnd) := walk cctx thenp thenBlock st
    let (st, elseEnd) := walk cctx elsep elseBlock st
    if thenEnd ≠ deadBlockId ∨ elseEnd ≠ deadBlockId then
      if thenEnd = deadBlockId then (st, elseEnd)
      else if thenEnd = deadBlockId then (st, thenEnd)
        -- the duplicated `thenEnd == deadBlock` test is reproduced verbatim
        -- from the source (lines 189-192)
      else
        let (st, retB) := st.freshBlock cctx.loops cctx.rubyBlockId
        let st := unconditionalJump thenEnd retB st loc
        let st := unconditionalJump elseEnd retB st loc
        (st, retB)
    else (st, deadBlockId)
  | .Literal loc value =>
    (st.pushExpr current cctx.target loc (.Literal value) false, current)
  | .UnresolvedIdent loc kind name =>
    let (st, lv) := unresolvedIdent2Local cctx kind name loc st
    (st.pushExpr current cctx.target loc (.Ident lv) false, current)
  | .Field loc symbol =>
    let (st, lv) := global2Local cctx symbol st
    (st.pushExpr current cctx.target loc (.Ident lv) false, current)
  | .ConstantLit loc symbol origScope =>
    let st :=
      if symbol = SymbolRef.StubModule then
        st.pushExpr current cctx.target loc (.Alias SymbolRef.untyped) false
      else
        st.pushExpr current cctx.target loc (.Alias symbol) false
    match origScope with
    | .none => (st, current)
    | .some sc =>
      match sc with
      | .ConstantLit _ _ _ =>
        let (st, deadSym) := st.newTemporary Name.keepForIde
        walk (cctx.withTarget deadSym) sc current st
      | _ => (st, current)
  | .Local loc localVariable =>
    (st.pushExpr current cctx.target loc (.Ident localVariable) false, current)
  | .Assign loc lhs rhs =>
    let (st, lhsLocal) := lhs2Local cctx lhs st
    let (st, rhsCont) := walk (cctx.withTarget lhsLocal) rhs current st
    (st.pushExpr rhsCont cctx.target loc (.Ident lhsLocal) false, rhsCont)
  | .InsSeq _ stats expr =>
    let (st, current) := walkStats cctx stats current st
    walk cctx expr current st
  | .Send loc recv fn args isPrivateOk blk =>
    if fn = Name.absurd ∧ recvResolvesToT recv then
      match args with
      | .cons arg .nil =>
        if arg.isSend then
          (st.beginError loc ErrorCode.MalformedTAbsurd, current)
        else
          let (st, temp) := st.newTemporary Name.statTemp
          let (st, current) := walk (cctx.withTarget temp) arg current st
          (st.pushExpr current cctx.target loc (.TAbsurd temp) false, current)
      | _ => (st.beginError loc ErrorCode.MalformedTAbsurd, current)
    else
      let (st, recvTemp) := st.newTemporary Name.statTemp
      let (st, current) := walk (cctx.withTarget recvTemp) recv current st
      let (st, current, argVars, argLocs) := walkArgs cctx args current st
      match blk with
      | .some b =>
        walkSendBlock cctx loc fn recv.loc isPrivateOk b recvTemp argVars
          argLocs current st
      | .none =>
        (st.pushExpr current cctx.target loc
          (.Send recvTemp fn recv.loc argVars argLocs isPrivateOk none) false,
         current)
  | .Next loc expr =>
    let (st, exprSym) := st.newTemporary Name.nextTemp
    let (st, afterNext) := walk (cctx.withTarget exprSym) expr current st
    let st :=
      if afterNext ≠ deadBlockId ∧ cctx.isInsideRubyBlock then
        let (st, deadTmp) := st.newTemporary Name.nextTemp
        -- plain `exprs.emplace_back` in the source: `isSynthetic` is not set
        st.pushExpr afterNext deadTmp loc (.BlockReturn cctx.link exprSym) false
      else st
    match cctx.nextScope with
    | none =>
      let st := st.beginError loc ErrorCode.NoNextScope
      (unconditionalJump afterNext deadBlockId st loc, deadBlockId)
    | some ns => (unconditionalJump afterNext ns st loc, deadBlockId)
  | .Break loc expr =>
    let (st, exprSym) := st.newTemporary Name.returnTemp
    let (st, afterBreak) := walk (cctx.withTarget exprSym) expr current st
    let (st, blockBreakAssign) := st.newTemporary Name.blockBreakAssignName
    let st := st.pushExpr afterBreak blockBreakAssign loc (.Ident exprSym) false
    let st := st.pushExpr afterBreak cctx.blockBreakTarget loc
      (.Ident blockBreakAssign) false
    match cctx.breakScope with
    | none =>
      let st := st.beginError loc ErrorCode.NoNextScope
      (unconditionalJump afterBreak deadBlockId st loc, deadBlockId)
    | some bs => (unconditionalJump afterBreak bs st loc, deadBlockId)
  | .Retry loc =>
    match cctx.rescueScope with
    | none =>
      let st := st.beginError loc ErrorCode.NoNextScope
      (unconditionalJump current deadBlockId st loc, deadBlockId)
    | some rs => (unconditionalJump current rs st loc, deadBlockId)
  | .Rescue loc body rescueCases elseExpr ensureExpr =>
    let (st, rescueStartBlock) := st.freshBlock cctx.loops cctx.rubyBlockId
    let st := unconditionalJump current rescueStartBlock st loc
    let cctx := { cctx with rescueScope := some rescueStartBlock }
    let (st, rescueHandlersBlock) := st.freshBlock cctx.loops cctx.rubyBlockId
    let (st, bodyBlock) := st.freshBlock cctx.loops cctx.rubyBlockId
    let (st, rescueStartTemp) := st.newTemporary Name.rescueStartTemp
    let st := synthesizeExpr st rescueStartBlock rescueStartTemp loc .Unanalyzable
    let st := conditionalJump rescueStartBlock rescueStartTemp
      rescueHandlersBlock bodyBlock st loc
    let (st, bodyEnd) := walk cctx body bodyBlock st
    let (st, elseBody) := st.freshBlock cctx.loops cctx.rubyBlockId
    let st := unconditionalJump bodyEnd elseBody st loc
    let (st, elseEnd) := walk cctx elseExpr elseBody st
    let (st, ensureBody) := st.freshBlock cctx.loops cctx.rubyBlockId
    let (st, shouldEnsureBlock) := st.freshBlock cctx.loops cctx.rubyBlockId
    let st := unconditionalJump elseEnd shouldEnsureBlock st loc
    let (st, rescueEndTemp) := st.newTemporary Name.rescueEndTemp
    let st := synthesizeExpr st shouldEnsureBlock rescueEndTemp loc .Unanalyzable
    let st := conditionalJump shouldEnsureBlock rescueEndTemp
      rescueHandlersBlock ensureBody st loc
    let (st, handlers) :=
      walkRescueCases cctx loc rescueCases ensureBody rescueHandlersBlock st
    -- the tail (lines 573-584) is `walkRescueTail`, defined below; it is
    -- inlined here so the group stays structurally recursive (see
    -- `walk_Rescue_tail`)
    let (st, gotoDead) := st.newTemporary Name.gotoDeadTemp
    let st := synthesizeExpr st handlers gotoDead loc
      (.Literal (TypePtr.boolLit true))
    let st := unconditionalJump handlers ensureBody st loc
    let (st, throwAway) := st.newTemporary Name.throwAwayTemp
    let (st, ensureEnd) := walk (cctx.withTarget throwAway) ensureExpr ensureBody st
    let (st, retB) := st.freshBlock cctx.loops cctx.rubyBlockId
    let st := conditionalJump ensureEnd gotoDead deadBlockId retB st loc
    (st, retB)
  | .Hash loc pairs =>
    let (st, current, vars, locs) := walkHashPairs cctx pairs current st
    let (st, magicVar) := st.newTemporary Name.magic
    let st := synthesizeExpr st current magicVar Loc.noLoc (.Alias SymbolRef.Magic)
    let st := st.pushExpr current cctx.target loc
      (.Send magicVar Name.buildHash loc vars locs false none) false
    (st, current)
  | .Array loc elems =>
    let (st, current, vars, locs) := walkElems cctx loc elems current st
    let (st, magicVar) := st.newTemporary Name.magic
    let st := synthesizeExpr st current magicVar Loc.noLoc (.Alias SymbolRef.Magic)
    let st := st.pushExpr current cctx.target loc
      (.Send magicVar Name.buildArray loc vars locs false none) false
    (st, current)
  | .Cast loc arg type cast =>
    let (st, tmp) := st.newTemporary Name.castTemp
    let (st, current) := walk (cctx.withTarget tmp) arg current st
    let st := st.pushExpr current cctx.target loc (.Cast tmp type cast) false
    let st :=
      if cast = Name.letKind then
        { st with
            minLoops := fun lv =>
              if lv = cctx.target then some MIN_LOOP_LET else st.minLoops lv }
      else st
    (st, current)
  | .EmptyTree _ => (st, current)

/-- The statement loop of the `InsSeq` case (builder_walk.cc lines 257-262):
each statement is walked with a fresh throwaway `statTemp` target. -/
def walkStats (cctx : CFGContext) (stats : ExpressionList) (current : Nat)
    (st : St) : St × Nat :=
  match stats with
  | .nil => (st, current)
  | .cons e es =>
    let (st, temp) := st.newTemporary Name.statTemp
    let (st, current) := walk (cctx.withTarget temp) e current st
    walkStats cctx es current st

/-- The argument loop of the `Send` case (builder_walk.cc lines 301-310):
walk each argument into a fresh `statTemp`, accumulating arg locals and arg
locations in order. -/
def walkArgs (cctx : CFGContext) (args : ExpressionList) (current : Nat)
    (st : St) : St × Nat × List LocalVariable × List Loc :=
  match args with
  | .nil => (st, current, [], [])
  | .cons e es =>
    let (st, temp) := st.newTemporary Name.statTemp
    let (st, current) := walk (cctx.withTarget temp) e current st
    let (st, current, vs, ls) := walkArgs cctx es current st
    (st, current, temp :: vs, e.loc :: ls)

/-- The element loop of the `Array` case (builder_walk.cc lines 613-618):
walk each element into a fresh `arrayTemp`; every accumulated location is the
array literal's own location. -/
def walkElems (cctx : CFGContext) (aloc : Loc) (elems : ExpressionList)
    (current : Nat) (st : St) : St × Nat × List LocalVariable × List Loc :=
  match elems with
  | .nil => (st, current, [], [])
  | .cons e es =>
    let (st, tmp) := st.newTemporary Name.arrayTemp
    let (st, current) := walk (cctx.withTarget tmp) e current st
    let (st, current, vs, ls) := walkElems cctx aloc es current st
    (st, current, tmp :: vs, aloc :: ls)

/-- The pair loop of the `Hash` case (builder_walk.cc lines 590-599): per
pair, allocate `keyTmp` and `valTmp`, walk the key then the value, and
accumulate locals and locations alternately. -/
def walkHashPairs (cctx : CFGContext) (pairs : ExpressionPairList)
    (current : Nat) (st : St) : St × Nat × List LocalVariable × List Loc :=
  match pairs with
  | .nil => (st, current, [], [])
  | .cons k v rest =>
    let (st, keyTmp) := st.newTemporary Name.hashTemp
    let (st, valTmp) := st.newTemporary Name.hashTemp
    let (st, current) := walk (cctx.withTarget keyTmp) k current st
    let (st, current) := walk (cctx.withTarget valTmp) v current st
    let (st, current, vs, ls) := walkHashPairs cctx rest current st
    (st, current, keyTmp :: valTmp :: vs, k.loc :: v.loc :: ls)

/-- The iterator-block half of the `Send` case (builder_walk.cc lines
312-418), entered after the receiver and arguments have been walked. -/
def walkSendBlock (cctx : CFGContext) (sloc : Loc) (fn : Name) (recvLoc : Loc)
    (isPrivateOk : Bool) (blockNode : BlockNode) (recv : LocalVariable)
    (args : List LocalVariable) (argLocs : List Loc) (current : Nat)
    (st : St) : St × Nat :=
  match blockNode with
  | .mk blockLoc blockArgs blockBody =>
    let newRubyBlockId := st.maxRubyBlockId + 1
    let st := { st with maxRubyBlockId := newRubyBlockId }
    let argFlags := parsedArgFlags blockArgs
    let link : SendAndBlockLink := ⟨fn, argFlags, newRubyBlockId⟩
    let (st, sendTemp) := st.newTemporary Name.blockPreCallTemp
    let st := st.pushExpr current sendTemp sloc
      (.Send recv fn recvLoc args argLocs isPrivateOk (some link)) false
    let (st, restoreSelf) := st.newTemporary Name.selfRestore
    let st := synthesizeExpr st current restoreSelf Loc.noLoc
      (.Ident LocalVariable.selfVariable)
    let (st, headerBlock) := st.freshBlock (cctx.loops + 1) newRubyBlockId
    let (st, solveConstraintBlock) := st.freshBlock cctx.loops cctx.rubyBlockId
    let (st, postBlock) := st.freshBlock cctx.loops cctx.rubyBlockId
    let (st, bodyBlock) := st.freshBlock (cctx.loops + 1) newRubyBlockId
    let (st, argTemp) := st.newTemporary Name.blkArg
    let (st, idxTmp) := st.newTemporary Name.blkArg
    let st := st.pushExpr bodyBlock LocalVariable.selfVariable sloc
      (.LoadSelf (some link) LocalVariable.selfVariable) false
    let st := st.pushExpr bodyBlock argTemp blockLoc
      (.LoadYieldParams (some link)) false
    let st := bindBlockArgs st bodyBlock argTemp idxTmp blockLoc blockArgs 0
    let st := conditionalJump headerBlock LocalVariable.blockCall bodyBlock
      solveConstraintBlock st sloc
    let st := unconditionalJump current headerBlock st sloc
    let (st, blockrv) := st.newTemporary Name.blockReturnTemp
    let cctxBody :=
      ((((cctx.withTarget blockrv).withBlockBreakTarget
          cctx.target).withLoopScope headerBlock postBlock
          true).withSendAndBlockLink link).withRubyBlockId newRubyBlockId
    let (st, blockLast) := walk cctxBody blockBody bodyBlock st
    let st :=
      if blockLast ≠ deadBlockId then
        let (st, deadTmp) := st.newTemporary Name.blockReturnTemp
        synthesizeExpr st blockLast deadTmp blockLoc
          (.BlockReturn (some link) blockrv)
      else st
    let st := unconditionalJump blockLast headerBlock st sloc
    let st := unconditionalJump solveConstraintBlock postBlock st sloc
    let st := st.pushExpr solveConstraintBlock cctx.target sloc
      (.SolveConstraint (some link) sendTemp) false
    let current := postBlock
    let st := synthesizeExpr st current LocalVariable.selfVariable sloc
      (.Ident restoreSelf)
    (st, current)

/-- The rescue-case loop (builder_walk.cc lines 530-571), threading the
handlers-head block through the cases. -/
def walkRescueCases (cctx : CFGContext) (loc : Loc) (cases : RescueCaseList)
    (ensureBody handlers : Nat) (st : St) : St × Nat :=
  match cases with
  | .nil => (st, handlers)
  | .cons c cs =>
    let (st, handlers) := walkRescueCase cctx loc c ensureBody handlers st
    walkRescueCases cctx loc cs ensureBody handlers st

/-- One rescue case (builder_walk.cc lines 530-571): bind the exception
variable with `Unanalyzable` in the handlers block, walk each listed
exception class (a case with no classes walks the temporarily appended
synthetic `StandardError` constant — cf. `rescueCaseExceptionsToWalk`, and
`walkRescueCase_empty_exceptions` below for the equivalence), then walk the
case body and unconditional-jump it to the ensure body. -/
def walkRescueCase (cctx : CFGContext) (loc : Loc) (c : RescueCase)
    (ensureBody handlers : Nat) (st : St) : St × Nat :=
  match c with
  | .mk _ exceptions varLocal varLoc body =>
    let (st, caseBody) := st.freshBlock cctx.loops cctx.rubyBlockId
    let st := st.pushExpr handlers varLocal varLoc .Unanalyzable false
    let (st, handlers) :=
      if exceptions.isEmpty then
        -- walking `MK::Constant(var->loc, StandardError)` (the element
        -- appended by `rescueCaseExceptionsToWalk` and popped afterwards)
        -- emits a single `Alias StandardError`; then the common per-class
        -- step runs
        let (st, exceptionClass) := st.newTemporary Name.exceptionClassTemp
        let st := st.pushExpr handlers exceptionClass varLoc
          (.Alias SymbolRef.StandardError) false
        exceptionStep cctx varLocal varLoc exceptionClass caseBody handlers st
      else walkExceptions cctx varLocal exceptions caseBody handlers st
    let (st, caseBodyEnd) := walk cctx body caseBody st
    let st := unconditionalJump caseBodyEnd ensureBody st loc
    (st, handlers)

/-- The exception-class loop of one rescue case (builder_walk.cc lines
545-564). -/
def walkExceptions (cctx : CFGContext) (localVar : LocalVariable)
    (exs : ExpressionList) (caseBody handlers : Nat) (st : St) : St × Nat :=
  match exs with
  | .nil => (st, handlers)
  | .cons ex rest =>
    let (st, exceptionClass) := st.newTemporary Name.exceptionClassTemp
    let (st, handlers) := walk (cctx.withTarget exceptionClass) ex handlers st
    let (st, handlers) :=
      exceptionStep cctx localVar ex.loc exceptionClass caseBody handlers st
    walkExceptions cctx localVar rest caseBody handlers st
end

/-- Builder_walk.cc lines 573-584 (the tail of the `Rescue` case, inlined in
`walk`): after all rescue cases, emit the synthetic `gotoDeadTemp := true`
into the final handlers block, unconditional-jump it to the ensure body, walk
the ensure expression with a fresh throwaway target, allocate `ret`, and
conditional-jump the ensure continuation on `gotoDeadTemp` to dead vs.
`ret`. -/
def walkRescueTail (cctx : CFGContext) (ensureExpr : Expression)
    (handlers ensureBody : Nat) (loc : Loc) (st : St) : St × Nat :=
  let (st, gotoDead) := st.newTemporary Name.gotoDeadTemp
  let st := synthesizeExpr st handlers gotoDead loc
    (.Literal (TypePtr.boolLit true))
  let st := unconditionalJump handlers ensureBody st loc
  let (st, throwAway) := st.newTemporary Name.throwAwayTemp
  let (st, ensureEnd) := walk (cctx.withTarget throwAway) ensureExpr ensureBody st
  let (st, retB) := st.freshBlock cctx.loops cctx.rubyBlockId
  let st := conditionalJump ensureEnd gotoDead deadBlockId retB st loc
  (st, retB)

set_option maxHeartbeats 2000000

/-! ### Unfolding equations for `walk` and its helpers, one per case,
proved definitionally (the generic equation generator is too costly for this
mutual group). -/

theorem walk_While (cctx : CFGContext) (loc : Loc) (cond body : Expression)
    (current : Nat) (st : St) :
    walk cctx (.While loc cond body) current st =
    let (st, headerBlock) := st.freshBlock (cctx.loops + 1) cctx.rubyBlockId
    let (st, breakNotCalledBlock) := st.freshBlock cctx.loops cctx.rubyBlockId
    let (st, continueBlock) := st.freshBlock cctx.loops cctx.rubyBlockId
    let st := unconditionalJump current headerBlock st loc
    let (st, condSym) := st.newTemporary Name.whileTemp
    let (st, headerEnd) :=
      walk ((cctx.withTarget condSym).withLoopScope headerBlock continueBlock false)
        cond headerBlock st
    let (st, bodyBlock) := st.freshBlock (cctx.loops + 1) cctx.rubyBlockId
    let st := conditionalJump headerEnd condSym bodyBlock breakNotCalledBlock st cond.loc
    let (st, bodySym) := st.newTemporary Name.statTemp
    let (st, bodyEnd) :=
      walk ((((cctx.withTarget bodySym).withLoopScope headerBlock continueBlock
          false)).withBlockBreakTarget cctx.target) body bodyBlock st
    let st := unconditionalJump bodyEnd headerBlock st loc
    let st := synthesizeExpr st breakNotCalledBlock cctx.target loc
      (.Literal TypePtr.nilClass)
    let st := unconditionalJump breakNotCalledBlock continueBlock st loc
    (st, continueBlock) := rfl

theorem walk_Return (cctx : CFGContext) (loc : Loc) (expr : Expression)
    (current : Nat) (st : St) :
    walk cctx (.Return loc expr) current st =
    let (st, retSym) := st.newTemporary Name.returnTemp
    let (st, cont) := walk (cctx.withTarget retSym) expr current st
    let st := st.pushExpr cont cctx.target loc (.Return retSym) false
    let st := jumpToDead cont st loc
    (st, deadBlockId) := rfl

theorem walk_If (cctx : CFGContext) (loc : Loc) (cond thenp elsep : Expression)
    (current : Nat) (st : St) :
    walk cctx (.If loc cond thenp elsep) current st =
    let (st, ifSym) := st.newTemporary Name.ifTemp
    let (st, cont) := walk (cctx.withTarget ifSym) cond current st
    let (st, thenBlock) := st.freshBlock cctx.loops cctx.rubyBlockId
    let (st, elseBlock) := st.freshBlock cctx.loops cctx.rubyBlockId
    let st := conditionalJump cont ifSym thenBlock elseBlock st cond.loc
    let (st, thenEnd) := walk cctx thenp thenBlock st
    let (st, elseEnd) := walk cctx elsep elseBlock st
    if thenEnd ≠ deadBlockId ∨ elseEnd ≠ deadBlockId then
      if thenEnd = deadBlockId then (st, elseEnd)
      else if thenEnd = deadBlockId then (st, thenEnd)
        -- the duplicated `thenEnd == deadBlock` test is reproduced verbatim
        -- from the source (lines 189-192)
      else
        let (st, retB) := st.freshBlock cctx.loops cctx.rubyBlockId
        let st := unconditionalJump thenEnd retB st loc
        let st := unconditionalJump elseEnd retB st loc
        (st, retB)
    else (st, deadBlockId) := rfl

theorem walk_Literal (cctx : CFGContext) (loc : Loc) (value : TypePtr)
    (current : Nat) (st : St) :
    walk cctx (.Literal loc value) current st =
    (st.pushExpr current cctx.target loc (.Literal value) false, current) := rfl

theorem walk_UnresolvedIdent (cctx : CFGContext) (loc : Loc) (kind : IdentKind) (name : Name)
    (current : Nat) (st : St) :
    walk cctx (.UnresolvedIdent loc kind name) current st =
    let (st, lv) := unresolvedIdent2Local cctx kind name loc st
    (st.pushExpr current cctx.target loc (.Ident lv) false, current) := rfl

theorem walk_Field (cctx : CFGContext) (loc : Loc) (symbol : SymbolRef)
    (current : Nat) (st : St) :
    walk cctx (.Field loc symbol) current st =
    let (st, lv) := global2Local cctx symbol st
    (st.pushExpr current cctx.target loc (.Ident lv) false, current) := rfl



theorem walk_Local (cctx : CFGContext) (loc : Loc) (localVariable : LocalVariable)
    (current : Nat) (st : St) :
    walk cctx (.Local loc localVariable) current st =
    (st.pushExpr current cctx.target loc (.Ident localVariable) false, current) := rfl

theorem walk_Assign (cctx : CFGContext) (loc : Loc) (lhs : LhsKind) (rhs : Expression)
    (current : Nat) (st : St) :
    walk cctx (.Assign loc lhs rhs) current st =
    let (st, lhsLocal) := lhs2Local cctx lhs st
    let (st, rhsCont) := walk (cctx.withTarget lhsLocal) rhs current st
    (st.pushExpr rhsCont cctx.target loc (.Ident lhsLocal) false, rhsCont) := rfl

theorem walk_InsSeq (cctx : CFGContext) (loc : Loc) (stats : ExpressionList) (expr : Expression)
    (current : Nat) (st : St) :
    walk cctx (.InsSeq loc stats expr) current st =
    let (st, current) := walkStats cctx stats current st
    walk cctx expr current st := rfl



theorem walk_Next (cctx : CFGContext) (loc : Loc) (expr : Expression)
    (current : Nat) (st : St) :
    walk cctx (.Next loc expr) current st =
    let (st, exprSym) := st.newTemporary Name.nextTemp
    let (st, afterNext) := walk (cctx.withTarget exprSym) expr current st
    let st :=
      if afterNext ≠ deadBlockId ∧ cctx.isInsideRubyBlock then
        let (st, deadTmp) := st.newTemporary Name.nextTemp
        -- plain `exprs.emplace_back` in the source: `isSynthetic` is not set
        st.pushExpr afterNext deadTmp loc (.BlockReturn cctx.link exprSym) false
      else st
    match cctx.nextScope with
    | none =>
      let st := st.beginError loc ErrorCode.NoNextScope
      (unconditionalJump afterNext deadBlockId st loc, deadBlockId)
    | some ns => (unconditionalJump afterNext ns st loc, deadBlockId) := rfl

theorem walk_Break (cctx : CFGContext) (loc : Loc) (expr : Expression)
    (current : Nat) (st : St) :
    walk cctx (.Break loc expr) current st =
    let (st, exprSym) := st.newTemporary Name.returnTemp
    let (st, afterBreak) := walk (cctx.withTarget exprSym) expr current st
    let (st, blockBreakAssign) := st.newTemporary Name.blockBreakAssignName
    let st := st.pushExpr afterBreak blockBreakAssign loc (.Ident exprSym) false
    let st := st.pushExpr afterBreak cctx.blockBreakTarget loc
      (.Ident blockBreakAssign) false
    match cctx.breakScope with
    | none =>
      let st := st.beginError loc ErrorCode.NoNextScope
      (unconditionalJump afterBreak deadBlockId st loc, deadBlockId)
    | some bs => (unconditionalJump afterBreak bs st loc, deadBlockId) := rfl

theorem walk_Retry (cctx : CFGContext) (loc : Loc)
    (current : Nat) (st : St) :
    walk cctx (.Retry loc) current st =
    match cctx.rescueScope with
    | none =>
      let st := st.beginError loc ErrorCode.NoNextScope
      (unconditionalJump current deadBlockId st loc, deadBlockId)
    | some rs => (unconditionalJump current rs st loc, deadBlockId) := rfl

theorem walk_Rescue (cctx : CFGContext) (loc : Loc) (body : Expression) (rescueCases : RescueCaseList) (elseExpr ensureExpr : Expression)
    (current : Nat) (st : St) :
    walk cctx (.Rescue loc body rescueCases elseExpr ensureExpr) current st =
    let (st, rescueStartBlock) := st.freshBlock cctx.loops cctx.rubyBlockId
    let st := unconditionalJump current rescueStartBlock st loc
    let cctx := { cctx with rescueScope := some rescueStartBlock }
    let (st, rescueHandlersBlock) := st.freshBlock cctx.loops cctx.rubyBlockId
    let (st, bodyBlock) := st.freshBlock cctx.loops cctx.rubyBlockId
    let (st, rescueStartTemp) := st.newTemporary Name.rescueStartTemp
    let st := synthesizeExpr st rescueStartBlock rescueStartTemp loc .Unanalyzable
    let st := conditionalJump rescueStartBlock rescueStartTemp
      rescueHandlersBlock bodyBlock st loc
    let (st, bodyEnd) := walk cctx body bodyBlock st
    let (st, elseBody) := st.freshBlock cctx.loops cctx.rubyBlockId
    let st := unconditionalJump bodyEnd elseBody st loc
    let (st, elseEnd) := walk cctx elseExpr elseBody st
    let (st, ensureBody) := st.freshBlock cctx.loops cctx.rubyBlockId
    let (st, shouldEnsureBlock) := st.freshBlock cctx.loops cctx.rubyBlockId
    let st := unconditionalJump elseEnd shouldEnsureBlock st loc
    let (st, rescueEndTemp) := st.newTemporary Name.rescueEndTemp
    let st := synthesizeExpr st shouldEnsureBlock rescueEndTemp loc .Unanalyzable
    let st := conditionalJump shouldEnsureBlock rescueEndTemp
      rescueHandlersBlock ensureBody st loc
    let (st, handlers) :=
      walkRescueCases cctx loc rescueCases ensureBody rescueHandlersBlock st
    -- the tail (lines 573-584) is `walkRescueTail`, defined below; it is
    -- inlined here so the group stays structurally recursive (see
    -- `walk_Rescue_tail`)
    let (st, gotoDead) := st.newTemporary Name.gotoDeadTemp
    let st := synthesizeExpr st handlers gotoDead loc
      (.Literal (TypePtr.boolLit true))
    let st := unconditionalJump handlers ensureBody st loc
    let (st, throwAway) := st.newTemporary Name.throwAwayTemp
    let (st, ensureEnd) := walk (cctx.withTarget throwAway) ensureExpr ensureBody st
    let (st, retB) := st.freshBlock cctx.loops cctx.rubyBlockId
    let st := conditionalJump ensureEnd gotoDead deadBlockId retB st loc
    (st, retB) := rfl

theorem walk_Hash (cctx : CFGContext) (loc : Loc) (pairs : ExpressionPairList)
    (current : Nat) (st : St) :
    walk cctx (.Hash loc pairs) current st =
    let (st, current, vars, locs) := walkHashPairs cctx pairs current st
    let (st, magicVar) := st.newTemporary Name.magic
    let st := synthesizeExpr st current magicVar Loc.noLoc (.Alias SymbolRef.Magic)
    let st := st.pushExpr current cctx.target loc
      (.Send magicVar Name.buildHash loc vars locs false none) false
    (st, current) := rfl

theorem walk_Array (cctx : CFGContext) (loc : Loc) (elems : ExpressionList)
    (current : Nat) (st : St) :
    walk cctx (.Array loc elems) current st =
    let (st, current, vars, locs) := walkElems cctx loc elems current st
    let (st, magicVar) := st.newTemporary Name.magic
    let st := synthesizeExpr st current magicVar Loc.noLoc (.Alias SymbolRef.Magic)
    let st := st.pushExpr current cctx.target loc
      (.Send magicVar Name.buildArray loc vars locs false none) false
    (st, current) := rfl

theorem walk_Cast (cctx : CFGContext) (loc : Loc) (arg : Expression) (type : TypePtr) (cast : Name)
    (current : Nat) (st : St) :
    walk cctx (.Cast loc arg type cast) current st =
    let (st, tmp) := st.newTemporary Name.castTemp
    let (st, current) := walk (cctx.withTarget tmp) arg current st
    let st := st.pushExpr current cctx.target loc (.Cast tmp type cast) false
    let st :=
      if cast = Name.letKind then
        { st with
            minLoops := fun lv =>
              if lv = cctx.target then some MIN_LOOP_LET else st.minLoops lv }
      else st
    (st, current) := rfl

theorem walk_EmptyTree (cctx : CFGContext) (loc : Loc) (current : Nat) (st : St) :
    walk cctx (.EmptyTree loc) current st = (st, current) := rfl

/-- `ast::isa_tree<ast::ConstantLit>`. -/
def Expression.isConstantLit : Expression → Bool
  | .ConstantLit _ _ _ => true
  | _ => false

theorem walk_ConstantLit_none (cctx : CFGContext) (loc : Loc) (symbol : SymbolRef)
    (current : Nat) (st : St) :
    walk cctx (.ConstantLit loc symbol .none) current st =
      (if symbol = SymbolRef.StubModule then
        st.pushExpr current cctx.target loc (.Alias SymbolRef.untyped) false
      else st.pushExpr current cctx.target loc (.Alias symbol) false, current) := rfl

theorem walk_ConstantLit_someCL (cctx : CFGContext) (loc : Loc) (symbol : SymbolRef)
    (nloc : Loc) (nsym : SymbolRef) (norig : OptExpression)
    (current : Nat) (st : St) :
    walk cctx (.ConstantLit loc symbol (.some (.ConstantLit nloc nsym norig))) current st =
      (let st :=
        if symbol = SymbolRef.StubModule then
          st.pushExpr current cctx.target loc (.Alias SymbolRef.untyped) false
        else st.pushExpr current cctx.target loc (.Alias symbol) false
      let (st, deadSym) := st.newTemporary Name.keepForIde
      walk (cctx.withTarget deadSym) (.ConstantLit nloc nsym norig) current st) := rfl

theorem walk_ConstantLit_someOther (cctx : CFGContext) (loc : Loc)
    (symbol : SymbolRef) (sc : Expression) (current : Nat) (st : St)
    (h : sc.isConstantLit = false) :
    walk cctx (.ConstantLit loc symbol (.some sc)) current st =
      (if symbol = SymbolRef.StubModule then
        st.pushExpr current cctx.target loc (.Alias SymbolRef.untyped) false
      else st.pushExpr current cctx.target loc (.Alias symbol) false, current) := by
  cases sc <;> first
    | rfl
    | simp [Expression.isConstantLit] at h

theorem walk_Send_eq (cctx : CFGContext) (loc : Loc) (recv : Expression) (fn : Name)
    (args : ExpressionList) (isPrivateOk : Bool) (blk : OptBlock)
    (current : Nat) (st : St) :
    walk cctx (.Send loc recv fn args isPrivateOk blk) current st =
      if fn = Name.absurd ∧ recvResolvesToT recv then
        match args with
        | .cons arg .nil =>
          if arg.isSend then
            (st.beginError loc ErrorCode.MalformedTAbsurd, current)
          else
            let (st, temp) := st.newTemporary Name.statTemp
            let (st, current) := walk (cctx.withTarget temp) arg current st
            (st.pushExpr current cctx.target loc (.TAbsurd temp) false, current)
        | _ => (st.beginError loc ErrorCode.MalformedTAbsurd, current)
      else
        let (st, recvTemp) := st.newTemporary Name.statTemp
        let (st, current) := walk (cctx.withTarget recvTemp) recv current st
        let (st, current, argVars, argLocs) := walkArgs cctx args current st
        match blk with
        | .some b =>
          walkSendBlock cctx loc fn recv.loc isPrivateOk b recvTemp argVars
            argLocs current st
        | .none =>
          (st.pushExpr current cctx.target loc
            (.Send recvTemp fn recv.loc argVars argLocs isPrivateOk none) false,
           current) := by
  cases blk <;> cases args with
  | nil => rfl
  | cons a as => cases as <;> rfl

theorem walkStats_nil (cctx : CFGContext) (current : Nat) (st : St) :
    walkStats cctx .nil current st = (st, current) := rfl

theorem walkStats_cons (cctx : CFGContext) (e : Expression) (es : ExpressionList)
    (current : Nat) (st : St) :
    walkStats cctx (.cons e es) current st =
      (let (st, temp) := st.newTemporary Name.statTemp
      let (st, current) := walk (cctx.withTarget temp) e current st
      walkStats cctx es current st) := rfl

theorem walkArgs_nil (cctx : CFGContext) (current : Nat) (st : St) :
    walkArgs cctx .nil current st = (st, current, [], []) := rfl

theorem walkArgs_cons (cctx : CFGContext) (e : Expression) (es : ExpressionList)
    (current : Nat) (st : St) :
    walkArgs cctx (.cons e es) current st =
      (let (st, temp) := st.newTemporary Name.statTemp
      let (st, current) := walk (cctx.withTarget temp) e current st
      let (st, current, vs, ls) := walkArgs cctx es current st
      (st, current, temp :: vs, e.loc :: ls)) := rfl

theorem walkElems_nil (cctx : CFGContext) (aloc : Loc) (current : Nat) (st : St) :
    walkElems cctx aloc .nil current st = (st, current, [], []) := rfl

theorem walkElems_cons (cctx : CFGContext) (aloc : Loc) (e : Expression)
    (es : ExpressionList) (current : Nat) (st : St) :
    walkElems cctx aloc (.cons e es) current st =
      (let (st, tmp) := st.newTemporary Name.arrayTemp
      let (st, current) := walk (cctx.withTarget tmp) e current st
      let (st, current, vs, ls) := walkElems cctx aloc es current st
      (st, current, tmp :: vs, aloc :: ls)) := rfl

theorem walkHashPairs_nil (cctx : CFGContext) (current : Nat) (st : St) :
    walkHashPairs cctx .nil current st = (st, current, [], []) := rfl

theorem walkHashPairs_cons (cctx : CFGContext) (k v : Expression)
    (rest : ExpressionPairList) (current : Nat) (st : St) :
    walkHashPairs cctx (.cons k v rest) current st =
      (let (st, keyTmp) := st.newTemporary Name.hashTemp
      let (st, valTmp) := st.newTemporary Name.hashTemp
      let (st, current) := walk (cctx.withTarget keyTmp) k current st
      let (st, current) := walk (cctx.withTarget valTmp) v current st
      let (st, current, vs, ls) := walkHashPairs cctx rest current st
      (st, current, keyTmp :: valTmp :: vs, k.loc :: v.loc :: ls)) := rfl

theorem walkSendBlock_def (cctx : CFGContext) (sloc : Loc) (fn : Name)
    (recvLoc : Loc) (isPrivateOk : Bool) (blockLoc : Loc)
    (blockArgs : List ParsedArg) (blockBody : Expression)
    (recv : LocalVariable) (args : List LocalVariable) (argLocs : List Loc)
    (current : Nat) (st : St) :
    walkSendBlock cctx sloc fn recvLoc isPrivateOk (.mk blockLoc blockArgs blockBody)
        recv args argLocs current st =

    let newRubyBlockId := st.maxRubyBlockId + 1
    let st := { st with maxRubyBlockId := newRubyBlockId }
    let argFlags := parsedArgFlags blockArgs
    let link : SendAndBlockLink := ⟨fn, argFlags, newRubyBlockId⟩
    let (st, sendTemp) := st.newTemporary Name.blockPreCallTemp
    let st := st.pushExpr current sendTemp sloc
      (.Send recv fn recvLoc args argLocs isPrivateOk (some link)) false
    let (st, restoreSelf) := st.newTemporary Name.selfRestore
    let st := synthesizeExpr st current restoreSelf Loc.noLoc
      (.Ident LocalVariable.selfVariable)
    let (st, headerBlock) := st.freshBlock (cctx.loops + 1) newRubyBlockId
    let (st, solveConstraintBlock) := st.freshBlock cctx.loops cctx.rubyBlockId
    let (st, postBlock) := st.freshBlock cctx.loops cctx.rubyBlockId
    let (st, bodyBlock) := st.freshBlock (cctx.loops + 1) newRubyBlockId
    let (st, argTemp) := st.newTemporary Name.blkArg
    let (st, idxTmp) := st.newTemporary Name.blkArg
    let st := st.pushExpr bodyBlock LocalVariable.selfVariable sloc
      (.LoadSelf (some link) LocalVariable.selfVariable) false
    let st := st.pushExpr bodyBlock argTemp blockLoc
      (.LoadYieldParams (some link)) false
    let st := bindBlockArgs st bodyBlock argTemp idxTmp blockLoc blockArgs 0
    let st := conditionalJump headerBlock LocalVariable.blockCall bodyBlock
      solveConstraintBlock st sloc
    let st := unconditionalJump current headerBlock st sloc
    let (st, blockrv) := st.newTemporary Name.blockReturnTemp
    let cctxBody :=
      ((((cctx.withTarget blockrv).withBlockBreakTarget
          cctx.target).withLoopScope headerBlock postBlock
          true).withSendAndBlockLink link).withRubyBlockId newRubyBlockId
    let (st, blockLast) := walk cctxBody blockBody bodyBlock st
    let st :=
      if blockLast ≠ deadBlockId then
        let (st, deadTmp) := st.newTemporary Name.blockReturnTemp
        synthesizeExpr st blockLast deadTmp blockLoc
          (.BlockReturn (some link) blockrv)
      else st
    let st := unconditionalJump blockLast headerBlock st sloc
    let st := unconditionalJump solveConstraintBlock postBlock st sloc
    let st := st.pushExpr solveConstraintBlock cctx.target sloc
      (.SolveConstraint (some link) sendTemp) false
    let current := postBlock
    let st := synthesizeExpr st current LocalVariable.selfVariable sloc
      (.Ident restoreSelf)
    (st, current) := rfl

theorem walkRescueCases_nil (cctx : CFGContext) (loc : Loc)
    (ensureBody handlers : Nat) (st : St) :
    walkRescueCases cctx loc .nil ensureBody handlers st = (st, handlers) := rfl

theorem walkRescueCases_cons (cctx : CFGContext) (loc : Loc) (c : RescueCase)
    (cs : RescueCaseList) (ensureBody handlers : Nat) (st : St) :
    walkRescueCases cctx loc (.cons c cs) ensureBody handlers st =
      (let (st, handlers) := walkRescueCase cctx loc c ensureBody handlers st
      walkRescueCases cctx loc cs ensureBody handlers st) := rfl

theorem walkRescueCase_def (cctx : CFGContext) (loc : Loc) (cloc : Loc)
    (exceptions : ExpressionList) (varLocal : LocalVariable) (varLoc : Loc)
    (body : Expression) (ensureBody handlers : Nat) (st : St) :
    walkRescueCase cctx loc (.mk cloc exceptions varLocal varLoc body)
        ensureBody handlers st =

    let (st, caseBody) := st.freshBlock cctx.loops cctx.rubyBlockId
    let st := st.pushExpr handlers varLocal varLoc .Unanalyzable false
    let (st, handlers) :=
      if exceptions.isEmpty then
        -- walking `MK::Constant(var->loc, StandardError)` (the element
        -- appended by `rescueCaseExceptionsToWalk` and popped afterwards)
        -- emits a single `Alias StandardError`; then the common per-class
        -- step runs
        let (st, exceptionClass) := st.newTemporary Name.exceptionClassTemp
        let st := st.pushExpr handlers exceptionClass varLoc
          (.Alias SymbolRef.StandardError) false
        exceptionStep cctx varLocal varLoc exceptionClass caseBody handlers st
      else walkExceptions cctx varLocal exceptions caseBody handlers st
    let (st, caseBodyEnd) := walk cctx body caseBody st
    let st := unconditionalJump caseBodyEnd ensureBody st loc
    (st, handlers) := rfl

theorem walkExceptions_nil (cctx : CFGContext) (localVar : LocalVariable)
    (caseBody handlers : Nat) (st : St) :
    walkExceptions cctx localVar .nil caseBody handlers st = (st, handlers) := rfl

theorem walkExceptions_cons (cctx : CFGContext) (localVar : LocalVariable)
    (ex : Expression) (rest : ExpressionList) (caseBody handlers : Nat) (st : St) :
    walkExceptions cctx localVar (.cons ex rest) caseBody handlers st =
      (let (st, exceptionClass) := st.newTemporary Name.exceptionClassTemp
      let (st, handlers) := walk (cctx.withTarget exceptionClass) ex handlers st
      let (st, handlers) :=
        exceptionStep cctx localVar ex.loc exceptionClass caseBody handlers st
      walkExceptions cctx localVar rest caseBody handlers st) := rfl

/-! ### Concrete fixtures used by closed theorems and witnesses -/

/-- A symbol-table reader for concrete runs: nothing resolves. -/
def sampleEnv : GlobalEnv := ⟨fun _ _ => none, fun _ => Name.noName⟩

/-- A non-synthetic sample location. -/
def loc1 : Loc := ⟨1, false⟩

/-- The method-return target local seeding a lowering. -/
def methodReturnTemp : LocalVariable := ⟨Name.user 0, 0⟩

/-- A sample user local. -/
def cLocal : LocalVariable := ⟨Name.user 1, 0⟩

/-- The seed context: fresh target, depth 0, iterator-block id 0, no
scopes. -/
def sampleCtx : CFGContext :=
  { target := methodReturnTemp, loops := 0, rubyBlockId := 0,
    blockBreakTarget := methodReturnTemp, genv := sampleEnv }

/-- The seed state: the dead block (0) plus a fresh entry block (1). -/
def sampleSt : St := (St.init.freshBlock 0 0).1

/-- `while true; break 1; end`. -/
def whileBreakProg : Expression :=
  .While loc1 (.Literal loc1 (.boolLit true)) (.Break loc1 (.Literal loc1 (.intLit 1)))

/-- `if c then 1 else (return 2) end`: the then continuation is live, the
else continuation is dead. -/
def ifElseDeadProg : Expression :=
  .If loc1 (.Local loc1 cLocal) (.Literal loc1 (.intLit 1))
    (.Return loc1 (.Literal loc1 (.intLit 2)))

/-! ### C2 — `jump_to_dead` versus `unconditional_jump` to the dead block -/

/-- C2, counterexample: `jump_to_dead` does *not* perform the same flag
updates on the target as `unconditional_jump` to the dead block. From the
live entry block of the seed CFG, `unconditional_jump(1, dead)` sets
`WAS_JUMP_DESTINATION` on the dead block whereas `jump_to_dead(1)` leaves
its flags untouched, so the two results differ on the dead block's flags. -/
theorem C2_counterexample :
    ((jumpToDead 1 sampleSt loc1).blocks deadBlockId).flags = 0 ∧
    ((unconditionalJump 1 deadBlockId sampleSt loc1).blocks deadBlockId).flags = 1 := by
  decide

/-- C2, amended: for every source block and location, `jump_to_dead` changes
the CFG exactly as `unconditional_jump` to the dead block would — the same
terminator assignment on every block, the same back-edge lists on every
block — except that it performs no flag update on the dead block, whereas
`unconditional_jump` always sets `WAS_JUMP_DESTINATION` there. -/
theorem C2_amended (frm : Nat) (st : St) (loc : Loc) :
    (∀ i, ((jumpToDead frm st loc).blocks i).bexit =
        ((unconditionalJump frm deadBlockId st loc).blocks i).bexit) ∧
    (∀ i, ((jumpToDead frm st loc).blocks i).backEdges =
        ((unconditionalJump frm deadBlockId st loc).blocks i).backEdges) ∧
    (∀ i, i ≠ deadBlockId → ((jumpToDead frm st loc).blocks i).flags =
        ((unconditionalJump frm deadBlockId st loc).blocks i).flags) ∧
    ((jumpToDead frm st loc).blocks deadBlockId).flags =
      (st.blocks deadBlockId).flags ∧
    ((unconditionalJump frm deadBlockId st loc).blocks deadBlockId).flags =
      (st.blocks deadBlockId).flags ||| WAS_JUMP_DESTINATION := by
  unfold jumpToDead unconditionalJump St.upd
  by_cases h : frm = deadBlockId
  · subst h
    refine ⟨fun i => ?_, fun i => ?_, fun i hi => ?_, ?_, ?_⟩
    · by_cases hi : i = deadBlockId <;> simp_all [deadBlockId]
    · by_cases hi : i = deadBlockId <;> simp_all [deadBlockId]
    · simp_all [deadBlockId]
    · simp [deadBlockId]
    · simp [deadBlockId]
  · have h0 : frm ≠ 0 := by simpa [deadBlockId] using h
    have h1 : (0 : Nat) ≠ frm := Ne.symm h0
    refine ⟨fun i => ?_, fun i => ?_, fun i hi => ?_, ?_, ?_⟩
    · by_cases hA : i = frm <;> by_cases hB : i = 0 <;>
        simp_all [deadBlockId]
    · by_cases hA : i = frm <;> by_cases hB : i = 0 <;>
        simp_all [deadBlockId]
    · by_cases hA : i = frm <;> simp_all [deadBlockId]
    · simp [deadBlockId, h0, h1]
    · simp [deadBlockId, h0, h1]

/-! ### C3 — behaviour of the edge primitives from the dead block -/

/-- C3, counterexample: `conditional_jump` whose source is the dead block is
*not* a no-op on the whole CFG: it still mutates the flags bitset of its
successors. Concretely, jumping from the dead block to then-successor 1
changes block 1's flags from 0 to `WAS_JUMP_DESTINATION`. -/
theorem C3_counterexample :
    (sampleSt.blocks 1).flags = 0 ∧
    ((conditionalJump deadBlockId cLocal 1 1 sampleSt loc1).blocks 1).flags = 1 := by
  decide

/-- C3, amended: when the source block is the dead block, none of the three
edge primitives changes any block's terminator or back-edge list, and
`jump_to_dead` changes nothing at all; however `conditional_jump` and
`unconditional_jump` still set `WAS_JUMP_DESTINATION` on the flags of their
jump-target blocks. -/
theorem C3_amended (cond : LocalVariable) (thenb elseb tgt : Nat) (st : St)
    (loc : Loc) :
    (∀ i, ((conditionalJump deadBlockId cond thenb elseb st loc).blocks i).bexit =
        (st.blocks i).bexit) ∧
    (∀ i, ((conditionalJump deadBlockId cond thenb elseb st loc).blocks i).backEdges =
        (st.blocks i).backEdges) ∧
    (∀ i, ((conditionalJump deadBlockId cond thenb elseb st loc).blocks i).flags =
        if i = thenb ∨ i = elseb then (st.blocks i).flags ||| WAS_JUMP_DESTINATION
        else (st.blocks i).flags) ∧
    (∀ i, ((unconditionalJump deadBlockId tgt st loc).blocks i).bexit =
        (st.blocks i).bexit) ∧
    (∀ i, ((unconditionalJump deadBlockId tgt st loc).blocks i).backEdges =
        (st.blocks i).backEdges) ∧
    (∀ i, ((unconditionalJump deadBlockId tgt st loc).blocks i).flags =
        if i = tgt then (st.blocks i).flags ||| WAS_JUMP_DESTINATION
        else (st.blocks i).flags) ∧
    jumpToDead deadBlockId st loc = st := by
  unfold conditionalJump unconditionalJump jumpToDead St.upd
  refine ⟨fun i => ?_, fun i => ?_, fun i => ?_, fun i => ?_, fun i => ?_,
    fun i => ?_, by simp⟩ <;>
    by_cases h1 : i = thenb <;> by_cases h2 : i = elseb <;>
    by_cases h3 : i = tgt <;>
    simp_all [Nat.or_assoc, Nat.or_self]

/-! ### C1 — the `If` lowering and its duplicated dead-arm test -/

/-- C1: evaluation of the walker at the failing input
`if c then 1 else (return 2) end`, from the seed CFG (blocks 0 = dead,
1 = entry; the walk allocates 2 = then arm, 3 = else arm). The then arm's
continuation (block 2) is live and the else arm's continuation is dead, yet
the walker allocates a fresh join block (block 4, so the CFG ends with 5
blocks rather than 4), jumps the live then arm into it, and returns the join
instead of the then arm's continuation: the duplicated
`thenEnd == deadBlock` test of lines 189-192 makes the
one-live-arm-short-circuit unreachable for a dead else arm. -/
theorem C1_code_behavior :
    (walk sampleCtx ifElseDeadProg 1 sampleSt).2 = 4 ∧
    (walk sampleCtx ifElseDeadProg 1 sampleSt).2 ≠ 2 ∧
    (walk sampleCtx ifElseDeadProg 1 sampleSt).1.nblocks = 5 ∧
    ((walk sampleCtx ifElseDeadProg 1 sampleSt).1.blocks 2).bexit =
      { condSet := true, cond := LocalVariable.noVariable, thenb := some 4,
        elseb := some 4, loc := loc1 } ∧
    ((walk sampleCtx ifElseDeadProg 1 sampleSt).1.blocks 3).bexit =
      { condSet := true, cond := LocalVariable.noVariable,
        thenb := some deadBlockId, elseb := some deadBlockId, loc := loc1 } := by
  decide

/-! ### C5 — `while true; break 1; end` -/

/-- C5: lowering `while true; break 1; end` from the seed CFG. Blocks:
0 = dead, 1 = entry, 2 = header, 3 = break_not_called, 4 = continue,
5 = loop body. The loop body's continuation (block 5) ends with the two
assignments `blockBreakAssign := <break-value temp>` then
`<block-break target, the loop's target> := blockBreakAssign`, and
unconditional-jumps to the break scope, which is the continue block (4); the
break_not_called block (3) assigns a synthetic literal `nil` to the loop's
target and unconditional-jumps to continue; and the walk returns continue. -/
theorem C5_while_break :
    (walk sampleCtx whileBreakProg 1 sampleSt).2 = 4 ∧
    ((walk sampleCtx whileBreakProg 1 sampleSt).1.blocks 5).exprs =
      [⟨⟨Name.returnTemp, 3⟩, loc1, .Literal (.intLit 1), false⟩,
       ⟨⟨Name.blockBreakAssignName, 4⟩, loc1, .Ident ⟨Name.returnTemp, 3⟩, false⟩,
       ⟨methodReturnTemp, loc1, .Ident ⟨Name.blockBreakAssignName, 4⟩, false⟩] ∧
    ((walk sampleCtx whileBreakProg 1 sampleSt).1.blocks 5).bexit =
      { condSet := true, cond := LocalVariable.noVariable, thenb := some 4,
        elseb := some 4, loc := loc1 } ∧
    ((walk sampleCtx whileBreakProg 1 sampleSt).1.blocks 3).exprs =
      [⟨methodReturnTemp, loc1, .Literal .nilClass, true⟩] ∧
    ((walk sampleCtx whileBreakProg 1 sampleSt).1.blocks 3).bexit =
      { condSet := true, cond := LocalVariable.noVariable, thenb := some 4,
        elseb := some 4, loc := loc1 } := by
  decide

/-! ### C9 — the rescue-case exception vector is restored -/

/-- The rescue-case lowering with the empty-classes case expressed exactly as
the source performs it: iterate `walkExceptions` over the exception vector
with the synthetic `StandardError` constant appended when the vector was
empty (`rescueCaseExceptionsToWalk`). `walkRescueCase_eq_appended` proves it
equal to `walkRescueCase`. -/
def walkRescueCaseAppended (cctx : CFGContext) (loc : Loc) (c : RescueCase)
    (ensureBody handlers : Nat) (st : St) : St × Nat :=
  match c with
  | .mk _ exceptions varLocal varLoc body =>
    let (st, caseBody) := st.freshBlock cctx.loops cctx.rubyBlockId
    let st := st.pushExpr handlers varLocal varLoc .Unanalyzable false
    let (st, handlers) :=
      walkExceptions cctx varLocal
        (rescueCaseExceptionsToWalk exceptions varLoc).1 caseBody handlers st
    let (st, caseBodyEnd) := walk cctx body caseBody st
    let st := unconditionalJump caseBodyEnd ensureBody st loc
    (st, handlers)

/-- Walking a resolved constant with no original scope (the shape produced
by `ast::MK::Constant`) emits a single `Alias` into the current block. -/
theorem walk_MKConstant (cctx : CFGContext) (loc : Loc) (sym : SymbolRef)
    (hs : sym ≠ SymbolRef.StubModule) (current : Nat) (st : St) :
    walk cctx (MKConstant loc sym) current st =
      (st.pushExpr current cctx.target loc (.Alias sym) false, current) := by
  simp only [MKConstant]
  rw [walk_ConstantLit_none, if_neg hs]

/-- `walkRescueCase` processes exactly the exception vector with the
synthetic `StandardError` appended for an empty class list: walking the
appended resolved constant emits one `Alias StandardError` into the handlers
block, which is what the inlined empty-classes branch does. -/
theorem walkRescueCase_eq_appended (cctx : CFGContext) (loc : Loc)
    (c : RescueCase) (ensureBody handlers : Nat) (st : St) :
    walkRescueCase cctx loc c ensureBody handlers st =
      walkRescueCaseAppended cctx loc c ensureBody handlers st := by
  obtain ⟨cloc, exceptions, varLocal, varLoc, body⟩ := c
  cases exceptions with
  | nil =>
    simp only [walkRescueCase, walkRescueCaseAppended,
      rescueCaseExceptionsToWalk, ExpressionList.isEmpty,
      ExpressionList.push, walkExceptions, if_true]
    rw [walk_MKConstant _ _ _ (by simp)]
    simp [MKConstant, Expression.loc, CFGContext.withTarget]
  | cons e es =>
    simp [walkRescueCase, walkRescueCaseAppended, rescueCaseExceptionsToWalk,
      ExpressionList.isEmpty]

/-- C9: the push/pop bookkeeping of the rescue-case loop restores the input
AST. When a rescue case lists no exception classes the walker temporarily
appends a synthetic `StandardError` constant to the case's exception vector
(`rescueCaseExceptionsToWalk`, the vector `walkRescueCase` actually
iterates — see `walkRescueCase_eq_appended`) and pops it back off at the end
of the case, so after the walk every case's exception vector has its
original length and contents. -/
theorem C9_rescue_exceptions_restored (exceptions : ExpressionList)
    (varLoc : Loc) :
    rescueCaseExceptionsAfter exceptions varLoc = exceptions ∧
    (rescueCaseExceptionsAfter exceptions varLoc).length = exceptions.length := by
  cases exceptions with
  | nil =>
    constructor <;>
      simp [rescueCaseExceptionsAfter, rescueCaseExceptionsToWalk,
        ExpressionList.isEmpty, ExpressionList.push, ExpressionList.popBack]
  | cons e es =>
    constructor <;>
      simp [rescueCaseExceptionsAfter, rescueCaseExceptionsToWalk,
        ExpressionList.isEmpty]

/-! ### Pointwise characterizations of the state primitives -/

theorem upd_blocks (st : St) (i : Nat) (f : BasicBlock → BasicBlock) (j : Nat) :
    (st.upd i f).blocks j = if j = i then f (st.blocks i) else st.blocks j := by
  unfold St.upd
  by_cases h : j = i <;> simp [h]

theorem pushExpr_exprs (st : St) (b : Nat) (v : LocalVariable) (loc : Loc)
    (inst : Instruction) (syn : Bool) (j : Nat) :
    ((st.pushExpr b v loc inst syn).blocks j).exprs =
      if j = b then (st.blocks b).exprs ++ [⟨v, loc, inst, syn⟩]
      else (st.blocks j).exprs := by
  unfold St.pushExpr
  rw [upd_blocks]
  by_cases h : j = b <;> simp [h]

theorem pushExpr_bexit (st : St) (b : Nat) (v : LocalVariable) (loc : Loc)
    (inst : Instruction) (syn : Bool) (j : Nat) :
    ((st.pushExpr b v loc inst syn).blocks j).bexit = (st.blocks j).bexit := by
  unfold St.pushExpr
  rw [upd_blocks]
  by_cases h : j = b <;> simp [h]

theorem pushExpr_scalars (st : St) (b : Nat) (v : LocalVariable) (loc : Loc)
    (inst : Instruction) (syn : Bool) :
    (st.pushExpr b v loc inst syn).nblocks = st.nblocks ∧
    (st.pushExpr b v loc inst syn).errors = st.errors ∧
    (st.pushExpr b v loc inst syn).temporaryCounter = st.temporaryCounter ∧
    (st.pushExpr b v loc inst syn).maxRubyBlockId = st.maxRubyBlockId :=
  ⟨rfl, rfl, rfl, rfl⟩

theorem freshBlock_snd (st : St) (a b : Nat) : (st.freshBlock a b).2 = st.nblocks := rfl

theorem freshBlock_nblocks (st : St) (a b : Nat) :
    (st.freshBlock a b).1.nblocks = st.nblocks + 1 := rfl

theorem freshBlock_blocks (st : St) (a b : Nat) (j : Nat) :
    (st.freshBlock a b).1.blocks j =
      if j = st.nblocks then
        { id := st.nblocks, outerLoops := a, rubyBlockId := b }
      else st.blocks j := by
  unfold St.freshBlock
  by_cases h : j = st.nblocks <;> simp [h]

theorem freshBlock_scalars (st : St) (a b : Nat) :
    (st.freshBlock a b).1.errors = st.errors ∧
    (st.freshBlock a b).1.temporaryCounter = st.temporaryCounter ∧
    (st.freshBlock a b).1.maxRubyBlockId = st.maxRubyBlockId :=
  ⟨rfl, rfl, rfl⟩

theorem conditionalJump_bexit (frm : Nat) (cond : LocalVariable)
    (thenb elseb : Nat) (st : St) (loc : Loc) (j : Nat) :
    ((conditionalJump frm cond thenb elseb st loc).blocks j).bexit =
      if frm ≠ deadBlockId ∧ j = frm then
        { condSet := true, cond := cond, thenb := some thenb,
          elseb := some elseb, loc := loc }
      else (st.blocks j).bexit := by
  unfold conditionalJump
  by_cases hf : frm = deadBlockId <;>
    simp only [hf, ne_eq, not_true_eq_false, not_false_eq_true, if_true,
      if_false, false_and, true_and, upd_blocks] <;>
    by_cases h1 : j = thenb <;> by_cases h2 : j = elseb <;>
    by_cases h3 : j = frm <;> simp_all

theorem conditionalJump_exprs (frm : Nat) (cond : LocalVariable)
    (thenb elseb : Nat) (st : St) (loc : Loc) (j : Nat) :
    ((conditionalJump frm cond thenb elseb st loc).blocks j).exprs =
      (st.blocks j).exprs := by
  unfold conditionalJump
  by_cases hf : frm = deadBlockId <;>
    simp only [hf, ne_eq, not_true_eq_false, not_false_eq_true, if_true,
      if_false, upd_blocks] <;>
    by_cases h1 : j = thenb <;> by_cases h2 : j = elseb <;>
    by_cases h3 : j = frm <;> simp_all

theorem conditionalJump_scalars (frm : Nat) (cond : LocalVariable)
    (thenb elseb : Nat) (st : St) (loc : Loc) :
    (conditionalJump frm cond thenb elseb st loc).nblocks = st.nblocks ∧
    (conditionalJump frm cond thenb elseb st loc).errors = st.errors ∧
    (conditionalJump frm cond thenb elseb st loc).temporaryCounter =
      st.temporaryCounter ∧
    (conditionalJump frm cond thenb elseb st loc).maxRubyBlockId =
      st.maxRubyBlockId := by
  unfold conditionalJump
  by_cases hf : frm = deadBlockId <;> simp [hf, St.upd]

theorem unconditionalJump_bexit (frm tgt : Nat) (st : St) (loc : Loc) (j : Nat) :
    ((unconditionalJump frm tgt st loc).blocks j).bexit =
      if frm ≠ deadBlockId ∧ j = frm then
        { condSet := true, cond := LocalVariable.noVariable, thenb := some tgt,
          elseb := some tgt, loc := loc }
      else (st.blocks j).bexit := by
  unfold unconditionalJump
  by_cases hf : frm = deadBlockId <;>
    simp only [hf, ne_eq, not_true_eq_false, not_false_eq_true, if_true,
      if_false, false_and, true_and, upd_blocks] <;>
    by_cases h1 : j = tgt <;> by_cases h3 : j = frm <;> simp_all

theorem unconditionalJump_exprs (frm tgt : Nat) (st : St) (loc : Loc) (j : Nat) :
    ((unconditionalJump frm tgt st loc).blocks j).exprs = (st.blocks j).exprs := by
  unfold unconditionalJump
  by_cases hf : frm = deadBlockId <;>
    simp only [hf, ne_eq, not_true_eq_false, not_false_eq_true, if_true,
      if_false, upd_blocks] <;>
    by_cases h1 : j = tgt <;> by_cases h3 : j = frm <;> simp_all

theorem unconditionalJump_scalars (frm tgt : Nat) (st : St) (loc : Loc) :
    (unconditionalJump frm tgt st loc).nblocks = st.nblocks ∧
    (unconditionalJump frm tgt st loc).errors = st.errors ∧
    (unconditionalJump frm tgt st loc).temporaryCounter = st.temporaryCounter ∧
    (unconditionalJump frm tgt st loc).maxRubyBlockId = st.maxRubyBlockId := by
  unfold unconditionalJump
  by_cases hf : frm = deadBlockId <;> simp [hf, St.upd]

theorem jumpToDead_bexit (frm : Nat) (st : St) (loc : Loc) (j : Nat) :
    ((jumpToDead frm st loc).blocks j).bexit =
      if frm ≠ deadBlockId ∧ j = frm then
        { condSet := true, cond := LocalVariable.noVariable,
          thenb := some deadBlockId, elseb := some deadBlockId, loc := loc }
      else (st.blocks j).bexit := by
  unfold jumpToDead
  by_cases hf : frm = deadBlockId <;>
    simp only [hf, ne_eq, not_true_eq_false, not_false_eq_true, if_true,
      if_false, false_and, true_and, upd_blocks] <;>
    by_cases h1 : j = deadBlockId <;> by_cases h3 : j = frm <;> simp_all

theorem jumpToDead_exprs (frm : Nat) (st : St) (loc : Loc) (j : Nat) :
    ((jumpToDead frm st loc).blocks j).exprs = (st.blocks j).exprs := by
  unfold jumpToDead
  by_cases hf : frm = deadBlockId <;>
    simp only [hf, ne_eq, not_true_eq_false, not_false_eq_true, if_true,
      if_false, upd_blocks] <;>
    by_cases h1 : j = deadBlockId <;> by_cases h3 : j = frm <;> simp_all

theorem jumpToDead_scalars (frm : Nat) (st : St) (loc : Loc) :
    (jumpToDead frm st loc).nblocks = st.nblocks ∧
    (jumpToDead frm st loc).errors = st.errors ∧
    (jumpToDead frm st loc).temporaryCounter = st.temporaryCounter ∧
    (jumpToDead frm st loc).maxRubyBlockId = st.maxRubyBlockId := by
  unfold jumpToDead
  by_cases hf : frm = deadBlockId <;> simp [hf, St.upd]

theorem beginError_blocks (st : St) (loc : Loc) (code : ErrorCode) :
    (st.beginError loc code).blocks = st.blocks ∧
    (st.beginError loc code).nblocks = st.nblocks ∧
    (st.beginError loc code).temporaryCounter = st.temporaryCounter ∧
    (st.beginError loc code).errors = st.errors ++ [(loc, code)] :=
  ⟨rfl, rfl, rfl, rfl⟩

theorem global2Local_blocks (cctx : CFGContext) (what : SymbolRef) (st : St) :
    ((global2Local cctx what st).1).blocks = st.blocks ∧
    ((global2Local cctx what st).1).nblocks = st.nblocks ∧
    ((global2Local cctx what st).1).errors = st.errors := by
  unfold global2Local
  cases st.aliases what <;> simp [St.newTemporary]

theorem unresolvedIdent2Local_blocks (cctx : CFGContext) (kind : IdentKind)
    (name : Name) (loc : Loc) (st : St) :
    ((unresolvedIdent2Local cctx kind name loc st).1).blocks = st.blocks ∧
    ((unresolvedIdent2Local cctx kind name loc st).1).nblocks = st.nblocks := by
  unfold unresolvedIdent2Local
  cases cctx.genv.resolveField (kind = IdentKind.classVar) name with
  | some sym => exact ⟨(global2Local_blocks cctx sym st).1,
      (global2Local_blocks cctx sym st).2.1⟩
  | none =>
    cases st.discoveredUndeclaredFields name <;>
      simp [St.newTemporary, St.beginError]

theorem lhs2Local_blocks (cctx : CFGContext) (lhs : LhsKind) (st : St) :
    ((lhs2Local cctx lhs st).1).blocks = st.blocks ∧
    ((lhs2Local cctx lhs st).1).nblocks = st.nblocks := by
  cases lhs with
  | lhsConstantLit l sym => exact ⟨(global2Local_blocks cctx sym st).1,
      (global2Local_blocks cctx sym st).2.1⟩
  | lhsField l sym => exact ⟨(global2Local_blocks cctx sym st).1,
      (global2Local_blocks cctx sym st).2.1⟩
  | lhsLocal l lv => exact ⟨rfl, rfl⟩
  | lhsUnresolvedIdent l kind name =>
    exact unresolvedIdent2Local_blocks cctx kind name l st

theorem walk_T_absurd_zero (cctx : CFGContext) (loc rloc : Loc)
    (ro : OptExpression) (isPrivateOk : Bool) (blk : OptBlock)
    (current : Nat) (st : St) :
    walk cctx (.Send loc (.ConstantLit rloc SymbolRef.T ro) Name.absurd
        .nil isPrivateOk blk) current st =
      (st.beginError loc ErrorCode.MalformedTAbsurd, current) := rfl

theorem walk_T_absurd_many (cctx : CFGContext) (loc rloc : Loc)
    (ro : OptExpression) (a b : Expression) (rest : ExpressionList)
    (isPrivateOk : Bool) (blk : OptBlock) (current : Nat) (st : St) :
    walk cctx (.Send loc (.ConstantLit rloc SymbolRef.T ro) Name.absurd
        (.cons a (.cons b rest)) isPrivateOk blk) current st =
      (st.beginError loc ErrorCode.MalformedTAbsurd, current) := rfl

theorem walk_T_absurd_one (cctx : CFGContext) (loc rloc : Loc)
    (ro : OptExpression) (arg : Expression) (isPrivateOk : Bool)
    (blk : OptBlock) (current : Nat) (st : St) :
    walk cctx (.Send loc (.ConstantLit rloc SymbolRef.T ro) Name.absurd
        (.cons arg .nil) isPrivateOk blk) current st =
      (if arg.isSend = true then
        (st.beginError loc ErrorCode.MalformedTAbsurd, current)
      else
        let (st, temp) := st.newTemporary Name.statTemp
        let (st, current) := walk (cctx.withTarget temp) arg current st
        (st.pushExpr current cctx.target loc (.TAbsurd temp) false, current)) := rfl


theorem unconditionalJump_errors (frm tgt : Nat) (st : St) (loc : Loc) :
    (unconditionalJump frm tgt st loc).errors = st.errors :=
  (unconditionalJump_scalars frm tgt st loc).2.1

theorem conditionalJump_errors (frm : Nat) (cond : LocalVariable)
    (thenb elseb : Nat) (st : St) (loc : Loc) :
    (conditionalJump frm cond thenb elseb st loc).errors = st.errors :=
  (conditionalJump_scalars frm cond thenb elseb st loc).2.1

theorem jumpToDead_errors (frm : Nat) (st : St) (loc : Loc) :
    (jumpToDead frm st loc).errors = st.errors :=
  (jumpToDead_scalars frm st loc).2.1

theorem pushExpr_errors (st : St) (b : Nat) (v : LocalVariable) (loc : Loc)
    (inst : Instruction) (syn : Bool) :
    (st.pushExpr b v loc inst syn).errors = st.errors := rfl

theorem pushExpr_nblocks (st : St) (b : Nat) (v : LocalVariable) (loc : Loc)
    (inst : Instruction) (syn : Bool) :
    (st.pushExpr b v loc inst syn).nblocks = st.nblocks := rfl

theorem pushExpr_temporaryCounter (st : St) (b : Nat) (v : LocalVariable)
    (loc : Loc) (inst : Instruction) (syn : Bool) :
    (st.pushExpr b v loc inst syn).temporaryCounter = st.temporaryCounter := rfl

theorem unconditionalJump_nblocks (frm tgt : Nat) (st : St) (loc : Loc) :
    (unconditionalJump frm tgt st loc).nblocks = st.nblocks :=
  (unconditionalJump_scalars frm tgt st loc).1

theorem conditionalJump_nblocks (frm : Nat) (cond : LocalVariable)
    (thenb elseb : Nat) (st : St) (loc : Loc) :
    (conditionalJump frm cond thenb elseb st loc).nblocks = st.nblocks :=
  (conditionalJump_scalars frm cond thenb elseb st loc).1

theorem jumpToDead_nblocks (frm : Nat) (st : St) (loc : Loc) :
    (jumpToDead frm st loc).nblocks = st.nblocks :=
  (jumpToDead_scalars frm st loc).1

/-! ### C4 — the `T.absurd` special case of `Send` -/

/-- C4: for a `Send` whose receiver resolves to the constant `T` and whose
method is `absurd`: if the argument count differs from one, or the single
argument is itself a `Send`, a `MalformedTAbsurd` diagnostic is enqueued, no
`TAbsurd` instruction is emitted and the walk returns `current` with the
state otherwise unchanged; otherwise the argument is walked into a fresh
`statTemp` temporary and a `TAbsurd(temp)` instruction with destination
`ctx.target` is emitted into the continuation block. -/
theorem C4_T_absurd (cctx : CFGContext) (loc rloc : Loc) (ro : OptExpression)
    (args : ExpressionList) (isPrivateOk : Bool) (blk : OptBlock)
    (current : Nat) (st : St) :
    (args.length ≠ 1 →
      walk cctx (.Send loc (.ConstantLit rloc SymbolRef.T ro) Name.absurd args
          isPrivateOk blk) current st =
        (st.beginError loc ErrorCode.MalformedTAbsurd, current)) ∧
    (∀ arg, args = .cons arg .nil → arg.isSend = true →
      walk cctx (.Send loc (.ConstantLit rloc SymbolRef.T ro) Name.absurd args
          isPrivateOk blk) current st =
        (st.beginError loc ErrorCode.MalformedTAbsurd, current)) ∧
    (∀ arg, args = .cons arg .nil → arg.isSend = false →
      ∃ st2 cur2,
        walk (cctx.withTarget ⟨Name.statTemp, st.temporaryCounter + 1⟩) arg
            current { st with temporaryCounter := st.temporaryCounter + 1 } =
          (st2, cur2) ∧
        walk cctx (.Send loc (.ConstantLit rloc SymbolRef.T ro) Name.absurd args
            isPrivateOk blk) current st =
          (st2.pushExpr cur2 cctx.target loc
            (.TAbsurd ⟨Name.statTemp, st.temporaryCounter + 1⟩) false, cur2)) := by
  refine ⟨?_, ?_, ?_⟩
  · intro hlen
    cases args with
    | nil => rw [walk_T_absurd_zero]
    | cons a as =>
      cases as with
      | nil => simp [ExpressionList.length] at hlen
      | cons b r => rw [walk_T_absurd_many]
  · intro arg he hs
    subst he
    rw [walk_T_absurd_one, if_pos hs]
  · intro arg he hs
    subst he
    rw [walk_T_absurd_one, if_neg (by simp [hs])]
    simp only [St.newTemporary]
    exact ⟨_, _, rfl, rfl⟩

/-- Witness for C4: `T.absurd` called with zero arguments (from the seed
CFG) enqueues exactly one `MalformedTAbsurd` error and returns the entry
block with no instruction emitted. -/
theorem C4_T_absurd_witness :
    ExpressionList.nil.length ≠ 1 ∧
    walk sampleCtx (.Send loc1 (.ConstantLit loc1 SymbolRef.T .none) Name.absurd
        .nil false .none) 1 sampleSt =
      (sampleSt.beginError loc1 ErrorCode.MalformedTAbsurd, 1) :=
  ⟨by decide,
   (C4_T_absurd sampleCtx loc1 loc1 .none .nil false .none 1 sampleSt).1
     (by decide)⟩

/-! ### C8 — lowering `Next` -/

/-- C8 as amended: lowering `Next` inside an iterator block. The expression
is walked into a fresh `nextTemp`; if the context carries an active
`SendAndBlockLink` and is inside an iterator block and the continuation is
live, a `BlockReturn(link, nextTemp)` instruction — whose `is_synthetic` flag
is *not* set, since the source uses a plain `emplace_back` rather than
`synthesizeExpr` — is appended to the continuation; then the continuation
unconditional-jumps to `next_scope` if it is set, else a `NoNextScope`
diagnostic is enqueued and it jumps to the dead block; the walk returns the
dead block. -/
theorem C8_next_amended (cctx : CFGContext) (loc : Loc) (e : Expression)
    (current : Nat) (st : St) (l : SendAndBlockLink)
    (hlink : cctx.link = some l) (hin : cctx.isInsideRubyBlock = true) :
    ∃ st2 afterNext,
      walk (cctx.withTarget ⟨Name.nextTemp, st.temporaryCounter + 1⟩) e current
          { st with temporaryCounter := st.temporaryCounter + 1 } =
        (st2, afterNext) ∧
      (walk cctx (.Next loc e) current st).2 = deadBlockId ∧
      (afterNext ≠ deadBlockId →
        ((walk cctx (.Next loc e) current st).1.blocks afterNext).exprs =
          (st2.blocks afterNext).exprs ++
            [⟨⟨Name.nextTemp, st2.temporaryCounter + 1⟩, loc,
              .BlockReturn (some l) ⟨Name.nextTemp, st.temporaryCounter + 1⟩,
              false⟩]) ∧
      (∀ ns, cctx.nextScope = some ns → afterNext ≠ deadBlockId →
        ((walk cctx (.Next loc e) current st).1.blocks afterNext).bexit =
          { condSet := true, cond := LocalVariable.noVariable, thenb := some ns,
            elseb := some ns, loc := loc }) ∧
      (cctx.nextScope = none →
        (walk cctx (.Next loc e) current st).1.errors =
          st2.errors ++ [(loc, ErrorCode.NoNextScope)] ∧
        (afterNext ≠ deadBlockId →
          ((walk cctx (.Next loc e) current st).1.blocks afterNext).bexit =
            { condSet := true, cond := LocalVariable.noVariable,
              thenb := some deadBlockId, elseb := some deadBlockId,
              loc := loc })) := by
  rw [walk_Next]
  simp only [St.newTemporary]
  rcases hw : walk (cctx.withTarget ⟨Name.nextTemp, st.temporaryCounter + 1⟩) e
    current { st with temporaryCounter := st.temporaryCounter + 1 } with ⟨st2, an⟩
  refine ⟨st2, an, rfl, ?_⟩
  simp only [hw, hin]
  by_cases ha : an = deadBlockId
  · subst ha
    simp only [deadBlockId, ne_eq, not_true_eq_false, false_and, if_false]
    cases hns : cctx.nextScope with
    | none =>
      refine ⟨rfl, fun h => h.elim, fun ns h1 h2 => h2.elim, fun _ => ⟨?_, fun h => h.elim⟩⟩
      simp [unconditionalJump_errors, St.beginError]
    | some ns =>
      exact ⟨rfl, fun h => h.elim, fun ns2 h1 h2 => h2.elim,
        fun h => Option.noConfusion h⟩
  · simp only [ne_eq, ha, not_false_eq_true, true_and, if_true, hlink]
    cases hns : cctx.nextScope with
    | none =>
      refine ⟨rfl, fun _ => ?_, fun ns h1 h2 => ?_, fun _ => ⟨?_, fun _ => ?_⟩⟩
      · rw [unconditionalJump_exprs]
        simp [St.beginError, St.pushExpr, upd_blocks]
      · exact Option.noConfusion h1
      · simp [unconditionalJump_errors, St.beginError, pushExpr_errors]
      · rw [unconditionalJump_bexit]
        simp [ha, St.beginError, St.pushExpr, upd_blocks]
    | some ns =>
      refine ⟨rfl, fun _ => ?_, fun ns2 h1 h2 => ?_, fun h => ?_⟩
      · rw [unconditionalJump_exprs]
        simp [St.pushExpr, upd_blocks]
      · have hns2 : ns2 = ns := by injection h1 with h1e; exact h1e.symm
        subst hns2
        rw [unconditionalJump_bexit]
        simp [ha, pushExpr_bexit]
      · exact Option.noConfusion h

/-- An iterator-block link fixture. -/
def sampleLink : SendAndBlockLink := ⟨Name.user 2, [], 1⟩

/-- A context inside an iterator block: active link, `isInsideRubyBlock`,
and `next_scope` pointing at the entry block. -/
def nextCtx : CFGContext :=
  { sampleCtx with
      link := some sampleLink
      isInsideRubyBlock := true
      nextScope := some 1 }

/-- C8, counterexample: lowering `next 1` inside an iterator block with a
live continuation appends a `BlockReturn(link, nextTemp)` binding whose
`is_synthetic` flag is `false` — the source uses a plain `emplace_back`
(line 436), not `synthesizeExpr` — contradicting the claim that the flag is
set. -/
theorem C8_counterexample :
    ((walk nextCtx (.Next loc1 (.Literal loc1 (.intLit 1))) 1 sampleSt).1.blocks
        1).exprs =
      [⟨⟨Name.nextTemp, 1⟩, loc1, .Literal (.intLit 1), false⟩,
       ⟨⟨Name.nextTemp, 2⟩, loc1,
        .BlockReturn (some sampleLink) ⟨Name.nextTemp, 1⟩, false⟩] := by
  decide

/-- Witness for C8: the amended theorem applied to `next 1` inside an
iterator block from the seed CFG; the continuation of the `Next` lowering is
the dead block. -/
theorem C8_next_amended_witness :
    (walk nextCtx (.Next loc1 (.Literal loc1 (.intLit 1))) 1 sampleSt).2 =
      deadBlockId := by
  obtain ⟨st2, an, hw, h2, _⟩ :=
    C8_next_amended nextCtx loc1 (.Literal loc1 (.intLit 1)) 1 sampleSt
      sampleLink rfl rfl
  exact h2

/-! ### C10 — lowering `ConstantLit` -/

/-- What a `ConstantLit` walk does to the state: it returns `current`, leaves
every other block (and the error queue and block count) unchanged, never
decreases the counter, and appends to `current` the `Alias` for the resolved
symbol (untyped for the stub module) followed only by bindings whose
destinations are freshly allocated `keepForIde` temporaries. -/
def CLPost (cctx : CFGContext) (loc : Loc) (sym : SymbolRef) (st st2 : St)
    (current r : Nat) : Prop :=
  r = current ∧
  st.temporaryCounter ≤ st2.temporaryCounter ∧
  (∀ i, i ≠ current → st2.blocks i = st.blocks i) ∧
  st2.errors = st.errors ∧
  st2.nblocks = st.nblocks ∧
  (st2.blocks current).bexit = (st.blocks current).bexit ∧
  ∃ suffix, (st2.blocks current).exprs = (st.blocks current).exprs ++
      (⟨cctx.target, loc,
        .Alias (if sym = SymbolRef.StubModule then SymbolRef.untyped else sym),
        false⟩ :: suffix) ∧
    ∀ b ∈ suffix, b.bind.name = Name.keepForIde ∧
      st.temporaryCounter < b.bind.unique

theorem CLPost_base (cctx : CFGContext) (loc : Loc) (sym : SymbolRef) (st : St)
    (current : Nat) :
    CLPost cctx loc sym st
      (if sym = SymbolRef.StubModule then
        st.pushExpr current cctx.target loc (.Alias SymbolRef.untyped) false
      else st.pushExpr current cctx.target loc (.Alias sym) false)
      current current := by
  refine ⟨rfl, ?_, ?_, ?_, ?_, ?_, ?_⟩
  · by_cases hs : sym = SymbolRef.StubModule <;> simp [hs, St.pushExpr, St.upd]
  · intro i hi
    by_cases hs : sym = SymbolRef.StubModule <;>
      simp [hs, St.pushExpr, upd_blocks, hi]
  · by_cases hs : sym = SymbolRef.StubModule <;> simp [hs, St.pushExpr, St.upd]
  · by_cases hs : sym = SymbolRef.StubModule <;> simp [hs, St.pushExpr, St.upd]
  · by_cases hs : sym = SymbolRef.StubModule <;>
      simp [hs, pushExpr_bexit]
  · refine ⟨[], ?_, by simp⟩
    by_cases hs : sym = SymbolRef.StubModule <;>
      simp [hs, St.pushExpr, upd_blocks]

/-- The `ConstantLit` walk satisfies `CLPost`; proved by recursion on the
original-scope chain. -/
def walk_ConstantLit_spec : ∀ (orig : OptExpression) (loc : Loc)
    (sym : SymbolRef) (cctx : CFGContext) (current : Nat) (st : St),
    CLPost cctx loc sym st
      ((walk cctx (.ConstantLit loc sym orig) current st).1) current
      ((walk cctx (.ConstantLit loc sym orig) current st).2)
  | .none, loc, sym, cctx, current, st => by
    rw [walk_ConstantLit_none]
    exact CLPost_base cctx loc sym st current
  | .some sc, loc, sym, cctx, current, st => by
    match sc with
    | .ConstantLit nloc nsym norig =>
      rw [walk_ConstantLit_someCL]
      simp only [St.newTemporary]
      have hbase := CLPost_base cctx loc sym st current
      set st1 := (if sym = SymbolRef.StubModule then
          st.pushExpr current cctx.target loc (.Alias SymbolRef.untyped) false
        else st.pushExpr current cctx.target loc (.Alias sym) false) with hst1
      have hih := walk_ConstantLit_spec norig nloc nsym
        (cctx.withTarget ⟨Name.keepForIde, st1.temporaryCounter + 1⟩) current
        { st1 with temporaryCounter := st1.temporaryCounter + 1 }
      obtain ⟨hr, hc, hblocks, herr, hnb, hbex, suffix, hexprs, hsuf⟩ := hih
      obtain ⟨_, _, hblocks0, herr0, hnb0, hbex0, suffix0, hexprs0, _⟩ := hbase
      have hcount1 : st1.temporaryCounter = st.temporaryCounter := by
        rw [hst1]
        by_cases hs : sym = SymbolRef.StubModule <;>
          simp [hs, pushExpr_temporaryCounter]
      refine ⟨hr, ?_, ?_, ?_, ?_, ?_, ?_⟩
      · refine le_trans (Nat.le_succ st.temporaryCounter) ?_
        simpa [hcount1] using hc
      · intro i hi
        rw [hblocks i hi]
        simp only []
        exact hblocks0 i hi
      · rw [herr]
        exact herr0
      · rw [hnb]
        exact hnb0
      · rw [hbex]
        exact hbex0
      · refine ⟨⟨⟨Name.keepForIde, st1.temporaryCounter + 1⟩, nloc,
          .Alias (if nsym = SymbolRef.StubModule then SymbolRef.untyped else nsym),
          false⟩ :: suffix, ?_, ?_⟩
        · rw [hexprs]
          simp only [CFGContext.withTarget]
          have hpush : (st1.blocks current).exprs =
              (st.blocks current).exprs ++ [⟨cctx.target, loc,
                .Alias (if sym = SymbolRef.StubModule then SymbolRef.untyped
                  else sym), false⟩] := by
            rw [hst1]
            by_cases hs : sym = SymbolRef.StubModule <;>
              simp [hs, St.pushExpr, upd_blocks]
          simp [hpush]
        · intro b hb
          rcases List.mem_cons.mp hb with hb | hb
          · subst hb
            refine ⟨rfl, ?_⟩
            show st.temporaryCounter < st1.temporaryCounter + 1
            omega
          · have h1 := hsuf b hb
            refine ⟨h1.1, ?_⟩
            have h2 : st1.temporaryCounter + 1 < b.bind.unique := h1.2
            omega
    | .While a b c =>
      rw [walk_ConstantLit_someOther cctx loc sym (.While a b c) current st rfl]
      exact CLPost_base cctx loc sym st current
    | .Return a b =>
      rw [walk_ConstantLit_someOther cctx loc sym (.Return a b) current st rfl]
      exact CLPost_base cctx loc sym st current
    | .If a b c d =>
      rw [walk_ConstantLit_someOther cctx loc sym (.If a b c d) current st rfl]
      exact CLPost_base cctx loc sym st current
    | .Literal a b =>
      rw [walk_ConstantLit_someOther cctx loc sym (.Literal a b) current st rfl]
      exact CLPost_base cctx loc sym st current
    | .UnresolvedIdent a b c =>
      rw [walk_ConstantLit_someOther cctx loc sym (.UnresolvedIdent a b c) current st rfl]
      exact CLPost_base cctx loc sym st current
    | .Field a b =>
      rw [walk_ConstantLit_someOther cctx loc sym (.Field a b) current st rfl]
      exact CLPost_base cctx loc sym st current
    | .Local a b =>
      rw [walk_ConstantLit_someOther cctx loc sym (.Local a b) current st rfl]
      exact CLPost_base cctx loc sym st current
    | .Assign a b c =>
      rw [walk_ConstantLit_someOther cctx loc sym (.Assign a b c) current st rfl]
      exact CLPost_base cctx loc sym st current
    | .InsSeq a b c =>
      rw [walk_ConstantLit_someOther cctx loc sym (.InsSeq a b c) current st rfl]
      exact CLPost_base cctx loc sym st current
    | .Send a b c d e f =>
      rw [walk_ConstantLit_someOther cctx loc sym (.Send a b c d e f) current st rfl]
      exact CLPost_base cctx loc sym st current
    | .Next a b =>
      rw [walk_ConstantLit_someOther cctx loc sym (.Next a b) current st rfl]
      exact CLPost_base cctx loc sym st current
    | .Break a b =>
      rw [walk_ConstantLit_someOther cctx loc sym (.Break a b) current st rfl]
      exact CLPost_base cctx loc sym st current
    | .Retry a =>
      rw [walk_ConstantLit_someOther cctx loc sym (.Retry a) current st rfl]
      exact CLPost_base cctx loc sym st current
    | .Rescue a b c d e =>
      rw [walk_ConstantLit_someOther cctx loc sym (.Rescue a b c d e) current st rfl]
      exact CLPost_base cctx loc sym st current
    | .Hash a b =>
      rw [walk_ConstantLit_someOther cctx loc sym (.Hash a b) current st rfl]
      exact CLPost_base cctx loc sym st current
    | .Array a b =>
      rw [walk_ConstantLit_someOther cctx loc sym (.Array a b) current st rfl]
      exact CLPost_base cctx loc sym st current
    | .Cast a b c d =>
      rw [walk_ConstantLit_someOther cctx loc sym (.Cast a b c d) current st rfl]
      exact CLPost_base cctx loc sym st current
    | .EmptyTree a =>
      rw [walk_ConstantLit_someOther cctx loc sym (.EmptyTree a) current st rfl]
      exact CLPost_base cctx loc sym st current

/-- C10: for every `ConstantLit` node, walk returns the current block, leaves
every other block unchanged, and emits exactly one instruction whose
destination is `ctx.target` into the current block: `Alias(untyped)` when the
resolved symbol is the stub module and `Alias(symbol)` otherwise. (The
hypothesis excludes the degenerate target that collides with the fresh
`keepForIde` temporaries used to walk nested constant scopes.) -/
theorem C10_ConstantLit (cctx : CFGContext) (loc : Loc) (sym : SymbolRef)
    (orig : OptExpression) (current : Nat) (st : St)
    (h : cctx.target.name ≠ Name.keepForIde ∨
      cctx.target.unique ≤ st.temporaryCounter) :
    (walk cctx (.ConstantLit loc sym orig) current st).2 = current ∧
    (∀ i, i ≠ current →
      (walk cctx (.ConstantLit loc sym orig) current st).1.blocks i =
        st.blocks i) ∧
    ((walk cctx (.ConstantLit loc sym orig) current st).1.blocks
          current).exprs.filter (fun b => b.bind = cctx.target) =
      ((st.blocks current).exprs.filter (fun b => b.bind = cctx.target)) ++
        [⟨cctx.target, loc,
          .Alias (if sym = SymbolRef.StubModule then SymbolRef.untyped else sym),
          false⟩] := by
  obtain ⟨hr, hc, hblocks, herr, hnb, hbex, suffix, hexprs, hsuf⟩ :=
    walk_ConstantLit_spec orig loc sym cctx current st
  refine ⟨hr, hblocks, ?_⟩
  rw [hexprs, List.filter_append, List.filter_cons]
  have hnil : suffix.filter (fun b => b.bind = cctx.target) = [] := by
    rw [List.filter_eq_nil]
    intro b hb
    simp only [decide_eq_true_eq]
    intro hbt
    rcases h with h | h
    · apply h
      rw [← hbt]
      exact (hsuf b hb).1
    · have hlt := (hsuf b hb).2
      rw [hbt] at hlt
      omega
  simp [hnil]

/-- A two-deep resolved constant chain whose nested scope is the stub
module. -/
def constChainProg : Expression :=
  .ConstantLit loc1 (.other 7) (.some (.ConstantLit loc1 .StubModule .none))

/-- Witness for C10: walking the sample constant chain from the seed CFG
returns the entry block and emits exactly one `Alias` destined for the
target. -/
theorem C10_ConstantLit_witness :
    (walk sampleCtx constChainProg 1 sampleSt).2 = 1 ∧
    ((walk sampleCtx constChainProg 1 sampleSt).1.blocks 1).exprs.filter
        (fun b => b.bind = sampleCtx.target) =
      ((sampleSt.blocks 1).exprs.filter (fun b => b.bind = sampleCtx.target)) ++
        [⟨sampleCtx.target, loc1, .Alias (.other 7), false⟩] := by
  obtain ⟨h1, h2, h3⟩ :=
    C10_ConstantLit sampleCtx loc1 (.other 7)
      (.some (.ConstantLit loc1 .StubModule .none)) 1 sampleSt
      (Or.inl (by decide))
  exact ⟨h1, by simpa [constChainProg] using h3⟩

/-! ### The walk invariant: monotone state evolution

`TrE P st st2` says the lowering state evolved from `st` to `st2` without
shrinking the block vector, only appending to instruction lists, and
changing terminators only at blocks satisfying `P`. `Wf` is the standing
well-formedness of the state (the dead block exists and has no terminator;
unallocated slots are empty and terminator-free). `WalkOut` is the
postcondition of every walk: continuation blocks are the dead block, the
input block, or freshly allocated, and always terminator-free. -/

def TrE (P : Nat → Prop) (st st2 : St) : Prop :=
  st.nblocks ≤ st2.nblocks ∧
  (∀ i, ∃ s, (st2.blocks i).exprs = (st.blocks i).exprs ++ s) ∧
  (∀ i, ¬ P i → (st2.blocks i).bexit = (st.blocks i).bexit)

def Wf (st : St) : Prop :=
  0 < st.nblocks ∧
  (st.blocks deadBlockId).bexit.condSet = false ∧
  (∀ i, st.nblocks ≤ i → (st.blocks i).exprs = [] ∧
    (st.blocks i).bexit.condSet = false)

def WalkOut (cur : Nat) (st : St) (p : St × Nat) : Prop :=
  TrE (fun i => (i = cur ∨ st.nblocks ≤ i) ∧ i ≠ deadBlockId) st p.1 ∧
  Wf p.1 ∧
  p.2 < p.1.nblocks ∧
  (p.2 = deadBlockId ∨ p.2 = cur ∨ st.nblocks ≤ p.2)

theorem TrE_refl (P : Nat → Prop) (st : St) : TrE P st st :=
  ⟨le_refl _, fun i => ⟨[], by simp⟩, fun _ _ => rfl⟩

theorem TrE_trans {P Q : Nat → Prop} {st st1 st2 : St} (h1 : TrE P st st1)
    (h2 : TrE Q st1 st2) : TrE (fun i => P i ∨ Q i) st st2 := by
  obtain ⟨hn1, he1, hb1⟩ := h1
  obtain ⟨hn2, he2, hb2⟩ := h2
  refine ⟨le_trans hn1 hn2, ?_, ?_⟩
  · intro i
    obtain ⟨s1, hs1⟩ := he1 i
    obtain ⟨s2, hs2⟩ := he2 i
    exact ⟨s1 ++ s2, by rw [hs2, hs1, List.append_assoc]⟩
  · intro i hi
    rw [hb2 i (fun h => hi (Or.inr h)), hb1 i (fun h => hi (Or.inl h))]

theorem TrE_weaken {P Q : Nat → Prop} {st st2 : St} (h : TrE P st st2)
    (hPQ : ∀ i, P i → Q i) : TrE Q st st2 :=
  ⟨h.1, h.2.1, fun i hi => h.2.2 i (fun hp => hi (hPQ i hp))⟩

theorem TrE_of_blocks_eq {st st2 : St} (hb : st2.blocks = st.blocks)
    (hn : st2.nblocks = st.nblocks) (P : Nat → Prop) : TrE P st st2 :=
  ⟨le_of_eq hn.symm, fun i => ⟨[], by rw [hb]; simp⟩, fun i _ => by rw [hb]⟩

theorem TrE_pushExpr (st : St) (b : Nat) (v : LocalVariable) (loc : Loc)
    (inst : Instruction) (syn : Bool) (P : Nat → Prop) :
    TrE P st (st.pushExpr b v loc inst syn) := by
  refine ⟨le_of_eq rfl, ?_, ?_⟩
  · intro i
    rw [pushExpr_exprs]
    by_cases h : i = b <;> simp [h]
  · intro i _
    rw [pushExpr_bexit]

theorem TrE_newTemporary (st : St) (n : Name) (P : Nat → Prop) :
    TrE P st (st.newTemporary n).1 :=
  TrE_of_blocks_eq rfl rfl P

theorem TrE_beginError (st : St) (loc : Loc) (c : ErrorCode) (P : Nat → Prop) :
    TrE P st (st.beginError loc c) :=
  TrE_of_blocks_eq rfl rfl P

theorem TrE_freshBlock (st : St) (a b : Nat) (hwf : Wf st) :
    TrE (fun i => i = st.nblocks) st (st.freshBlock a b).1 := by
  refine ⟨by rw [freshBlock_nblocks]; exact Nat.le_succ _, ?_, ?_⟩
  · intro i
    rw [freshBlock_blocks]
    by_cases h : i = st.nblocks
    · subst h
      refine ⟨[], ?_⟩
      rw [(hwf.2.2 st.nblocks (le_refl _)).1]
      simp
    · simp [h]
  · intro i hi
    rw [freshBlock_blocks, if_neg hi]

theorem TrE_conditionalJump (frm : Nat) (cond : LocalVariable)
    (thenb elseb : Nat) (st : St) (loc : Loc) :
    TrE (fun i => i = frm ∧ frm ≠ deadBlockId) st
      (conditionalJump frm cond thenb elseb st loc) := by
  refine ⟨le_of_eq (conditionalJump_nblocks frm cond thenb elseb st loc).symm,
    ?_, ?_⟩
  · intro i
    rw [conditionalJump_exprs]
    exact ⟨[], by simp⟩
  · intro i hi
    rw [conditionalJump_bexit]
    rw [if_neg]
    intro ⟨ha, hb⟩
    exact hi ⟨hb, ha⟩

theorem TrE_unconditionalJump (frm tgt : Nat) (st : St) (loc : Loc) :
    TrE (fun i => i = frm ∧ frm ≠ deadBlockId) st
      (unconditionalJump frm tgt st loc) := by
  refine ⟨le_of_eq (unconditionalJump_nblocks frm tgt st loc).symm, ?_, ?_⟩
  · intro i
    rw [unconditionalJump_exprs]
    exact ⟨[], by simp⟩
  · intro i hi
    rw [unconditionalJump_bexit]
    rw [if_neg]
    intro ⟨ha, hb⟩
    exact hi ⟨hb, ha⟩

theorem TrE_jumpToDead (frm : Nat) (st : St) (loc : Loc) :
    TrE (fun i => i = frm ∧ frm ≠ deadBlockId) st (jumpToDead frm st loc) := by
  refine ⟨le_of_eq (jumpToDead_nblocks frm st loc).symm, ?_, ?_⟩
  · intro i
    rw [jumpToDead_exprs]
    exact ⟨[], by simp⟩
  · intro i hi
    rw [jumpToDead_bexit]
    rw [if_neg]
    intro ⟨ha, hb⟩
    exact hi ⟨hb, ha⟩

theorem Wf_of_blocks_eq {st st2 : St} (hb : st2.blocks = st.blocks)
    (hn : st2.nblocks = st.nblocks) (hwf : Wf st) : Wf st2 := by
  refine ⟨by have := hwf.1; omega, by rw [hb]; exact hwf.2.1, ?_⟩
  intro i hi
  rw [hb]
  exact hwf.2.2 i (by omega)

theorem Wf_pushExpr (st : St) (b : Nat) (v : LocalVariable) (loc : Loc)
    (inst : Instruction) (syn : Bool) (hwf : Wf st) (hb : b < st.nblocks) :
    Wf (st.pushExpr b v loc inst syn) := by
  refine ⟨by rw [pushExpr_nblocks]; exact hwf.1, ?_, ?_⟩
  · rw [pushExpr_bexit]
    exact hwf.2.1
  · intro i hi
    rw [pushExpr_nblocks] at hi
    rw [pushExpr_exprs, pushExpr_bexit, if_neg (by omega)]
    exact hwf.2.2 i hi

theorem Wf_newTemporary (st : St) (n : Name) (hwf : Wf st) :
    Wf (st.newTemporary n).1 := Wf_of_blocks_eq rfl rfl hwf

theorem Wf_beginError (st : St) (loc : Loc) (c : ErrorCode) (hwf : Wf st) :
    Wf (st.beginError loc c) := Wf_of_blocks_eq rfl rfl hwf

theorem Wf_freshBlock (st : St) (a b : Nat) (hwf : Wf st) :
    Wf (st.freshBlock a b).1 := by
  refine ⟨by rw [freshBlock_nblocks]; omega, ?_, ?_⟩
  · rw [freshBlock_blocks,
      if_neg (by have := hwf.1; simp only [deadBlockId]; omega :
        ¬ deadBlockId = st.nblocks)]
    exact hwf.2.1
  · intro i hi
    rw [freshBlock_nblocks] at hi
    rw [freshBlock_blocks, if_neg (by omega)]
    exact hwf.2.2 i (by omega)

theorem Wf_conditionalJump (frm : Nat) (cond : LocalVariable)
    (thenb elseb : Nat) (st : St) (loc : Loc) (hwf : Wf st)
    (hfrm : frm < st.nblocks) :
    Wf (conditionalJump frm cond thenb elseb st loc) := by
  refine ⟨by rw [conditionalJump_nblocks]; exact hwf.1, ?_, ?_⟩
  · rw [conditionalJump_bexit]
    rw [if_neg (fun h => h.1 h.2.symm)]
    exact hwf.2.1
  · intro i hi
    rw [conditionalJump_nblocks] at hi
    rw [conditionalJump_exprs, conditionalJump_bexit, if_neg (by omega)]
    exact hwf.2.2 i hi

theorem Wf_unconditionalJump (frm tgt : Nat) (st : St) (loc : Loc)
    (hwf : Wf st) (hfrm : frm < st.nblocks) :
    Wf (unconditionalJump frm tgt st loc) := by
  refine ⟨by rw [unconditionalJump_nblocks]; exact hwf.1, ?_, ?_⟩
  · rw [unconditionalJump_bexit]
    rw [if_neg (fun h => h.1 h.2.symm)]
    exact hwf.2.1
  · intro i hi
    rw [unconditionalJump_nblocks] at hi
    rw [unconditionalJump_exprs, unconditionalJump_bexit, if_neg (by omega)]
    exact hwf.2.2 i hi

theorem Wf_jumpToDead (frm : Nat) (st : St) (loc : Loc) (hwf : Wf st)
    (hfrm : frm < st.nblocks) : Wf (jumpToDead frm st loc) := by
  refine ⟨by rw [jumpToDead_nblocks]; exact hwf.1, ?_, ?_⟩
  · rw [jumpToDead_bexit]
    rw [if_neg (fun h => h.1 h.2.symm)]
    exact hwf.2.1
  · intro i hi
    rw [jumpToDead_nblocks] at hi
    rw [jumpToDead_exprs, jumpToDead_bexit, if_neg (by omega)]
    exact hwf.2.2 i hi

/-- `Ok cur st st2`: the state evolved within the walk's permitted footprint
for a walk whose input block is `cur` on input state `st`. -/
def Ok (cur : Nat) (st st2 : St) : Prop :=
  TrE (fun i => (i = cur ∨ st.nblocks ≤ i) ∧ i ≠ deadBlockId) st st2 ∧ Wf st2

theorem Ok_refl (cur : Nat) (st : St) (hwf : Wf st) : Ok cur st st :=
  ⟨TrE_refl _ st, hwf⟩

theorem Ok_nblocks {cur : Nat} {st st2 : St} (h : Ok cur st st2) :
    st.nblocks ≤ st2.nblocks := h.1.1

theorem Ok_push {cur : Nat} {st st2 : St} (h : Ok cur st st2) (b : Nat)
    (v : LocalVariable) (loc : Loc) (inst : Instruction) (syn : Bool)
    (hb : b < st2.nblocks) : Ok cur st (st2.pushExpr b v loc inst syn) :=
  ⟨TrE_weaken (TrE_trans h.1 (TrE_pushExpr st2 b v loc inst syn
      (fun _ => False))) (fun i hi => hi.elim id False.elim),
   Wf_pushExpr st2 b v loc inst syn h.2 hb⟩

theorem Ok_scalar {cur : Nat} {st st2 st3 : St} (h : Ok cur st st2)
    (hb : st3.blocks = st2.blocks) (hn : st3.nblocks = st2.nblocks) :
    Ok cur st st3 :=
  ⟨TrE_weaken (TrE_trans h.1 (TrE_of_blocks_eq hb hn (fun _ => False)))
      (fun i hi => hi.elim id False.elim),
   Wf_of_blocks_eq hb hn h.2⟩

theorem Ok_fresh {cur : Nat} {st st2 : St} (h : Ok cur st st2) (a b : Nat) :
    Ok cur st (st2.freshBlock a b).1 := by
  refine ⟨TrE_weaken (TrE_trans h.1 (TrE_freshBlock st2 a b h.2)) ?_,
    Wf_freshBlock st2 a b h.2⟩
  intro i hi
  rcases hi with hi | hi
  · exact hi
  · subst hi
    have h1 : st.nblocks ≤ st2.nblocks := h.1.1
    have h2 : 0 < st2.nblocks := h.2.1
    exact ⟨Or.inr h1, by simp only [deadBlockId]; omega⟩

theorem Ok_jump_uncond {cur : Nat} {st st2 : St} (h : Ok cur st st2)
    (frm tgt : Nat) (loc : Loc) (hfrm : frm < st2.nblocks)
    (hclass : frm = deadBlockId ∨ frm = cur ∨ st.nblocks ≤ frm) :
    Ok cur st (unconditionalJump frm tgt st2 loc) := by
  refine ⟨TrE_weaken (TrE_trans h.1 (TrE_unconditionalJump frm tgt st2 loc)) ?_,
    Wf_unconditionalJump frm tgt st2 loc h.2 hfrm⟩
  intro i hi
  rcases hi with hi | ⟨hi1, hi2⟩
  · exact hi
  · subst hi1
    rcases hclass with hc | hc | hc
    · exact absurd hc hi2
    · exact ⟨Or.inl hc, hi2⟩
    · exact ⟨Or.inr hc, hi2⟩

theorem Ok_jump_cond {cur : Nat} {st st2 : St} (h : Ok cur st st2) (frm : Nat)
    (cond : LocalVariable) (thenb elseb : Nat) (loc : Loc)
    (hfrm : frm < st2.nblocks)
    (hclass : frm = deadBlockId ∨ frm = cur ∨ st.nblocks ≤ frm) :
    Ok cur st (conditionalJump frm cond thenb elseb st2 loc) := by
  refine ⟨TrE_weaken (TrE_trans h.1
      (TrE_conditionalJump frm cond thenb elseb st2 loc)) ?_,
    Wf_conditionalJump frm cond thenb elseb st2 loc h.2 hfrm⟩
  intro i hi
  rcases hi with hi | ⟨hi1, hi2⟩
  · exact hi
  · subst hi1
    rcases hclass with hc | hc | hc
    · exact absurd hc hi2
    · exact ⟨Or.inl hc, hi2⟩
    · exact ⟨Or.inr hc, hi2⟩

theorem Ok_jump_dead {cur : Nat} {st st2 : St} (h : Ok cur st st2) (frm : Nat)
    (loc : Loc) (hfrm : frm < st2.nblocks)
    (hclass : frm = deadBlockId ∨ frm = cur ∨ st.nblocks ≤ frm) :
    Ok cur st (jumpToDead frm st2 loc) := by
  refine ⟨TrE_weaken (TrE_trans h.1 (TrE_jumpToDead frm st2 loc)) ?_,
    Wf_jumpToDead frm st2 loc h.2 hfrm⟩
  intro i hi
  rcases hi with hi | ⟨hi1, hi2⟩
  · exact hi
  · subst hi1
    rcases hclass with hc | hc | hc
    · exact absurd hc hi2
    · exact ⟨Or.inl hc, hi2⟩
    · exact ⟨Or.inr hc, hi2⟩

theorem Ok_sub {cur c : Nat} {st st2 : St} {p : St × Nat} (h : Ok cur st st2)
    (sub : WalkOut c st2 p)
    (hc : c = deadBlockId ∨ c = cur ∨ st.nblocks ≤ c) : Ok cur st p.1 := by
  refine ⟨TrE_weaken (TrE_trans h.1 sub.1) ?_, sub.2.1⟩
  intro i hi
  rcases hi with hi | ⟨hi1, hi2⟩
  · exact hi
  · rcases hi1 with hi1 | hi1
    · subst hi1
      rcases hc with hcc | hcc | hcc
      · exact absurd hcc hi2
      · exact ⟨Or.inl hcc, hi2⟩
      · exact ⟨Or.inr hcc, hi2⟩
    · exact ⟨Or.inr (le_trans h.1.1 hi1), hi2⟩

/-- Terminators of old blocks other than the walk's input block survive a
sub-walk. -/
theorem WalkOut_bexit_pres {c : Nat} {st2 : St} {p : St × Nat}
    (sub : WalkOut c st2 p) (j : Nat) (hne : j ≠ c) (hlt : j < st2.nblocks) :
    (p.1.blocks j).bexit = (st2.blocks j).bexit := by
  apply sub.1.2.2
  intro ⟨h1, _⟩
  rcases h1 with h1 | h1
  · exact hne h1
  · omega

/-- The walk postcondition, proved for every AST case; this is the master
single-terminator/monotonicity invariant of the lowering walker. -/
theorem walkOut_result_bound {cur : Nat} {st : St} {p : St × Nat}
    (h : WalkOut cur st p) : p.2 < p.1.nblocks := h.2.2.1


theorem WalkOut_mk {cur : Nat} {st : St} {p : St × Nat} (h : Ok cur st p.1)
    (hb : p.2 < p.1.nblocks)
    (hc : p.2 = deadBlockId ∨ p.2 = cur ∨ st.nblocks ≤ p.2) :
    WalkOut cur st p := ⟨h.1, h.2, hb, hc⟩

theorem WalkOut_Ok {cur : Nat} {st : St} {p : St × Nat} (h : WalkOut cur st p) :
    Ok cur st p.1 := ⟨h.1, h.2.1⟩

/-- The state component of `freshBlock`, kept folded so that pair matches on
`freshBlock` can be reduced without losing lemma applicability. -/
def St.addBlock (st : St) (outerLoops rubyBlockId : Nat) : St :=
  (st.freshBlock outerLoops rubyBlockId).1

/-- The state component of `newTemporary`. -/
def St.incCounter (st : St) : St :=
  { st with temporaryCounter := st.temporaryCounter + 1 }

theorem freshBlock_pair (st : St) (a b : Nat) :
    st.freshBlock a b = (st.addBlock a b, st.nblocks) := rfl

theorem newTemporary_pair (st : St) (n : Name) :
    st.newTemporary n = (st.incCounter, ⟨n, st.temporaryCounter + 1⟩) := rfl

theorem addBlock_blocks (st : St) (a b : Nat) (j : Nat) :
    (st.addBlock a b).blocks j =
      if j = st.nblocks then
        { id := st.nblocks, outerLoops := a, rubyBlockId := b }
      else st.blocks j := freshBlock_blocks st a b j

theorem addBlock_nblocks (st : St) (a b : Nat) :
    (st.addBlock a b).nblocks = st.nblocks + 1 := rfl

theorem incCounter_blocks (st : St) : (St.incCounter st).blocks = st.blocks := rfl

theorem incCounter_nblocks (st : St) : (St.incCounter st).nblocks = st.nblocks := rfl

theorem Ok_addBlock {cur : Nat} {st st2 : St} (h : Ok cur st st2) (a b : Nat) :
    Ok cur st (st2.addBlock a b) := Ok_fresh h a b

theorem Ok_incCounter {cur : Nat} {st st2 : St} (h : Ok cur st st2) :
    Ok cur st st2.incCounter := Ok_scalar h rfl rfl

theorem Wf_addBlock (st : St) (a b : Nat) (hwf : Wf st) : Wf (st.addBlock a b) :=
  Wf_freshBlock st a b hwf

theorem Wf_incCounter (st : St) (hwf : Wf st) : Wf st.incCounter :=
  Wf_of_blocks_eq rfl rfl hwf

/-- The state component of `exceptionStep`; the returned handler head is
always the freshly allocated block. -/
def exceptionStepSt (cctx : CFGContext) (localVar : LocalVariable) (eloc : Loc)
    (exceptionClass : LocalVariable) (caseBody handlers : Nat) (st : St) : St :=
  (exceptionStep cctx localVar eloc exceptionClass caseBody handlers st).1

theorem exceptionStep_pair (cctx : CFGContext) (localVar : LocalVariable)
    (eloc : Loc) (exceptionClass : LocalVariable) (caseBody handlers : Nat)
    (st : St) :
    exceptionStep cctx localVar eloc exceptionClass caseBody handlers st =
      (exceptionStepSt cctx localVar eloc exceptionClass caseBody handlers st,
       st.nblocks) := rfl

theorem exceptionStepSt_eq (cctx : CFGContext) (localVar : LocalVariable)
    (eloc : Loc) (exceptionClass : LocalVariable) (caseBody handlers : Nat)
    (st : St) :
    exceptionStepSt cctx localVar eloc exceptionClass caseBody handlers st =
      conditionalJump handlers ⟨Name.isaCheckTemp, st.temporaryCounter + 1⟩
        caseBody st.nblocks
        ((st.incCounter.pushExpr handlers
          ⟨Name.isaCheckTemp, st.temporaryCounter + 1⟩ eloc
          (.Send localVar Name.is_a_p eloc [exceptionClass] [eloc] false none)
          false).addBlock cctx.loops cctx.rubyBlockId) eloc := rfl

/-! ### Additional pointwise scalar lemmas used by the master invariant -/

theorem beginError_nblocks (st : St) (loc : Loc) (code : ErrorCode) :
    (st.beginError loc code).nblocks = st.nblocks := rfl

theorem incCounter_temporaryCounter (st : St) :
    (St.incCounter st).temporaryCounter = st.temporaryCounter + 1 := rfl

theorem addBlock_temporaryCounter (st : St) (a b : Nat) :
    (st.addBlock a b).temporaryCounter = st.temporaryCounter := rfl

theorem unconditionalJump_temporaryCounter (frm tgt : Nat) (st : St) (loc : Loc) :
    (unconditionalJump frm tgt st loc).temporaryCounter = st.temporaryCounter :=
  (unconditionalJump_scalars frm tgt st loc).2.2.1

theorem conditionalJump_temporaryCounter (frm : Nat) (cond : LocalVariable)
    (thenb elseb : Nat) (st : St) (loc : Loc) :
    (conditionalJump frm cond thenb elseb st loc).temporaryCounter =
      st.temporaryCounter :=
  (conditionalJump_scalars frm cond thenb elseb st loc).2.2.1

theorem jumpToDead_temporaryCounter (frm : Nat) (st : St) (loc : Loc) :
    (jumpToDead frm st loc).temporaryCounter = st.temporaryCounter :=
  (jumpToDead_scalars frm st loc).2.2.1

theorem bindBlockArgs_nblocks (st : St) (bodyBlock : Nat)
    (argTemp idxTmp : LocalVariable) (blockLoc : Loc) (args : List ParsedArg)
    (i : Nat) :
    (bindBlockArgs st bodyBlock argTemp idxTmp blockLoc args i).nblocks =
      st.nblocks := by
  induction args generalizing st i with
  | nil => rfl
  | cons a rest ih =>
    simp only [bindBlockArgs]
    rw [ih]
    by_cases hr : a.repeated = true <;> by_cases hi : i ≠ 0 <;>
      simp [hr, hi, pushExpr_nblocks]

theorem bindBlockArgs_temporaryCounter (st : St) (bodyBlock : Nat)
    (argTemp idxTmp : LocalVariable) (blockLoc : Loc) (args : List ParsedArg)
    (i : Nat) :
    (bindBlockArgs st bodyBlock argTemp idxTmp blockLoc args i).temporaryCounter =
      st.temporaryCounter := by
  induction args generalizing st i with
  | nil => rfl
  | cons a rest ih =>
    simp only [bindBlockArgs]
    rw [ih]
    by_cases hr : a.repeated = true <;> by_cases hi : i ≠ 0 <;>
      simp [hr, hi, pushExpr_temporaryCounter]

theorem Ok_bindBlockArgs {cur : Nat} {st : St} (bodyBlock : Nat)
    (argTemp idxTmp : LocalVariable) (blockLoc : Loc) (args : List ParsedArg) :
    ∀ (i : Nat) (st2 : St), Ok cur st st2 → bodyBlock < st2.nblocks →
    Ok cur st (bindBlockArgs st2 bodyBlock argTemp idxTmp blockLoc args i) := by
  induction args with
  | nil => intro i st2 h _; exact h
  | cons a rest ih =>
    intro i st2 h hb
    simp only [bindBlockArgs]
    apply ih
    · split
      · split
        · exact Ok_push h bodyBlock _ _ _ _ hb
        · exact Ok_push h bodyBlock _ _ _ _ hb
      · exact Ok_push (Ok_push h bodyBlock _ _ _ _ hb) bodyBlock _ _ _ _
          (by rw [pushExpr_nblocks]; exact hb)
    · split
      · split <;> (rw [pushExpr_nblocks]; exact hb)
      · rw [pushExpr_nblocks, pushExpr_nblocks]; exact hb

/-! ### Composition combinators for the master invariant -/

theorem class_mono {a cur m n : Nat}
    (h : a = deadBlockId ∨ a = cur ∨ m ≤ a) (hmn : n ≤ m) :
    a = deadBlockId ∨ a = cur ∨ n ≤ a := by
  rcases h with h | h | h
  · exact Or.inl h
  · exact Or.inr (Or.inl h)
  · exact Or.inr (Or.inr (le_trans hmn h))

theorem class_chain {r c1 cur m n : Nat}
    (h2 : r = deadBlockId ∨ r = c1 ∨ m ≤ r)
    (h1 : c1 = deadBlockId ∨ c1 = cur ∨ n ≤ c1)
    (hn : n ≤ m) : r = deadBlockId ∨ r = cur ∨ n ≤ r := by
  rcases h2 with h | h | h
  · exact Or.inl h
  · subst h; exact h1
  · exact Or.inr (Or.inr (le_trans hn h))

/-- A pre-step that only changes scalars (such as `newTemporary` or a
bookkeeping update) preserves the walk postcondition relative to the earlier
state. -/
theorem WalkOut_pre {cur : Nat} {st st0 : St} {p : St × Nat}
    (hb : st0.blocks = st.blocks) (hn : st0.nblocks = st.nblocks) (hwf : Wf st)
    (h : WalkOut cur st0 p) : WalkOut cur st p :=
  ⟨(Ok_sub (Ok_scalar (Ok_refl cur st hwf) hb hn) h (Or.inr (Or.inl rfl))).1,
   h.2.1, h.2.2.1, class_mono h.2.2.2 (le_of_eq hn.symm)⟩

/-- Sequencing two walk steps: the second starts in the first one's
continuation block and output state. -/
theorem WalkOut_chain {cur : Nat} {st : St} {p q : St × Nat}
    (h1 : WalkOut cur st p) (h2 : WalkOut p.2 p.1 q) : WalkOut cur st q :=
  ⟨(Ok_sub (WalkOut_Ok h1) h2 h1.2.2.2).1, h2.2.1, h2.2.2.1,
   class_chain h2.2.2.2 h1.2.2.2 h1.1.1⟩

theorem WalkOut_mk2 {cur : Nat} {st st2 : St} {r : Nat} (h : Ok cur st st2)
    (hb : r < st2.nblocks)
    (hc : r = deadBlockId ∨ r = cur ∨ st.nblocks ≤ r) :
    WalkOut cur st (st2, r) := ⟨h.1, h.2, hb, hc⟩

/-- `exceptionStep` satisfies the walk postcondition for the handlers-head
block: it pushes the `is_a?` check into `handlers`, allocates the next
handler block and conditional-jumps `handlers` on the check. -/
theorem exceptionStep_out (cctx : CFGContext) (localVar : LocalVariable)
    (eloc : Loc) (exceptionClass : LocalVariable) (caseBody handlers : Nat)
    (st : St) (hwf : Wf st) (hh : handlers < st.nblocks) :
    WalkOut handlers st
      (exceptionStep cctx localVar eloc exceptionClass caseBody handlers st) := by
  rw [exceptionStep_pair, exceptionStepSt_eq]
  refine WalkOut_mk2 ?_ ?_ (Or.inr (Or.inr (le_refl _)))
  · exact Ok_jump_cond
      (Ok_addBlock (Ok_push (Ok_incCounter (Ok_refl handlers st hwf)) handlers
        _ _ _ _ (by rw [incCounter_nblocks]; exact hh)) _ _)
      handlers _ _ _ _
      (by rw [addBlock_nblocks, pushExpr_nblocks, incCounter_nblocks]; omega)
      (Or.inr (Or.inl rfl))
  · rw [conditionalJump_nblocks, addBlock_nblocks, pushExpr_nblocks,
      incCounter_nblocks]
    omega

/-! ### The master walk invariant, proved by mutual recursion over the AST:
every walk grows the CFG monotonically, only appends instructions, only
writes terminators of its input block and of blocks it allocated, keeps the
state well-formed, and returns either the dead block, its input block, or a
block it allocated. -/

mutual

theorem walk_out : ∀ (what : Expression) (cctx : CFGContext) (current : Nat)
    (st : St), Wf st → current < st.nblocks →
    WalkOut current st (walk cctx what current st)
  | .While loc cond body, cctx, current, st => fun hwf hcur => by
    rw [walk_While]
    simp only [freshBlock_pair, newTemporary_pair, addBlock_nblocks,
      incCounter_nblocks, addBlock_temporaryCounter, incCounter_temporaryCounter,
      unconditionalJump_nblocks, unconditionalJump_temporaryCounter,
      conditionalJump_nblocks, conditionalJump_temporaryCounter, synthesizeExpr]
    have ok0 : Ok current st ((unconditionalJump current st.nblocks
        (((st.addBlock (cctx.loops + 1) cctx.rubyBlockId).addBlock cctx.loops
          cctx.rubyBlockId).addBlock cctx.loops cctx.rubyBlockId)
        loc).incCounter) :=
      Ok_incCounter (Ok_jump_uncond (Ok_addBlock (Ok_addBlock (Ok_addBlock
        (Ok_refl current st hwf) _ _) _ _) _ _) current st.nblocks loc
        (by simp only [addBlock_nblocks]; omega) (Or.inr (Or.inl rfl)))
    have hnb0 : ((unconditionalJump current st.nblocks
        (((st.addBlock (cctx.loops + 1) cctx.rubyBlockId).addBlock cctx.loops
          cctx.rubyBlockId).addBlock cctx.loops cctx.rubyBlockId)
        loc).incCounter).nblocks = st.nblocks + 1 + 1 + 1 := by
      simp only [incCounter_nblocks, unconditionalJump_nblocks, addBlock_nblocks]
    rcases hw1 : walk ((cctx.withTarget
        ⟨Name.whileTemp, st.temporaryCounter + 1⟩).withLoopScope st.nblocks
        (st.nblocks + 1 + 1) false) cond st.nblocks
        ((unconditionalJump current st.nblocks
          (((st.addBlock (cctx.loops + 1) cctx.rubyBlockId).addBlock cctx.loops
            cctx.rubyBlockId).addBlock cctx.loops cctx.rubyBlockId)
          loc).incCounter) with ⟨st1, c1⟩
    have sub1 := walk_out cond ((cctx.withTarget
        ⟨Name.whileTemp, st.temporaryCounter + 1⟩).withLoopScope st.nblocks
        (st.nblocks + 1 + 1) false) st.nblocks
      ((unconditionalJump current st.nblocks
        (((st.addBlock (cctx.loops + 1) cctx.rubyBlockId).addBlock cctx.loops
          cctx.rubyBlockId).addBlock cctx.loops cctx.rubyBlockId)
        loc).incCounter) ok0.2 (by rw [hnb0]; omega)
    rw [hw1] at sub1
    simp only [hw1]
    have ok1 : Ok current st st1 := Ok_sub ok0 sub1 (Or.inr (Or.inr (le_refl _)))
    have hm1 : st.nblocks + 1 + 1 + 1 ≤ st1.nblocks := by
      have h := sub1.1.1
      rw [hnb0] at h
      exact h
    have hc1 : c1 < st1.nblocks := sub1.2.2.1
    have hcc1 : c1 = deadBlockId ∨ c1 = current ∨ st.nblocks ≤ c1 := by
      have h := sub1.2.2.2
      rw [hnb0] at h
      simp only [deadBlockId] at h ⊢
      omega
    have okJ : Ok current st ((conditionalJump c1
        ⟨Name.whileTemp, st.temporaryCounter + 1⟩ st1.nblocks (st.nblocks + 1)
        (st1.addBlock (cctx.loops + 1) cctx.rubyBlockId) cond.loc).incCounter) :=
      Ok_incCounter (Ok_jump_cond (Ok_addBlock ok1 _ _) c1 _ _ _ _
        (by simp only [addBlock_nblocks]; omega) hcc1)
    have hnbJ : ((conditionalJump c1
        ⟨Name.whileTemp, st.temporaryCounter + 1⟩ st1.nblocks (st.nblocks + 1)
        (st1.addBlock (cctx.loops + 1) cctx.rubyBlockId)
        cond.loc).incCounter).nblocks = st1.nblocks + 1 := by
      simp only [incCounter_nblocks, conditionalJump_nblocks, addBlock_nblocks]
    rcases hw2 : walk ((((cctx.withTarget
        ⟨Name.statTemp, st1.temporaryCounter + 1⟩).withLoopScope st.nblocks
        (st.nblocks + 1 + 1) false)).withBlockBreakTarget cctx.target) body
        st1.nblocks ((conditionalJump c1
          ⟨Name.whileTemp, st.temporaryCounter + 1⟩ st1.nblocks (st.nblocks + 1)
          (st1.addBlock (cctx.loops + 1) cctx.rubyBlockId) cond.loc).incCounter)
        with ⟨st2, c2⟩
    have sub2 := walk_out body ((((cctx.withTarget
        ⟨Name.statTemp, st1.temporaryCounter + 1⟩).withLoopScope st.nblocks
        (st.nblocks + 1 + 1) false)).withBlockBreakTarget cctx.target)
      st1.nblocks ((conditionalJump c1
        ⟨Name.whileTemp, st.temporaryCounter + 1⟩ st1.nblocks (st.nblocks + 1)
        (st1.addBlock (cctx.loops + 1) cctx.rubyBlockId) cond.loc).incCounter)
      okJ.2 (by rw [hnbJ]; omega)
    rw [hw2] at sub2
    simp only [hw2]
    have ok2 : Ok current st st2 := Ok_sub okJ sub2
      (by simp only [deadBlockId]; omega)
    have hm2 : st1.nblocks + 1 ≤ st2.nblocks := by
      have h := sub2.1.1
      rw [hnbJ] at h
      exact h
    have hc2 : c2 < st2.nblocks := sub2.2.2.1
    have hcc2 : c2 = deadBlockId ∨ c2 = current ∨ st.nblocks ≤ c2 := by
      have h := sub2.2.2.2
      rw [hnbJ] at h
      simp only [deadBlockId] at h ⊢
      omega
    exact WalkOut_mk2
      (Ok_jump_uncond (Ok_push (Ok_jump_uncond ok2 c2 st.nblocks loc hc2 hcc2)
          (st.nblocks + 1) _ _ _ _
          (by rw [unconditionalJump_nblocks]; omega))
        (st.nblocks + 1) (st.nblocks + 1 + 1) loc
        (by rw [pushExpr_nblocks, unconditionalJump_nblocks]; omega)
        (by simp only [deadBlockId]; omega))
      (by rw [unconditionalJump_nblocks, pushExpr_nblocks,
            unconditionalJump_nblocks]
          omega)
      (by simp only [deadBlockId]; omega)
  | .Return loc expr, cctx, current, st => fun hwf hcur => by
    rw [walk_Return]
    simp only [newTemporary_pair]
    rcases hw : walk (cctx.withTarget ⟨Name.returnTemp, st.temporaryCounter + 1⟩)
        expr current st.incCounter with ⟨st1, c1⟩
    have sub1 := walk_out expr
      (cctx.withTarget ⟨Name.returnTemp, st.temporaryCounter + 1⟩) current
      st.incCounter (Wf_incCounter st hwf) hcur
    rw [hw] at sub1
    simp only [hw]
    have sub1' := WalkOut_pre rfl rfl hwf sub1
    have hc1 : c1 < st1.nblocks := sub1'.2.2.1
    exact WalkOut_mk2
      (Ok_jump_dead (Ok_push (WalkOut_Ok sub1') c1 _ _ _ _ hc1) c1 loc
        (by rw [pushExpr_nblocks]; exact hc1) sub1'.2.2.2)
      (by rw [jumpToDead_nblocks, pushExpr_nblocks]; simp only [deadBlockId]
          have h0 := sub1'.2.1.1; omega)
      (Or.inl rfl)
  | .If loc cond thenp elsep, cctx, current, st => fun hwf hcur => by
    rw [walk_If]
    simp only [freshBlock_pair, newTemporary_pair, addBlock_nblocks,
      incCounter_nblocks, incCounter_temporaryCounter]
    rcases hw1 : walk (cctx.withTarget ⟨Name.ifTemp, st.temporaryCounter + 1⟩)
        cond current st.incCounter with ⟨st1, c1⟩
    have sub1 := walk_out cond
      (cctx.withTarget ⟨Name.ifTemp, st.temporaryCounter + 1⟩) current
      st.incCounter (Wf_incCounter st hwf) hcur
    rw [hw1] at sub1
    simp only [hw1]
    have sub1' := WalkOut_pre rfl rfl hwf sub1
    have hc1 : c1 < st1.nblocks := sub1'.2.2.1
    set stJ := conditionalJump c1 ⟨Name.ifTemp, st.temporaryCounter + 1⟩
      st1.nblocks (st1.nblocks + 1)
      ((st1.addBlock cctx.loops cctx.rubyBlockId).addBlock cctx.loops
        cctx.rubyBlockId) cond.loc with hstJ
    have okJ : Ok current st stJ := by
      rw [hstJ]
      exact Ok_jump_cond (Ok_addBlock (Ok_addBlock (WalkOut_Ok sub1') _ _) _ _)
        c1 _ _ _ _ (by simp only [addBlock_nblocks]; omega) sub1'.2.2.2
    have hnbJ : stJ.nblocks = st1.nblocks + 1 + 1 := by
      rw [hstJ]; simp only [conditionalJump_nblocks, addBlock_nblocks]
    have hm1 : st.nblocks ≤ st1.nblocks := sub1'.1.1
    rcases hw2 : walk cctx thenp st1.nblocks stJ with ⟨st2, thenEnd⟩
    have sub2 := walk_out thenp cctx st1.nblocks stJ okJ.2 (by rw [hnbJ]; omega)
    rw [hw2] at sub2
    simp only [hw2]
    have ok2 : Ok current st st2 := Ok_sub okJ sub2 (Or.inr (Or.inr hm1))
    have hm2 : stJ.nblocks ≤ st2.nblocks := sub2.1.1
    have hTE : thenEnd < st2.nblocks := sub2.2.2.1
    have hcTE : thenEnd = deadBlockId ∨ thenEnd = current ∨
        st.nblocks ≤ thenEnd := by
      have h := sub2.2.2.2
      rw [hnbJ] at h
      simp only [deadBlockId] at h ⊢
      omega
    rcases hw3 : walk cctx elsep (st1.nblocks + 1) st2 with ⟨st3, elseEnd⟩
    have sub3 := walk_out elsep cctx (st1.nblocks + 1) st2 sub2.2.1
      (by rw [hnbJ] at hm2; omega)
    rw [hw3] at sub3
    simp only [hw3]
    have ok3 : Ok current st st3 := Ok_sub ok2 sub3
      (by simp only [deadBlockId]; omega)
    have hm3 : st2.nblocks ≤ st3.nblocks := sub3.1.1
    have hEE : elseEnd < st3.nblocks := sub3.2.2.1
    have hcEE : elseEnd = deadBlockId ∨ elseEnd = current ∨
        st.nblocks ≤ elseEnd := by
      have h := sub3.2.2.2
      simp only [deadBlockId] at h ⊢
      rw [hnbJ] at hm2
      omega
    split
    · split
      · exact WalkOut_mk2 ok3 hEE hcEE
      · exact WalkOut_mk2
          (Ok_jump_uncond (Ok_jump_uncond (Ok_addBlock ok3 _ _) thenEnd
            st3.nblocks loc (by simp only [addBlock_nblocks]; omega) hcTE)
            elseEnd st3.nblocks loc
            (by simp only [unconditionalJump_nblocks, addBlock_nblocks]; omega)
            hcEE)
          (by simp only [unconditionalJump_nblocks, addBlock_nblocks]; omega)
          (by simp only [deadBlockId]; rw [hnbJ] at hm2; omega)
    · exact WalkOut_mk2 ok3
        (by simp only [deadBlockId]; have h0 := ok3.2.1; omega) (Or.inl rfl)
  | .Literal loc value, cctx, current, st => fun hwf hcur => by
    rw [walk_Literal]
    exact WalkOut_mk2 (Ok_push (Ok_refl current st hwf) current _ _ _ _ hcur)
      (by rw [pushExpr_nblocks]; exact hcur) (Or.inr (Or.inl rfl))
  | .UnresolvedIdent loc kind name, cctx, current, st => fun hwf hcur => by
    rw [walk_UnresolvedIdent]
    have hbl := unresolvedIdent2Local_blocks cctx kind name loc st
    rcases hu : unresolvedIdent2Local cctx kind name loc st with ⟨stU, lv⟩
    rw [hu] at hbl
    simp only [hu]
    exact WalkOut_mk2
      (Ok_push (Ok_scalar (Ok_refl current st hwf) hbl.1 hbl.2) current _ _ _ _
        (by rw [hbl.2]; exact hcur))
      (by rw [pushExpr_nblocks, hbl.2]; exact hcur) (Or.inr (Or.inl rfl))
  | .Field loc symbol, cctx, current, st => fun hwf hcur => by
    rw [walk_Field]
    have hbl := global2Local_blocks cctx symbol st
    rcases hu : global2Local cctx symbol st with ⟨stU, lv⟩
    rw [hu] at hbl
    simp only [hu]
    exact WalkOut_mk2
      (Ok_push (Ok_scalar (Ok_refl current st hwf) hbl.1 hbl.2.1) current
        _ _ _ _ (by rw [hbl.2.1]; exact hcur))
      (by rw [pushExpr_nblocks, hbl.2.1]; exact hcur) (Or.inr (Or.inl rfl))
  | .ConstantLit loc symbol origScope, cctx, current, st => fun hwf hcur => by
    obtain ⟨hr, hc, hblocks, herr, hnb, hbex, suffix, hexprs, hsuf⟩ :=
      walk_ConstantLit_spec origScope loc symbol cctx current st
    refine ⟨⟨le_of_eq hnb.symm, ?_, ?_⟩, ⟨by rw [hnb]; exact hwf.1, ?_, ?_⟩,
      ?_, ?_⟩
    · intro i
      by_cases hi : i = current
      · subst hi
        exact ⟨_, hexprs⟩
      · rw [hblocks i hi]
        exact ⟨[], by simp⟩
    · intro i _
      by_cases hi : i = current
      · subst hi; exact hbex
      · rw [hblocks i hi]
    · by_cases hd : deadBlockId = current
      · rw [hd, hbex]
        exact hd ▸ hwf.2.1
      · rw [hblocks deadBlockId hd]
        exact hwf.2.1
    · intro i hi
      rw [hnb] at hi
      have hic : i ≠ current := by omega
      rw [hblocks i hic]
      exact hwf.2.2 i hi
    · rw [hr, hnb]; exact hcur
    · rw [hr]; exact Or.inr (Or.inl rfl)
  | .Local loc localVariable, cctx, current, st => fun hwf hcur => by
    rw [walk_Local]
    exact WalkOut_mk2 (Ok_push (Ok_refl current st hwf) current _ _ _ _ hcur)
      (by rw [pushExpr_nblocks]; exact hcur) (Or.inr (Or.inl rfl))
  | .Assign loc lhs rhs, cctx, current, st => fun hwf hcur => by
    rw [walk_Assign]
    have hbl := lhs2Local_blocks cctx lhs st
    rcases hl : lhs2Local cctx lhs st with ⟨stL, lhsLocal⟩
    rw [hl] at hbl
    simp only [hl]
    rcases hw : walk (cctx.withTarget lhsLocal) rhs current stL with ⟨st1, c1⟩
    have sub1 := walk_out rhs (cctx.withTarget lhsLocal) current stL
      (Wf_of_blocks_eq hbl.1 hbl.2 hwf) (by rw [hbl.2]; exact hcur)
    rw [hw] at sub1
    simp only [hw]
    have sub1' := WalkOut_pre hbl.1 hbl.2 hwf sub1
    exact WalkOut_mk2 (Ok_push (WalkOut_Ok sub1') c1 _ _ _ _ sub1'.2.2.1)
      (by rw [pushExpr_nblocks]; exact sub1'.2.2.1) sub1'.2.2.2
  | .InsSeq loc stats expr, cctx, current, st => fun hwf hcur => by
    rw [walk_InsSeq]
    rcases hs : walkStats cctx stats current st with ⟨st1, c1⟩
    have sub1 := walkStats_out stats cctx current st hwf hcur
    rw [hs] at sub1
    simp only [hs]
    exact WalkOut_chain sub1 (walk_out expr cctx c1 st1 sub1.2.1 sub1.2.2.1)
  | .Send loc recv fn args isPrivateOk blk, cctx, current, st =>
    fun hwf hcur => by
    rw [walk_Send_eq]
    split
    · -- the T.absurd intrinsic
      split
      · rename_i arg
        cases hsend : arg.isSend with
        | true =>
          exact WalkOut_mk2 (Ok_scalar (Ok_refl current st hwf) rfl rfl) hcur
            (Or.inr (Or.inl rfl))
        | false =>
          simp only [newTemporary_pair]
          rcases hw : walk (cctx.withTarget
              ⟨Name.statTemp, st.temporaryCounter + 1⟩) arg current
              st.incCounter with ⟨st1, c1⟩
          have sub1 := walk_out arg
            (cctx.withTarget ⟨Name.statTemp, st.temporaryCounter + 1⟩) current
            st.incCounter (Wf_incCounter st hwf) hcur
          rw [hw] at sub1
          simp only [hw]
          have sub1' := WalkOut_pre rfl rfl hwf sub1
          exact WalkOut_mk2 (Ok_push (WalkOut_Ok sub1') c1 _ _ _ _ sub1'.2.2.1)
            (by rw [pushExpr_nblocks]; exact sub1'.2.2.1) sub1'.2.2.2
      all_goals
        exact WalkOut_mk2 (Ok_scalar (Ok_refl current st hwf) rfl rfl) hcur
          (Or.inr (Or.inl rfl))
    · -- ordinary send
      simp only [newTemporary_pair]
      rcases hw1 : walk (cctx.withTarget ⟨Name.statTemp, st.temporaryCounter + 1⟩)
          recv current st.incCounter with ⟨st1, c1⟩
      have sub1 := walk_out recv
        (cctx.withTarget ⟨Name.statTemp, st.temporaryCounter + 1⟩) current
        st.incCounter (Wf_incCounter st hwf) hcur
      rw [hw1] at sub1
      simp only [hw1]
      have sub1' := WalkOut_pre rfl rfl hwf sub1
      have sub2 := walkArgs_out args cctx c1 st1 sub1'.2.1 sub1'.2.2.1
      rcases ha : walkArgs cctx args c1 st1 with ⟨st2, c2, argVars, argLocs⟩
      rw [ha] at sub2
      simp only [ha]
      have sub12 : WalkOut current st (st2, c2) := WalkOut_chain sub1' sub2
      cases blk with
      | some b =>
        exact WalkOut_chain sub12 (walkSendBlock_out b cctx loc fn recv.loc
          isPrivateOk ⟨Name.statTemp, st.temporaryCounter + 1⟩ argVars argLocs
          c2 st2 sub12.2.1 sub12.2.2.1)
      | none =>
        exact WalkOut_mk2 (Ok_push (WalkOut_Ok sub12) c2 _ _ _ _ sub12.2.2.1)
          (by rw [pushExpr_nblocks]; exact sub12.2.2.1) sub12.2.2.2
  | .Next loc expr, cctx, current, st => fun hwf hcur => by
    rw [walk_Next]
    simp only [newTemporary_pair, incCounter_temporaryCounter,
      pushExpr_temporaryCounter]
    rcases hw : walk (cctx.withTarget ⟨Name.nextTemp, st.temporaryCounter + 1⟩)
        expr current st.incCounter with ⟨st1, afterNext⟩
    have sub1 := walk_out expr
      (cctx.withTarget ⟨Name.nextTemp, st.temporaryCounter + 1⟩) current
      st.incCounter (Wf_incCounter st hwf) hcur
    rw [hw] at sub1
    simp only [hw]
    have sub1' := WalkOut_pre rfl rfl hwf sub1
    have han : afterNext < st1.nblocks := sub1'.2.2.1
    set stI := (if afterNext ≠ deadBlockId ∧ cctx.isInsideRubyBlock = true then
        st1.incCounter.pushExpr afterNext ⟨Name.nextTemp, st1.temporaryCounter + 1⟩
          loc (.BlockReturn cctx.link ⟨Name.nextTemp, st.temporaryCounter + 1⟩)
          false
      else st1) with hstI
    have okI : Ok current st stI := by
      rw [hstI]; split
      · exact Ok_push (Ok_incCounter (WalkOut_Ok sub1')) afterNext _ _ _ _ han
      · exact WalkOut_Ok sub1'
    have hnbI : stI.nblocks = st1.nblocks := by rw [hstI]; split <;> rfl
    cases hns : cctx.nextScope with
    | none =>
      exact WalkOut_mk2
        (Ok_jump_uncond
          (show Ok current st (stI.beginError loc ErrorCode.NoNextScope) from
            Ok_scalar okI rfl rfl) afterNext deadBlockId loc
          (by show afterNext < stI.nblocks; omega) sub1'.2.2.2)
        (by rw [unconditionalJump_nblocks, beginError_nblocks]
            simp only [deadBlockId]
            have h0 := sub1'.2.1.1; omega)
        (Or.inl rfl)
    | some ns =>
      exact WalkOut_mk2
        (Ok_jump_uncond okI afterNext ns loc
          (by show afterNext < stI.nblocks; omega) sub1'.2.2.2)
        (by rw [unconditionalJump_nblocks]
            simp only [deadBlockId]
            have h0 := sub1'.2.1.1; omega)
        (Or.inl rfl)
  | .Break loc expr, cctx, current, st => fun hwf hcur => by
    rw [walk_Break]
    simp only [newTemporary_pair, incCounter_temporaryCounter,
      pushExpr_temporaryCounter]
    rcases hw : walk (cctx.withTarget ⟨Name.returnTemp, st.temporaryCounter + 1⟩)
        expr current st.incCounter with ⟨st1, afterBreak⟩
    have sub1 := walk_out expr
      (cctx.withTarget ⟨Name.returnTemp, st.temporaryCounter + 1⟩) current
      st.incCounter (Wf_incCounter st hwf) hcur
    rw [hw] at sub1
    simp only [hw]
    have sub1' := WalkOut_pre rfl rfl hwf sub1
    have hab : afterBreak < st1.nblocks := sub1'.2.2.1
    have okP : Ok current st
        ((st1.incCounter.pushExpr afterBreak
            ⟨Name.blockBreakAssignName, st1.temporaryCounter + 1⟩ loc
            (.Ident ⟨Name.returnTemp, st.temporaryCounter + 1⟩) false).pushExpr
          afterBreak cctx.blockBreakTarget loc
          (.Ident ⟨Name.blockBreakAssignName, st1.temporaryCounter + 1⟩) false) :=
      Ok_push (Ok_push (Ok_incCounter (WalkOut_Ok sub1')) afterBreak _ _ _ _ hab)
        afterBreak _ _ _ _
        (by rw [pushExpr_nblocks, incCounter_nblocks]; exact hab)
    cases hbs : cctx.breakScope with
    | none =>
      exact WalkOut_mk2
        (Ok_jump_uncond
          (show Ok current st
              (((st1.incCounter.pushExpr afterBreak
                  ⟨Name.blockBreakAssignName, st1.temporaryCounter + 1⟩ loc
                  (.Ident ⟨Name.returnTemp, st.temporaryCounter + 1⟩)
                  false).pushExpr afterBreak cctx.blockBreakTarget loc
                (.Ident ⟨Name.blockBreakAssignName, st1.temporaryCounter + 1⟩)
                false).beginError loc ErrorCode.NoNextScope) from
            Ok_scalar okP rfl rfl) afterBreak deadBlockId loc
          (by show afterBreak <
              ((st1.incCounter.pushExpr afterBreak
                  ⟨Name.blockBreakAssignName, st1.temporaryCounter + 1⟩ loc
                  (.Ident ⟨Name.returnTemp, st.temporaryCounter + 1⟩)
                  false).pushExpr afterBreak cctx.blockBreakTarget loc
                (.Ident ⟨Name.blockBreakAssignName, st1.temporaryCounter + 1⟩)
                false).nblocks
              rw [pushExpr_nblocks, pushExpr_nblocks, incCounter_nblocks]
              exact hab)
          sub1'.2.2.2)
        (by rw [unconditionalJump_nblocks, beginError_nblocks,
              pushExpr_nblocks, pushExpr_nblocks, incCounter_nblocks]
            simp only [deadBlockId]
            have h0 := sub1'.2.1.1; omega)
        (Or.inl rfl)
    | some bs =>
      exact WalkOut_mk2
        (Ok_jump_uncond okP afterBreak bs loc
          (by rw [pushExpr_nblocks, pushExpr_nblocks, incCounter_nblocks]
              exact hab)
          sub1'.2.2.2)
        (by rw [unconditionalJump_nblocks, pushExpr_nblocks, pushExpr_nblocks,
              incCounter_nblocks]
            simp only [deadBlockId]
            have h0 := sub1'.2.1.1; omega)
        (Or.inl rfl)
  | .Retry loc, cctx, current, st => fun hwf hcur => by
    rw [walk_Retry]
    cases hrs : cctx.rescueScope with
    | none =>
      exact WalkOut_mk2
        (Ok_jump_uncond
          (show Ok current st (st.beginError loc ErrorCode.NoNextScope) from
            Ok_scalar (Ok_refl current st hwf) rfl rfl) current
          deadBlockId loc hcur (Or.inr (Or.inl rfl)))
        (by rw [unconditionalJump_nblocks, beginError_nblocks]
            simp only [deadBlockId]
            exact hwf.1)
        (Or.inl rfl)
    | some rs =>
      exact WalkOut_mk2
        (Ok_jump_uncond (Ok_refl current st hwf) current rs loc hcur
          (Or.inr (Or.inl rfl)))
        (by rw [unconditionalJump_nblocks]
            simp only [deadBlockId]
            exact hwf.1)
        (Or.inl rfl)
  | .Rescue loc body rescueCases elseExpr ensureExpr, cctx, current, st =>
    fun hwf hcur => by
    rw [walk_Rescue]
    simp only [freshBlock_pair, newTemporary_pair, synthesizeExpr,
      addBlock_nblocks, incCounter_nblocks, pushExpr_nblocks,
      unconditionalJump_nblocks, conditionalJump_nblocks,
      addBlock_temporaryCounter, incCounter_temporaryCounter,
      pushExpr_temporaryCounter, unconditionalJump_temporaryCounter,
      conditionalJump_temporaryCounter]
    set stB := unconditionalJump current st.nblocks
      (st.addBlock cctx.loops cctx.rubyBlockId) loc with hstB
    have okB : Ok current st stB := by
      rw [hstB]
      exact Ok_jump_uncond (Ok_addBlock (Ok_refl current st hwf) _ _) current
        st.nblocks loc (by simp only [addBlock_nblocks]; omega)
        (Or.inr (Or.inl rfl))
    have hnbB : stB.nblocks = st.nblocks + 1 := by
      rw [hstB, unconditionalJump_nblocks, addBlock_nblocks]
    set stE := conditionalJump st.nblocks
      ⟨Name.rescueStartTemp, st.temporaryCounter + 1⟩ (st.nblocks + 1)
      (st.nblocks + 1 + 1)
      (((stB.addBlock cctx.loops cctx.rubyBlockId).addBlock cctx.loops
        cctx.rubyBlockId).incCounter.pushExpr st.nblocks
        ⟨Name.rescueStartTemp, st.temporaryCounter + 1⟩ loc .Unanalyzable true)
      loc with hstE
    have okE : Ok current st stE := by
      rw [hstE]
      exact Ok_jump_cond (Ok_push (Ok_incCounter (Ok_addBlock (Ok_addBlock okB
          _ _) _ _)) st.nblocks _ _ _ _
        (by simp only [incCounter_nblocks, addBlock_nblocks, hnbB]; omega))
        st.nblocks _ _ _ _
        (by simp only [pushExpr_nblocks, incCounter_nblocks, addBlock_nblocks,
              hnbB]
            omega)
        (Or.inr (Or.inr (le_refl _)))
    have hnbE : stE.nblocks = st.nblocks + 1 + 1 + 1 := by
      rw [hstE]
      simp only [conditionalJump_nblocks, pushExpr_nblocks, incCounter_nblocks,
        addBlock_nblocks, hnbB]
    rcases hw1 : walk { cctx with rescueScope := some st.nblocks } body
        (st.nblocks + 1 + 1) stE with ⟨st1, bodyEnd⟩
    have sub1 := walk_out body { cctx with rescueScope := some st.nblocks }
      (st.nblocks + 1 + 1) stE okE.2 (by rw [hnbE]; omega)
    rw [hw1] at sub1
    simp only [hw1]
    have ok1 : Ok current st st1 := Ok_sub okE sub1
      (by simp only [deadBlockId]; omega)
    have hm1 : st.nblocks + 1 + 1 + 1 ≤ st1.nblocks := by
      have h := sub1.1.1
      rw [hnbE] at h
      exact h
    have hcBE : bodyEnd = deadBlockId ∨ bodyEnd = current ∨
        st.nblocks ≤ bodyEnd := by
      have h := sub1.2.2.2
      rw [hnbE] at h
      simp only [deadBlockId] at h ⊢
      omega
    set stF := unconditionalJump bodyEnd st1.nblocks
      (st1.addBlock cctx.loops cctx.rubyBlockId) loc with hstF
    have okF : Ok current st stF := by
      rw [hstF]
      exact Ok_jump_uncond (Ok_addBlock ok1 _ _) bodyEnd st1.nblocks loc
        (by simp only [addBlock_nblocks]
            have hb1 : bodyEnd < st1.nblocks := sub1.2.2.1
            omega)
        hcBE
    have hnbF : stF.nblocks = st1.nblocks + 1 := by
      rw [hstF, unconditionalJump_nblocks, addBlock_nblocks]
    rcases hw2 : walk { cctx with rescueScope := some st.nblocks } elseExpr
        st1.nblocks stF with ⟨st2, elseEnd⟩
    have sub2 := walk_out elseExpr { cctx with rescueScope := some st.nblocks }
      st1.nblocks stF okF.2 (by rw [hnbF]; omega)
    rw [hw2] at sub2
    simp only [hw2]
    have ok2 : Ok current st st2 := Ok_sub okF sub2
      (by simp only [deadBlockId]; omega)
    have hm2 : st1.nblocks + 1 ≤ st2.nblocks := by
      have h := sub2.1.1
      rw [hnbF] at h
      exact h
    have hcEE : elseEnd = deadBlockId ∨ elseEnd = current ∨
        st.nblocks ≤ elseEnd := by
      have h := sub2.2.2.2
      rw [hnbF] at h
      simp only [deadBlockId] at h ⊢
      omega
    set stG := conditionalJump (st2.nblocks + 1)
      ⟨Name.rescueEndTemp, st2.temporaryCounter + 1⟩ (st.nblocks + 1)
      st2.nblocks
      ((unconditionalJump elseEnd (st2.nblocks + 1)
        ((st2.addBlock cctx.loops cctx.rubyBlockId).addBlock cctx.loops
          cctx.rubyBlockId) loc).incCounter.pushExpr (st2.nblocks + 1)
        ⟨Name.rescueEndTemp, st2.temporaryCounter + 1⟩ loc .Unanalyzable true)
      loc with hstG
    have okG : Ok current st stG := by
      rw [hstG]
      exact Ok_jump_cond (Ok_push (Ok_incCounter (Ok_jump_uncond (Ok_addBlock
          (Ok_addBlock ok2 _ _) _ _) elseEnd (st2.nblocks + 1) loc
          (by simp only [addBlock_nblocks]
              have hb2 : elseEnd < st2.nblocks := sub2.2.2.1
              omega)
          hcEE)) (st2.nblocks + 1) _ _ _ _
        (by simp only [incCounter_nblocks, unconditionalJump_nblocks,
              addBlock_nblocks]
            omega))
        (st2.nblocks + 1) _ _ _ _
        (by simp only [pushExpr_nblocks, incCounter_nblocks,
              unconditionalJump_nblocks, addBlock_nblocks]
            omega)
        (by simp only [deadBlockId]; omega)
    have hnbG : stG.nblocks = st2.nblocks + 1 + 1 := by
      rw [hstG]
      simp only [conditionalJump_nblocks, pushExpr_nblocks, incCounter_nblocks,
        unconditionalJump_nblocks, addBlock_nblocks]
    rcases hw3 : walkRescueCases { cctx with rescueScope := some st.nblocks }
        loc rescueCases st2.nblocks (st.nblocks + 1) stG with ⟨st3, handlers⟩
    have sub3 := walkRescueCases_out rescueCases
      { cctx with rescueScope := some st.nblocks } loc st2.nblocks
      (st.nblocks + 1) stG okG.2 (by rw [hnbG]; omega)
    rw [hw3] at sub3
    simp only [hw3]
    have ok3 : Ok current st st3 := Ok_sub okG sub3
      (by simp only [deadBlockId]; omega)
    have hm3 : st2.nblocks + 1 + 1 ≤ st3.nblocks := by
      have h := sub3.1.1
      rw [hnbG] at h
      exact h
    have hH : handlers < st3.nblocks := sub3.2.2.1
    have hcH : handlers = deadBlockId ∨ handlers = current ∨
        st.nblocks ≤ handlers := by
      have h := sub3.2.2.2
      rw [hnbG] at h
      simp only [deadBlockId] at h ⊢
      omega
    set stH := unconditionalJump handlers st2.nblocks
      (st3.incCounter.pushExpr handlers
        ⟨Name.gotoDeadTemp, st3.temporaryCounter + 1⟩ loc
        (.Literal (TypePtr.boolLit true)) true) loc with hstH
    have okH : Ok current st stH := by
      rw [hstH]
      exact Ok_jump_uncond (Ok_push (Ok_incCounter ok3) handlers _ _ _ _
        (by simp only [incCounter_nblocks]; exact hH)) handlers st2.nblocks loc
        (by simp only [pushExpr_nblocks, incCounter_nblocks]; exact hH) hcH
    have hnbH : stH.nblocks = st3.nblocks := by
      rw [hstH]
      simp only [unconditionalJump_nblocks, pushExpr_nblocks, incCounter_nblocks]
    rcases hw4 : walk ({ cctx with rescueScope := some st.nblocks }.withTarget
        ⟨Name.throwAwayTemp, st3.temporaryCounter + 1 + 1⟩) ensureExpr
        st2.nblocks stH.incCounter with ⟨st4, ensureEnd⟩
    have sub4 := walk_out ensureExpr
      ({ cctx with rescueScope := some st.nblocks }.withTarget
        ⟨Name.throwAwayTemp, st3.temporaryCounter + 1 + 1⟩) st2.nblocks
      stH.incCounter (Ok_incCounter okH).2
      (by simp only [incCounter_nblocks, hnbH]; omega)
    rw [hw4] at sub4
    simp only [hw4]
    have ok4 : Ok current st st4 := Ok_sub (Ok_incCounter okH) sub4
      (by simp only [deadBlockId]; omega)
    have hm4 : st3.nblocks ≤ st4.nblocks := by
      have h := sub4.1.1
      simp only [incCounter_nblocks, hnbH] at h
      exact h
    have hcEn : ensureEnd = deadBlockId ∨ ensureEnd = current ∨
        st.nblocks ≤ ensureEnd := by
      have h := sub4.2.2.2
      simp only [incCounter_nblocks, hnbH] at h
      simp only [deadBlockId] at h ⊢
      omega
    exact WalkOut_mk2
      (Ok_jump_cond (Ok_addBlock ok4 _ _) ensureEnd _ _ _ _
        (by simp only [addBlock_nblocks]
            have hb4 : ensureEnd < st4.nblocks := sub4.2.2.1
            omega)
        hcEn)
      (by simp only [conditionalJump_nblocks, addBlock_nblocks]; omega)
      (by simp only [deadBlockId]; omega)
  | .Hash loc pairs, cctx, current, st => fun hwf hcur => by
    rw [walk_Hash]
    simp only [newTemporary_pair, synthesizeExpr, incCounter_temporaryCounter,
      pushExpr_temporaryCounter]
    rcases hp : walkHashPairs cctx pairs current st with ⟨st1, c1, vars, locs⟩
    have sub1 := walkHashPairs_out pairs cctx current st hwf hcur
    rw [hp] at sub1
    simp only [hp]
    have sub1' : WalkOut current st (st1, c1) := sub1
    exact WalkOut_mk2
      (Ok_push (Ok_push (Ok_incCounter (WalkOut_Ok sub1')) c1 _ _ _ _
          sub1'.2.2.1) c1 _ _ _ _
        (by rw [pushExpr_nblocks, incCounter_nblocks]; exact sub1'.2.2.1))
      (by rw [pushExpr_nblocks, pushExpr_nblocks, incCounter_nblocks]
          exact sub1'.2.2.1)
      sub1'.2.2.2
  | .Array loc elems, cctx, current, st => fun hwf hcur => by
    rw [walk_Array]
    simp only [newTemporary_pair, synthesizeExpr, incCounter_temporaryCounter,
      pushExpr_temporaryCounter]
    rcases hp : walkElems cctx loc elems current st with ⟨st1, c1, vars, locs⟩
    have sub1 := walkElems_out elems cctx loc current st hwf hcur
    rw [hp] at sub1
    simp only [hp]
    have sub1' : WalkOut current st (st1, c1) := sub1
    exact WalkOut_mk2
      (Ok_push (Ok_push (Ok_incCounter (WalkOut_Ok sub1')) c1 _ _ _ _
          sub1'.2.2.1) c1 _ _ _ _
        (by rw [pushExpr_nblocks, incCounter_nblocks]; exact sub1'.2.2.1))
      (by rw [pushExpr_nblocks, pushExpr_nblocks, incCounter_nblocks]
          exact sub1'.2.2.1)
      sub1'.2.2.2
  | .Cast loc arg type cast, cctx, current, st => fun hwf hcur => by
    rw [walk_Cast]
    simp only [newTemporary_pair]
    rcases hw : walk (cctx.withTarget ⟨Name.castTemp, st.temporaryCounter + 1⟩)
        arg current st.incCounter with ⟨st1, c1⟩
    have sub1 := walk_out arg
      (cctx.withTarget ⟨Name.castTemp, st.temporaryCounter + 1⟩) current
      st.incCounter (Wf_incCounter st hwf) hcur
    rw [hw] at sub1
    simp only [hw]
    have sub1' := WalkOut_pre rfl rfl hwf sub1
    have hc1 : c1 < st1.nblocks := sub1'.2.2.1
    refine WalkOut_mk2 ?_ ?_ sub1'.2.2.2
    · split
      · exact Ok_scalar (Ok_push (WalkOut_Ok sub1') c1 _ _ _ _ hc1) rfl rfl
      · exact Ok_push (WalkOut_Ok sub1') c1 _ _ _ _ hc1
    · split
      · exact hc1
      · exact hc1
  | .EmptyTree loc, cctx, current, st => fun hwf hcur => by
    rw [walk_EmptyTree]
    exact WalkOut_mk2 (Ok_refl current st hwf) hcur (Or.inr (Or.inl rfl))

theorem walkStats_out : ∀ (stats : ExpressionList) (cctx : CFGContext)
    (current : Nat) (st : St), Wf st → current < st.nblocks →
    WalkOut current st (walkStats cctx stats current st)
  | .nil, cctx, current, st => fun hwf hcur => by
    rw [walkStats_nil]
    exact WalkOut_mk2 (Ok_refl current st hwf) hcur (Or.inr (Or.inl rfl))
  | .cons e es, cctx, current, st => fun hwf hcur => by
    rw [walkStats_cons]
    simp only [newTemporary_pair]
    rcases hw : walk (cctx.withTarget ⟨Name.statTemp, st.temporaryCounter + 1⟩)
        e current st.incCounter with ⟨st1, c1⟩
    have sub1 := walk_out e
      (cctx.withTarget ⟨Name.statTemp, st.temporaryCounter + 1⟩) current
      st.incCounter (Wf_incCounter st hwf) hcur
    rw [hw] at sub1
    simp only [hw]
    have sub1' := WalkOut_pre rfl rfl hwf sub1
    exact WalkOut_chain sub1' (walkStats_out es cctx c1 st1 sub1'.2.1 sub1'.2.2.1)

theorem walkArgs_out : ∀ (args : ExpressionList) (cctx : CFGContext)
    (current : Nat) (st : St), Wf st → current < st.nblocks →
    WalkOut current st ((walkArgs cctx args current st).1,
      (walkArgs cctx args current st).2.1)
  | .nil, cctx, current, st => fun hwf hcur => by
    rw [walkArgs_nil]
    exact WalkOut_mk2 (Ok_refl current st hwf) hcur (Or.inr (Or.inl rfl))
  | .cons e es, cctx, current, st => fun hwf hcur => by
    rw [walkArgs_cons]
    simp only [newTemporary_pair]
    rcases hw : walk (cctx.withTarget ⟨Name.statTemp, st.temporaryCounter + 1⟩)
        e current st.incCounter with ⟨st1, c1⟩
    have sub1 := walk_out e
      (cctx.withTarget ⟨Name.statTemp, st.temporaryCounter + 1⟩) current
      st.incCounter (Wf_incCounter st hwf) hcur
    rw [hw] at sub1
    simp only [hw]
    have sub1' := WalkOut_pre rfl rfl hwf sub1
    have sub2 := walkArgs_out es cctx c1 st1 sub1'.2.1 sub1'.2.2.1
    rcases hr : walkArgs cctx es c1 st1 with ⟨st2, c2, vs, ls⟩
    rw [hr] at sub2
    simp only [hr]
    exact WalkOut_chain sub1' sub2

theorem walkElems_out : ∀ (elems : ExpressionList) (cctx : CFGContext)
    (aloc : Loc) (current : Nat) (st : St), Wf st → current < st.nblocks →
    WalkOut current st ((walkElems cctx aloc elems current st).1,
      (walkElems cctx aloc elems current st).2.1)
  | .nil, cctx, aloc, current, st => fun hwf hcur => by
    rw [walkElems_nil]
    exact WalkOut_mk2 (Ok_refl current st hwf) hcur (Or.inr (Or.inl rfl))
  | .cons e es, cctx, aloc, current, st => fun hwf hcur => by
    rw [walkElems_cons]
    simp only [newTemporary_pair]
    rcases hw : walk (cctx.withTarget ⟨Name.arrayTemp, st.temporaryCounter + 1⟩)
        e current st.incCounter with ⟨st1, c1⟩
    have sub1 := walk_out e
      (cctx.withTarget ⟨Name.arrayTemp, st.temporaryCounter + 1⟩) current
      st.incCounter (Wf_incCounter st hwf) hcur
    rw [hw] at sub1
    simp only [hw]
    have sub1' := WalkOut_pre rfl rfl hwf sub1
    have sub2 := walkElems_out es cctx aloc c1 st1 sub1'.2.1 sub1'.2.2.1
    rcases hr : walkElems cctx aloc es c1 st1 with ⟨st2, c2, vs, ls⟩
    rw [hr] at sub2
    simp only [hr]
    exact WalkOut_chain sub1' sub2

theorem walkHashPairs_out : ∀ (pairs : ExpressionPairList) (cctx : CFGContext)
    (current : Nat) (st : St), Wf st → current < st.nblocks →
    WalkOut current st ((walkHashPairs cctx pairs current st).1,
      (walkHashPairs cctx pairs current st).2.1)
  | .nil, cctx, current, st => fun hwf hcur => by
    rw [walkHashPairs_nil]
    exact WalkOut_mk2 (Ok_refl current st hwf) hcur (Or.inr (Or.inl rfl))
  | .cons k v rest, cctx, current, st => fun hwf hcur => by
    rw [walkHashPairs_cons]
    simp only [newTemporary_pair, incCounter_temporaryCounter]
    rcases hw1 : walk (cctx.withTarget ⟨Name.hashTemp, st.temporaryCounter + 1⟩)
        k current st.incCounter.incCounter with ⟨st1, c1⟩
    have sub1 := walk_out k
      (cctx.withTarget ⟨Name.hashTemp, st.temporaryCounter + 1⟩) current
      st.incCounter.incCounter (Wf_incCounter _ (Wf_incCounter st hwf)) hcur
    rw [hw1] at sub1
    simp only [hw1]
    have sub1' := WalkOut_pre rfl rfl hwf sub1
    rcases hw2 : walk (cctx.withTarget ⟨Name.hashTemp, st.temporaryCounter + 1 + 1⟩)
        v c1 st1 with ⟨st2, c2⟩
    have sub2 := walk_out v
      (cctx.withTarget ⟨Name.hashTemp, st.temporaryCounter + 1 + 1⟩) c1 st1
      sub1'.2.1 sub1'.2.2.1
    rw [hw2] at sub2
    simp only [hw2]
    have sub12 := WalkOut_chain sub1' sub2
    have sub3 := walkHashPairs_out rest cctx c2 st2 sub12.2.1 sub12.2.2.1
    rcases hr : walkHashPairs cctx rest c2 st2 with ⟨st3, c3, vs, ls⟩
    rw [hr] at sub3
    simp only [hr]
    exact WalkOut_chain sub12 sub3

theorem walkSendBlock_out : ∀ (blockNode : BlockNode) (cctx : CFGContext)
    (sloc : Loc) (fn : Name) (recvLoc : Loc) (isPrivateOk : Bool)
    (recv : LocalVariable) (args : List LocalVariable) (argLocs : List Loc)
    (current : Nat) (st : St), Wf st → current < st.nblocks →
    WalkOut current st (walkSendBlock cctx sloc fn recvLoc isPrivateOk
      blockNode recv args argLocs current st)
  | .mk blockLoc blockArgs blockBody, cctx, sloc, fn, recvLoc, isPrivateOk,
      recv, args, argLocs, current, st => fun hwf hcur => by
    rw [walkSendBlock_def]
    simp only [freshBlock_pair, newTemporary_pair, synthesizeExpr,
      addBlock_nblocks, incCounter_nblocks, pushExpr_nblocks,
      unconditionalJump_nblocks, conditionalJump_nblocks, bindBlockArgs_nblocks,
      addBlock_temporaryCounter, incCounter_temporaryCounter,
      pushExpr_temporaryCounter, unconditionalJump_temporaryCounter,
      conditionalJump_temporaryCounter, bindBlockArgs_temporaryCounter]
    set st2 := ({ st with maxRubyBlockId := st.maxRubyBlockId + 1 }.incCounter.pushExpr
        current ⟨Name.blockPreCallTemp, st.temporaryCounter + 1⟩ sloc
        (.Send recv fn recvLoc args argLocs isPrivateOk
          (some ⟨fn, parsedArgFlags blockArgs, st.maxRubyBlockId + 1⟩))
        false).incCounter.pushExpr current
        ⟨Name.selfRestore, st.temporaryCounter + 1 + 1⟩ Loc.noLoc
        (.Ident LocalVariable.selfVariable) true with hst2
    have ok2 : Ok current st st2 := by
      rw [hst2]
      exact Ok_push (Ok_incCounter (Ok_push (Ok_incCounter
        (show Ok current st { st with maxRubyBlockId := st.maxRubyBlockId + 1 }
          from Ok_scalar (Ok_refl current st hwf) rfl rfl)) current _ _ _ _
        hcur)) current _ _ _ _
        (by simp only [pushExpr_nblocks, incCounter_nblocks]; exact hcur)
    have hnb2 : st2.nblocks = st.nblocks := by
      rw [hst2]; simp only [pushExpr_nblocks, incCounter_nblocks]
    set st8 := (((((st2.addBlock (cctx.loops + 1)
        (st.maxRubyBlockId + 1)).addBlock cctx.loops cctx.rubyBlockId).addBlock
        cctx.loops cctx.rubyBlockId).addBlock (cctx.loops + 1)
        (st.maxRubyBlockId + 1)).incCounter.incCounter.pushExpr
        (st.nblocks + 1 + 1 + 1) LocalVariable.selfVariable sloc
        (.LoadSelf (some ⟨fn, parsedArgFlags blockArgs, st.maxRubyBlockId + 1⟩)
          LocalVariable.selfVariable) false).pushExpr (st.nblocks + 1 + 1 + 1)
        ⟨Name.blkArg, st.temporaryCounter + 1 + 1 + 1⟩ blockLoc
        (.LoadYieldParams (some ⟨fn, parsedArgFlags blockArgs,
          st.maxRubyBlockId + 1⟩)) false with hst8
    have hnb8 : st8.nblocks = st.nblocks + 1 + 1 + 1 + 1 := by
      rw [hst8]
      simp only [pushExpr_nblocks, incCounter_nblocks, addBlock_nblocks, hnb2]
    have ok8 : Ok current st st8 := by
      rw [hst8]
      refine Ok_push (Ok_push (Ok_incCounter (Ok_incCounter (Ok_addBlock
        (Ok_addBlock (Ok_addBlock (Ok_addBlock ok2 _ _) _ _) _ _) _ _)))
        (st.nblocks + 1 + 1 + 1) _ _ _ _ ?_) (st.nblocks + 1 + 1 + 1) _ _ _ _ ?_
      · simp only [incCounter_nblocks, addBlock_nblocks, hnb2]; omega
      · simp only [pushExpr_nblocks, incCounter_nblocks, addBlock_nblocks, hnb2]
        omega
    set st11 := unconditionalJump current st.nblocks (conditionalJump st.nblocks
        LocalVariable.blockCall (st.nblocks + 1 + 1 + 1) (st.nblocks + 1)
        (bindBlockArgs st8 (st.nblocks + 1 + 1 + 1)
          ⟨Name.blkArg, st.temporaryCounter + 1 + 1 + 1⟩
          ⟨Name.blkArg, st.temporaryCounter + 1 + 1 + 1 + 1⟩ blockLoc blockArgs
          0) sloc) sloc with hst11
    have ok11 : Ok current st st11 := by
      rw [hst11]
      exact Ok_jump_uncond (Ok_jump_cond (Ok_bindBlockArgs (st.nblocks + 1 + 1 + 1)
          ⟨Name.blkArg, st.temporaryCounter + 1 + 1 + 1⟩
          ⟨Name.blkArg, st.temporaryCounter + 1 + 1 + 1 + 1⟩ blockLoc blockArgs
          0 st8 ok8 (by rw [hnb8]; omega)) st.nblocks _ _ _ _
          (by rw [bindBlockArgs_nblocks, hnb8]; omega)
          (Or.inr (Or.inr (le_refl _))))
        current st.nblocks sloc
        (by rw [conditionalJump_nblocks, bindBlockArgs_nblocks, hnb8]; omega)
        (Or.inr (Or.inl rfl))
    have hnb11 : st11.nblocks = st.nblocks + 1 + 1 + 1 + 1 := by
      rw [hst11]
      simp only [unconditionalJump_nblocks, conditionalJump_nblocks,
        bindBlockArgs_nblocks, hnb8]
    rcases hw : walk (((((cctx.withTarget ⟨Name.blockReturnTemp,
        st.temporaryCounter + 1 + 1 + 1 + 1 + 1⟩).withBlockBreakTarget
        cctx.target).withLoopScope st.nblocks (st.nblocks + 1 + 1)
        true).withSendAndBlockLink ⟨fn, parsedArgFlags blockArgs,
        st.maxRubyBlockId + 1⟩).withRubyBlockId (st.maxRubyBlockId + 1))
        blockBody (st.nblocks + 1 + 1 + 1) st11.incCounter with ⟨stW, blockLast⟩
    have sub1 := walk_out blockBody (((((cctx.withTarget ⟨Name.blockReturnTemp,
        st.temporaryCounter + 1 + 1 + 1 + 1 + 1⟩).withBlockBreakTarget
        cctx.target).withLoopScope st.nblocks (st.nblocks + 1 + 1)
        true).withSendAndBlockLink ⟨fn, parsedArgFlags blockArgs,
        st.maxRubyBlockId + 1⟩).withRubyBlockId (st.maxRubyBlockId + 1))
      (st.nblocks + 1 + 1 + 1) st11.incCounter (Ok_incCounter ok11).2
      (by simp only [incCounter_nblocks, hnb11]; omega)
    rw [hw] at sub1
    simp only [hw]
    have okW : Ok current st stW := Ok_sub (Ok_incCounter ok11) sub1
      (by simp only [deadBlockId]; omega)
    have hmW : st.nblocks + 1 + 1 + 1 + 1 ≤ stW.nblocks := by
      have h := sub1.1.1
      simp only [incCounter_nblocks, hnb11] at h
      exact h
    have hBL : blockLast < stW.nblocks := sub1.2.2.1
    have hcBL : blockLast = deadBlockId ∨ blockLast = current ∨
        st.nblocks ≤ blockLast := by
      have h := sub1.2.2.2
      simp only [incCounter_nblocks, hnb11] at h
      simp only [deadBlockId] at h ⊢
      omega
    set stI := (if blockLast ≠ deadBlockId then stW.incCounter.pushExpr blockLast
        ⟨Name.blockReturnTemp, stW.temporaryCounter + 1⟩ blockLoc
        (.BlockReturn (some ⟨fn, parsedArgFlags blockArgs,
          st.maxRubyBlockId + 1⟩) ⟨Name.blockReturnTemp,
          st.temporaryCounter + 1 + 1 + 1 + 1 + 1⟩) true
      else stW) with hstI
    have okI : Ok current st stI := by
      rw [hstI]; split
      · exact Ok_push (Ok_incCounter okW) blockLast _ _ _ _
          (by rw [incCounter_nblocks]; exact hBL)
      · exact okW
    have hnbI : stI.nblocks = stW.nblocks := by rw [hstI]; split <;> rfl
    exact WalkOut_mk2
      (Ok_push (Ok_push (Ok_jump_uncond (Ok_jump_uncond okI blockLast st.nblocks
            sloc (by rw [hnbI]; exact hBL) hcBL) (st.nblocks + 1)
          (st.nblocks + 1 + 1) sloc
          (by rw [unconditionalJump_nblocks, hnbI]; omega)
          (by simp only [deadBlockId]; omega))
        (st.nblocks + 1) _ _ _ _
        (by rw [unconditionalJump_nblocks, unconditionalJump_nblocks, hnbI]
            omega))
        (st.nblocks + 1 + 1) _ _ _ _
        (by rw [pushExpr_nblocks, unconditionalJump_nblocks,
              unconditionalJump_nblocks, hnbI]
            omega))
      (by rw [pushExpr_nblocks, pushExpr_nblocks, unconditionalJump_nblocks,
            unconditionalJump_nblocks, hnbI]
          omega)
      (by simp only [deadBlockId]; omega)

theorem walkRescueCases_out : ∀ (cases : RescueCaseList) (cctx : CFGContext)
    (loc : Loc) (ensureBody handlers : Nat) (st : St), Wf st →
    handlers < st.nblocks →
    WalkOut handlers st (walkRescueCases cctx loc cases ensureBody handlers st)
  | .nil, cctx, loc, ensureBody, handlers, st => fun hwf hh => by
    rw [walkRescueCases_nil]
    exact WalkOut_mk2 (Ok_refl handlers st hwf) hh (Or.inr (Or.inl rfl))
  | .cons c cs, cctx, loc, ensureBody, handlers, st => fun hwf hh => by
    rw [walkRescueCases_cons]
    rcases hc : walkRescueCase cctx loc c ensureBody handlers st with ⟨st1, h1⟩
    have sub1 := walkRescueCase_out c cctx loc ensureBody handlers st hwf hh
    rw [hc] at sub1
    simp only [hc]
    exact WalkOut_chain sub1
      (walkRescueCases_out cs cctx loc ensureBody h1 st1 sub1.2.1 sub1.2.2.1)

theorem walkRescueCase_out : ∀ (c : RescueCase) (cctx : CFGContext)
    (loc : Loc) (ensureBody handlers : Nat) (st : St), Wf st →
    handlers < st.nblocks →
    WalkOut handlers st (walkRescueCase cctx loc c ensureBody handlers st)
  | .mk cloc exceptions varLocal varLoc body, cctx, loc, ensureBody, handlers,
      st => fun hwf hh => by
    rw [walkRescueCase_def]
    simp only [freshBlock_pair, newTemporary_pair, addBlock_nblocks,
      incCounter_nblocks, addBlock_temporaryCounter, incCounter_temporaryCounter,
      pushExpr_temporaryCounter, pushExpr_nblocks]
    set stP := (st.addBlock cctx.loops cctx.rubyBlockId).pushExpr handlers
      varLocal varLoc .Unanalyzable false with hstP
    have okP : Ok handlers st stP := by
      rw [hstP]
      exact Ok_push (Ok_addBlock (Ok_refl handlers st hwf) _ _) handlers _ _ _ _
        (by rw [addBlock_nblocks]; omega)
    have hnbP : stP.nblocks = st.nblocks + 1 := by
      rw [hstP, pushExpr_nblocks, addBlock_nblocks]
    split
    · -- no listed exception classes: the synthetic StandardError constant
      rcases hs : exceptionStep cctx varLocal varLoc
          ⟨Name.exceptionClassTemp, st.temporaryCounter + 1⟩ st.nblocks handlers
          (stP.incCounter.pushExpr handlers
            ⟨Name.exceptionClassTemp, st.temporaryCounter + 1⟩ varLoc
            (.Alias SymbolRef.StandardError) false) with ⟨st2, h2⟩
      have okQ : Ok handlers st (stP.incCounter.pushExpr handlers
          ⟨Name.exceptionClassTemp, st.temporaryCounter + 1⟩ varLoc
          (.Alias SymbolRef.StandardError) false) :=
        Ok_push (Ok_incCounter okP) handlers _ _ _ _
          (by rw [incCounter_nblocks, hnbP]; omega)
      have hnbQ : (stP.incCounter.pushExpr handlers
          ⟨Name.exceptionClassTemp, st.temporaryCounter + 1⟩ varLoc
          (.Alias SymbolRef.StandardError) false).nblocks = st.nblocks + 1 := by
        rw [pushExpr_nblocks, incCounter_nblocks, hnbP]
      have sub2 := exceptionStep_out cctx varLocal varLoc
        ⟨Name.exceptionClassTemp, st.temporaryCounter + 1⟩ st.nblocks handlers
        _ okQ.2 (by rw [hnbQ]; omega)
      rw [hs] at sub2
      simp only [hs]
      have ok2 : Ok handlers st st2 := Ok_sub okQ sub2 (Or.inr (Or.inl rfl))
      have hm2 : st.nblocks + 1 ≤ st2.nblocks := by
        have := sub2.1.1
        rw [hnbQ] at this
        exact this
      have hch2 : h2 = deadBlockId ∨ h2 = handlers ∨ st.nblocks ≤ h2 := by
        have h := sub2.2.2.2
        rw [hnbQ] at h
        simp only [deadBlockId] at h ⊢
        omega
      rcases hwb : walk cctx body st.nblocks st2 with ⟨st3, cbe⟩
      have sub3 := walk_out body cctx st.nblocks st2 sub2.2.1 (by omega)
      rw [hwb] at sub3
      simp only [hwb]
      have ok3 : Ok handlers st st3 := Ok_sub ok2 sub3
        (Or.inr (Or.inr (le_refl _)))
      have hm3 : st2.nblocks ≤ st3.nblocks := sub3.1.1
      have hccbe : cbe = deadBlockId ∨ cbe = handlers ∨ st.nblocks ≤ cbe := by
        have h := sub3.2.2.2
        simp only [deadBlockId] at h ⊢
        omega
      exact WalkOut_mk2
        (Ok_jump_uncond ok3 cbe ensureBody loc sub3.2.2.1 hccbe)
        (by rw [unconditionalJump_nblocks]
            have hb2 : h2 < st2.nblocks := sub2.2.2.1
            omega)
        hch2
    · -- walk each listed exception class
      rcases hs : walkExceptions cctx varLocal exceptions st.nblocks handlers
          stP with ⟨st2, h2⟩
      have sub2 := walkExceptions_out exceptions cctx varLocal st.nblocks
        handlers stP okP.2 (by rw [hnbP]; omega)
      rw [hs] at sub2
      simp only [hs]
      have ok2 : Ok handlers st st2 := Ok_sub okP sub2 (Or.inr (Or.inl rfl))
      have hm2 : st.nblocks + 1 ≤ st2.nblocks := by
        have := sub2.1.1
        rw [hnbP] at this
        exact this
      have hch2 : h2 = deadBlockId ∨ h2 = handlers ∨ st.nblocks ≤ h2 := by
        have h := sub2.2.2.2
        rw [hnbP] at h
        simp only [deadBlockId] at h ⊢
        omega
      rcases hwb : walk cctx body st.nblocks st2 with ⟨st3, cbe⟩
      have sub3 := walk_out body cctx st.nblocks st2 sub2.2.1 (by omega)
      rw [hwb] at sub3
      simp only [hwb]
      have ok3 : Ok handlers st st3 := Ok_sub ok2 sub3
        (Or.inr (Or.inr (le_refl _)))
      have hm3 : st2.nblocks ≤ st3.nblocks := sub3.1.1
      have hccbe : cbe = deadBlockId ∨ cbe = handlers ∨ st.nblocks ≤ cbe := by
        have h := sub3.2.2.2
        simp only [deadBlockId] at h ⊢
        omega
      exact WalkOut_mk2
        (Ok_jump_uncond ok3 cbe ensureBody loc sub3.2.2.1 hccbe)
        (by rw [unconditionalJump_nblocks]
            have hb2 : h2 < st2.nblocks := sub2.2.2.1
            omega)
        hch2

theorem walkExceptions_out : ∀ (exs : ExpressionList) (cctx : CFGContext)
    (localVar : LocalVariable) (caseBody handlers : Nat) (st : St), Wf st →
    handlers < st.nblocks →
    WalkOut handlers st (walkExceptions cctx localVar exs caseBody handlers st)
  | .nil, cctx, localVar, caseBody, handlers, st => fun hwf hh => by
    rw [walkExceptions_nil]
    exact WalkOut_mk2 (Ok_refl handlers st hwf) hh (Or.inr (Or.inl rfl))
  | .cons ex rest, cctx, localVar, caseBody, handlers, st => fun hwf hh => by
    rw [walkExceptions_cons]
    simp only [newTemporary_pair]
    rcases hw : walk (cctx.withTarget
        ⟨Name.exceptionClassTemp, st.temporaryCounter + 1⟩) ex handlers
        st.incCounter with ⟨st1, h1⟩
    have sub1 := walk_out ex
      (cctx.withTarget ⟨Name.exceptionClassTemp, st.temporaryCounter + 1⟩)
      handlers st.incCounter (Wf_incCounter st hwf) hh
    rw [hw] at sub1
    simp only [hw]
    have sub1' := WalkOut_pre rfl rfl hwf sub1
    rcases hs : exceptionStep cctx localVar ex.loc
        ⟨Name.exceptionClassTemp, st.temporaryCounter + 1⟩ caseBody h1 st1
        with ⟨st2, h2⟩
    have sub2 := exceptionStep_out cctx localVar ex.loc
      ⟨Name.exceptionClassTemp, st.temporaryCounter + 1⟩ caseBody h1 st1
      sub1'.2.1 sub1'.2.2.1
    rw [hs] at sub2
    simp only [hs]
    have sub12 := WalkOut_chain sub1' sub2
    exact WalkOut_chain sub12
      (walkExceptions_out rest cctx localVar caseBody h2 st2 sub12.2.1
        sub12.2.2.1)
end

/-! ### C6: the Send-with-block lowering -/

theorem TrE_any {P : Nat → Prop} {st st2 : St} (h : TrE P st st2) :
    TrE (fun _ => True) st st2 := TrE_weaken h (fun _ _ => trivial)

theorem TrE_true_trans {st1 st2 st3 : St}
    (h1 : TrE (fun _ => True) st1 st2) (h2 : TrE (fun _ => True) st2 st3) :
    TrE (fun _ => True) st1 st3 :=
  TrE_weaken (TrE_trans h1 h2) (fun _ _ => trivial)

/-- C6: for every Send carrying an iterator block, with a live input block:
the body block's first two instructions are `self := LoadSelf(link, self)`
and `argTemp := LoadYieldParams(link)`; the header block conditional-jumps on
the reserved `blockCall` local to the body block versus the solve-constraint
block; the input block unconditional-jumps to the header; and the walk
returns the post block, which received the synthetic
`self := Ident restoreSelf`. -/
theorem C6_send_block (cctx : CFGContext) (sloc : Loc) (fn : Name)
    (recvLoc : Loc) (isPrivateOk : Bool) (blockLoc : Loc)
    (blockArgs : List ParsedArg) (blockBody : Expression)
    (recv : LocalVariable) (args : List LocalVariable) (argLocs : List Loc)
    (current : Nat) (st : St) (hwf : Wf st) (hcur : current < st.nblocks)
    (hlive : current ≠ deadBlockId) :
    ∃ st2,
      walkSendBlock cctx sloc fn recvLoc isPrivateOk
        (.mk blockLoc blockArgs blockBody) recv args argLocs current st =
        (st2, st.nblocks + 1 + 1) ∧
      (∃ rest, (st2.blocks (st.nblocks + 1 + 1 + 1)).exprs =
        ⟨LocalVariable.selfVariable, sloc,
          .LoadSelf (some ⟨fn, parsedArgFlags blockArgs, st.maxRubyBlockId + 1⟩)
            LocalVariable.selfVariable, false⟩ ::
        ⟨⟨Name.blkArg, st.temporaryCounter + 1 + 1 + 1⟩, blockLoc,
          .LoadYieldParams
            (some ⟨fn, parsedArgFlags blockArgs, st.maxRubyBlockId + 1⟩),
          false⟩ :: rest) ∧
      (st2.blocks st.nblocks).bexit =
        ⟨true, LocalVariable.blockCall, some (st.nblocks + 1 + 1 + 1),
          some (st.nblocks + 1), sloc⟩ ∧
      (st2.blocks current).bexit =
        ⟨true, LocalVariable.noVariable, some st.nblocks, some st.nblocks,
          sloc⟩ ∧
      (⟨LocalVariable.selfVariable, sloc,
        .Ident ⟨Name.selfRestore, st.temporaryCounter + 1 + 1⟩, true⟩ :
          Binding) ∈ (st2.blocks (st.nblocks + 1 + 1)).exprs := by
  rw [walkSendBlock_def]
  simp only [freshBlock_pair, newTemporary_pair, synthesizeExpr,
    addBlock_nblocks, incCounter_nblocks, pushExpr_nblocks,
    unconditionalJump_nblocks, conditionalJump_nblocks, bindBlockArgs_nblocks,
    addBlock_temporaryCounter, incCounter_temporaryCounter,
    pushExpr_temporaryCounter, unconditionalJump_temporaryCounter,
    conditionalJump_temporaryCounter, bindBlockArgs_temporaryCounter]
  set st2 := ({ st with maxRubyBlockId := st.maxRubyBlockId + 1 }.incCounter.pushExpr
      current ⟨Name.blockPreCallTemp, st.temporaryCounter + 1⟩ sloc
      (.Send recv fn recvLoc args argLocs isPrivateOk
        (some ⟨fn, parsedArgFlags blockArgs, st.maxRubyBlockId + 1⟩))
      false).incCounter.pushExpr current
      ⟨Name.selfRestore, st.temporaryCounter + 1 + 1⟩ Loc.noLoc
      (.Ident LocalVariable.selfVariable) true with hst2
  have ok2 : Ok current st st2 := by
    rw [hst2]
    exact Ok_push (Ok_incCounter (Ok_push (Ok_incCounter
      (show Ok current st { st with maxRubyBlockId := st.maxRubyBlockId + 1 }
        from Ok_scalar (Ok_refl current st hwf) rfl rfl)) current _ _ _ _
      hcur)) current _ _ _ _
      (by simp only [pushExpr_nblocks, incCounter_nblocks]; exact hcur)
  have hnb2 : st2.nblocks = st.nblocks := by
    rw [hst2]; simp only [pushExpr_nblocks, incCounter_nblocks]
  set st8 := (((((st2.addBlock (cctx.loops + 1)
      (st.maxRubyBlockId + 1)).addBlock cctx.loops cctx.rubyBlockId).addBlock
      cctx.loops cctx.rubyBlockId).addBlock (cctx.loops + 1)
      (st.maxRubyBlockId + 1)).incCounter.incCounter.pushExpr
      (st.nblocks + 1 + 1 + 1) LocalVariable.selfVariable sloc
      (.LoadSelf (some ⟨fn, parsedArgFlags blockArgs, st.maxRubyBlockId + 1⟩)
        LocalVariable.selfVariable) false).pushExpr (st.nblocks + 1 + 1 + 1)
      ⟨Name.blkArg, st.temporaryCounter + 1 + 1 + 1⟩ blockLoc
      (.LoadYieldParams (some ⟨fn, parsedArgFlags blockArgs,
        st.maxRubyBlockId + 1⟩)) false with hst8
  have hnb8 : st8.nblocks = st.nblocks + 1 + 1 + 1 + 1 := by
    rw [hst8]
    simp only [pushExpr_nblocks, incCounter_nblocks, addBlock_nblocks, hnb2]
  have ok8 : Ok current st st8 := by
    rw [hst8]
    refine Ok_push (Ok_push (Ok_incCounter (Ok_incCounter (Ok_addBlock
      (Ok_addBlock (Ok_addBlock (Ok_addBlock ok2 _ _) _ _) _ _) _ _)))
      (st.nblocks + 1 + 1 + 1) _ _ _ _ ?_) (st.nblocks + 1 + 1 + 1) _ _ _ _ ?_
    · simp only [incCounter_nblocks, addBlock_nblocks, hnb2]; omega
    · simp only [pushExpr_nblocks, incCounter_nblocks, addBlock_nblocks, hnb2]
      omega
  have hbody8 : (st8.blocks (st.nblocks + 1 + 1 + 1)).exprs =
      [⟨LocalVariable.selfVariable, sloc,
        .LoadSelf (some ⟨fn, parsedArgFlags blockArgs, st.maxRubyBlockId + 1⟩)
          LocalVariable.selfVariable, false⟩,
       ⟨⟨Name.blkArg, st.temporaryCounter + 1 + 1 + 1⟩, blockLoc,
        .LoadYieldParams
          (some ⟨fn, parsedArgFlags blockArgs, st.maxRubyBlockId + 1⟩),
        false⟩] := by
    rw [hst8]
    rw [pushExpr_exprs, if_pos rfl, pushExpr_exprs, if_pos rfl,
      incCounter_blocks, incCounter_blocks, addBlock_blocks,
      if_pos (by simp only [addBlock_nblocks, hnb2])]
    rfl
  set st11 := unconditionalJump current st.nblocks (conditionalJump st.nblocks
      LocalVariable.blockCall (st.nblocks + 1 + 1 + 1) (st.nblocks + 1)
      (bindBlockArgs st8 (st.nblocks + 1 + 1 + 1)
        ⟨Name.blkArg, st.temporaryCounter + 1 + 1 + 1⟩
        ⟨Name.blkArg, st.temporaryCounter + 1 + 1 + 1 + 1⟩ blockLoc blockArgs
        0) sloc) sloc with hst11
  have ok11 : Ok current st st11 := by
    rw [hst11]
    exact Ok_jump_uncond (Ok_jump_cond (Ok_bindBlockArgs (st.nblocks + 1 + 1 + 1)
        ⟨Name.blkArg, st.temporaryCounter + 1 + 1 + 1⟩
        ⟨Name.blkArg, st.temporaryCounter + 1 + 1 + 1 + 1⟩ blockLoc blockArgs
        0 st8 ok8 (by rw [hnb8]; omega)) st.nblocks _ _ _ _
        (by rw [bindBlockArgs_nblocks, hnb8]; omega)
        (Or.inr (Or.inr (le_refl _))))
      current st.nblocks sloc
      (by rw [conditionalJump_nblocks, bindBlockArgs_nblocks, hnb8]; omega)
      (Or.inr (Or.inl rfl))
  have hnb11 : st11.nblocks = st.nblocks + 1 + 1 + 1 + 1 := by
    rw [hst11]
    simp only [unconditionalJump_nblocks, conditionalJump_nblocks,
      bindBlockArgs_nblocks, hnb8]
  rcases hw : walk (((((cctx.withTarget ⟨Name.blockReturnTemp,
      st.temporaryCounter + 1 + 1 + 1 + 1 + 1⟩).withBlockBreakTarget
      cctx.target).withLoopScope st.nblocks (st.nblocks + 1 + 1)
      true).withSendAndBlockLink ⟨fn, parsedArgFlags blockArgs,
      st.maxRubyBlockId + 1⟩).withRubyBlockId (st.maxRubyBlockId + 1))
      blockBody (st.nblocks + 1 + 1 + 1) st11.incCounter with ⟨stW, blockLast⟩
  have sub1 := walk_out blockBody (((((cctx.withTarget ⟨Name.blockReturnTemp,
      st.temporaryCounter + 1 + 1 + 1 + 1 + 1⟩).withBlockBreakTarget
      cctx.target).withLoopScope st.nblocks (st.nblocks + 1 + 1)
      true).withSendAndBlockLink ⟨fn, parsedArgFlags blockArgs,
      st.maxRubyBlockId + 1⟩).withRubyBlockId (st.maxRubyBlockId + 1))
    (st.nblocks + 1 + 1 + 1) st11.incCounter (Ok_incCounter ok11).2
    (by simp only [incCounter_nblocks, hnb11]; omega)
  rw [hw] at sub1
  simp only [hw]
  set stI := (if blockLast ≠ deadBlockId then stW.incCounter.pushExpr blockLast
      ⟨Name.blockReturnTemp, stW.temporaryCounter + 1⟩ blockLoc
      (.BlockReturn (some ⟨fn, parsedArgFlags blockArgs,
        st.maxRubyBlockId + 1⟩) ⟨Name.blockReturnTemp,
        st.temporaryCounter + 1 + 1 + 1 + 1 + 1⟩) true
    else stW) with hstI
  set stFin := ((unconditionalJump (st.nblocks + 1) (st.nblocks + 1 + 1)
      (unconditionalJump blockLast st.nblocks stI sloc) sloc).pushExpr
      (st.nblocks + 1) cctx.target sloc
      (.SolveConstraint (some ⟨fn, parsedArgFlags blockArgs,
        st.maxRubyBlockId + 1⟩) ⟨Name.blockPreCallTemp,
        st.temporaryCounter + 1⟩) false).pushExpr (st.nblocks + 1 + 1)
      LocalVariable.selfVariable sloc
      (.Ident ⟨Name.selfRestore, st.temporaryCounter + 1 + 1⟩) true with hstFin
  have hclassW : blockLast = deadBlockId ∨
      blockLast = st.nblocks + 1 + 1 + 1 ∨
      st.nblocks + 1 + 1 + 1 + 1 ≤ blockLast := by
    have h := sub1.2.2.2
    simp only [incCounter_nblocks, hnb11] at h
    exact h
  have hIbex : ∀ j, (stI.blocks j).bexit = (stW.blocks j).bexit := by
    intro j
    rw [hstI]
    split
    · rw [pushExpr_bexit]
      rfl
    · rfl
  have hWbex : ∀ j, j ≠ st.nblocks + 1 + 1 + 1 →
      j < st.nblocks + 1 + 1 + 1 + 1 →
      (stW.blocks j).bexit = (st11.blocks j).bexit := by
    intro j hj hjlt
    have h := WalkOut_bexit_pres sub1 j hj
      (by simp only [incCounter_nblocks, hnb11]; omega)
    rw [h]
    rw [incCounter_blocks]
  refine ⟨stFin, rfl, ?_, ?_, ?_, ?_⟩
  · -- the body block opens with LoadSelf; LoadYieldParams
    have hT2 : TrE (fun _ => True) st8 st11.incCounter := by
      rw [hst11]
      exact TrE_true_trans
        (TrE_any (Ok_bindBlockArgs (st.nblocks + 1 + 1 + 1)
          ⟨Name.blkArg, st.temporaryCounter + 1 + 1 + 1⟩
          ⟨Name.blkArg, st.temporaryCounter + 1 + 1 + 1 + 1⟩ blockLoc blockArgs
          0 st8 (Ok_refl (st.nblocks + 1 + 1 + 1) st8 ok8.2)
          (by rw [hnb8]; omega)).1)
        (TrE_true_trans (TrE_any (TrE_conditionalJump _ _ _ _ _ _))
          (TrE_true_trans (TrE_any (TrE_unconditionalJump _ _ _ _))
            (TrE_of_blocks_eq rfl rfl (fun _ => True))))
    have hT3 : TrE (fun _ => True) st8 stW := TrE_true_trans hT2 (TrE_any sub1.1)
    have hT4 : TrE (fun _ => True) st8 stI := by
      refine TrE_true_trans hT3 ?_
      rw [hstI]
      split
      · exact TrE_true_trans (TrE_of_blocks_eq rfl rfl (fun _ => True))
          (TrE_pushExpr _ _ _ _ _ _ (fun _ => True))
      · exact TrE_refl _ _
    have hT5 : TrE (fun _ => True) st8 stFin := by
      rw [hstFin]
      exact TrE_true_trans hT4 (TrE_true_trans
        (TrE_any (TrE_unconditionalJump _ _ _ _))
        (TrE_true_trans (TrE_any (TrE_unconditionalJump _ _ _ _))
          (TrE_true_trans (TrE_pushExpr _ _ _ _ _ _ (fun _ => True))
            (TrE_pushExpr _ _ _ _ _ _ (fun _ => True)))))
    obtain ⟨sfx, hsfx⟩ := hT5.2.1 (st.nblocks + 1 + 1 + 1)
    rw [hbody8] at hsfx
    exact ⟨sfx, hsfx⟩
  · -- the header terminator
    rw [hstFin]
    rw [pushExpr_bexit, pushExpr_bexit, unconditionalJump_bexit,
      if_neg (by intro hcontra; exact absurd hcontra.2 (by omega)),
      unconditionalJump_bexit,
      if_neg (by
        intro hcontra
        simp only [deadBlockId] at hcontra hclassW
        omega),
      hIbex,
      hWbex st.nblocks (by omega) (by omega),
      hst11, unconditionalJump_bexit,
      if_neg (by intro hcontra; exact absurd hcontra.2 (by omega)),
      conditionalJump_bexit,
      if_pos ⟨by simp only [deadBlockId]; omega, rfl⟩]
  · -- the input block unconditional-jumps to the header
    rw [hstFin]
    rw [pushExpr_bexit, pushExpr_bexit, unconditionalJump_bexit,
      if_neg (by intro hcontra; exact absurd hcontra.2 (by omega)),
      unconditionalJump_bexit,
      if_neg (by
        intro hcontra
        simp only [deadBlockId] at hcontra hclassW
        omega),
      hIbex,
      hWbex current (by omega) (by omega),
      hst11, unconditionalJump_bexit, if_pos ⟨hlive, rfl⟩]
  · -- the synthetic self-restore landed in the post block
    rw [hstFin]
    rw [pushExpr_exprs, if_pos rfl]
    simp

/-! ### C7: the tail of the Rescue lowering -/

/-- C7: after the rescue cases, `walkRescueTail` pushes the synthetic
`gotoDeadTemp := true` into the final handlers block and unconditional-jumps
it to the ensure body; the ensure expression is walked into the ensure body
with a fresh throwaway target; a fresh `ret` block is allocated, the ensure
continuation conditional-jumps on `gotoDeadTemp` to the dead block versus
`ret`, and `ret` is returned. -/
theorem C7_rescue_tail (cctx : CFGContext) (ensureExpr : Expression)
    (handlers ensureBody : Nat) (loc : Loc) (st : St) (hwf : Wf st)
    (hh : handlers < st.nblocks) (heb : ensureBody < st.nblocks)
    (hhd : handlers ≠ deadBlockId) (hne : ensureBody ≠ handlers) :
    ∃ st1 ensureEnd,
      walk (cctx.withTarget ⟨Name.throwAwayTemp, st.temporaryCounter + 1 + 1⟩)
        ensureExpr ensureBody
        ((unconditionalJump handlers ensureBody
          (st.incCounter.pushExpr handlers
            ⟨Name.gotoDeadTemp, st.temporaryCounter + 1⟩ loc
            (.Literal (TypePtr.boolLit true)) true) loc).incCounter) =
        (st1, ensureEnd) ∧
      walkRescueTail cctx ensureExpr handlers ensureBody loc st =
        (conditionalJump ensureEnd ⟨Name.gotoDeadTemp, st.temporaryCounter + 1⟩
          deadBlockId st1.nblocks (st1.addBlock cctx.loops cctx.rubyBlockId)
          loc, st1.nblocks) ∧
      st.nblocks ≤ st1.nblocks ∧
      (⟨⟨Name.gotoDeadTemp, st.temporaryCounter + 1⟩, loc,
        .Literal (TypePtr.boolLit true), true⟩ : Binding) ∈
        (((walkRescueTail cctx ensureExpr handlers ensureBody loc
          st).1).blocks handlers).exprs ∧
      (((walkRescueTail cctx ensureExpr handlers ensureBody loc st).1).blocks
          handlers).bexit =
        ⟨true, LocalVariable.noVariable, some ensureBody, some ensureBody,
          loc⟩ ∧
      (ensureEnd ≠ deadBlockId →
        (((walkRescueTail cctx ensureExpr handlers ensureBody loc
            st).1).blocks ensureEnd).bexit =
          ⟨true, ⟨Name.gotoDeadTemp, st.temporaryCounter + 1⟩,
            some deadBlockId, some st1.nblocks, loc⟩) := by
  rcases hw : walk (cctx.withTarget
      ⟨Name.throwAwayTemp, st.temporaryCounter + 1 + 1⟩) ensureExpr ensureBody
      ((unconditionalJump handlers ensureBody
        (st.incCounter.pushExpr handlers
          ⟨Name.gotoDeadTemp, st.temporaryCounter + 1⟩ loc
          (.Literal (TypePtr.boolLit true)) true) loc).incCounter)
      with ⟨st1, ensureEnd⟩
  have hRT : walkRescueTail cctx ensureExpr handlers ensureBody loc st =
      (conditionalJump ensureEnd ⟨Name.gotoDeadTemp, st.temporaryCounter + 1⟩
        deadBlockId st1.nblocks (st1.addBlock cctx.loops cctx.rubyBlockId)
        loc, st1.nblocks) := by
    simp only [walkRescueTail, newTemporary_pair, synthesizeExpr,
      freshBlock_pair, incCounter_temporaryCounter, pushExpr_temporaryCounter,
      unconditionalJump_temporaryCounter, hw]
  have okH : Ok handlers st (unconditionalJump handlers ensureBody
      (st.incCounter.pushExpr handlers
        ⟨Name.gotoDeadTemp, st.temporaryCounter + 1⟩ loc
        (.Literal (TypePtr.boolLit true)) true) loc) :=
    Ok_jump_uncond (Ok_push (Ok_incCounter (Ok_refl handlers st hwf)) handlers
      _ _ _ _ (by rw [incCounter_nblocks]; exact hh)) handlers ensureBody loc
      (by rw [pushExpr_nblocks, incCounter_nblocks]; exact hh)
      (Or.inr (Or.inl rfl))
  have sub := walk_out ensureExpr
    (cctx.withTarget ⟨Name.throwAwayTemp, st.temporaryCounter + 1 + 1⟩)
    ensureBody ((unconditionalJump handlers ensureBody
      (st.incCounter.pushExpr handlers
        ⟨Name.gotoDeadTemp, st.temporaryCounter + 1⟩ loc
        (.Literal (TypePtr.boolLit true)) true) loc).incCounter)
    (Ok_incCounter okH).2
    (by simp only [incCounter_nblocks, unconditionalJump_nblocks,
          pushExpr_nblocks]
        exact heb)
  rw [hw] at sub
  have hm : st.nblocks ≤ st1.nblocks := by
    have h := sub.1.1
    simp only [incCounter_nblocks, unconditionalJump_nblocks,
      pushExpr_nblocks] at h
    exact h
  have hclassE : ensureEnd = deadBlockId ∨ ensureEnd = ensureBody ∨
      st.nblocks ≤ ensureEnd := by
    have h := sub.2.2.2
    simp only [incCounter_nblocks, unconditionalJump_nblocks,
      pushExpr_nblocks] at h
    exact h
  have hbase : (((unconditionalJump handlers ensureBody
      (st.incCounter.pushExpr handlers
        ⟨Name.gotoDeadTemp, st.temporaryCounter + 1⟩ loc
        (.Literal (TypePtr.boolLit true)) true) loc).incCounter).blocks
      handlers).exprs = (st.blocks handlers).exprs ++
      [⟨⟨Name.gotoDeadTemp, st.temporaryCounter + 1⟩, loc,
        .Literal (TypePtr.boolLit true), true⟩] := by
    rw [incCounter_blocks, unconditionalJump_exprs, pushExpr_exprs,
      if_pos rfl, incCounter_blocks]
  refine ⟨st1, ensureEnd, rfl, hRT, hm, ?_, ?_, ?_⟩
  · -- the synthetic gotoDeadTemp binding sits in the handlers block
    obtain ⟨sfx, hsfx⟩ := sub.1.2.1 handlers
    rw [hbase] at hsfx
    rw [hRT]
    show (⟨⟨Name.gotoDeadTemp, st.temporaryCounter + 1⟩, loc,
        .Literal (TypePtr.boolLit true), true⟩ : Binding) ∈
      ((conditionalJump ensureEnd ⟨Name.gotoDeadTemp, st.temporaryCounter + 1⟩
        deadBlockId st1.nblocks (st1.addBlock cctx.loops cctx.rubyBlockId)
        loc).blocks handlers).exprs
    rw [conditionalJump_exprs, addBlock_blocks, if_neg (by omega), hsfx]
    simp
  · -- the handlers block unconditional-jumps to the ensure body
    rw [hRT]
    show ((conditionalJump ensureEnd ⟨Name.gotoDeadTemp,
        st.temporaryCounter + 1⟩ deadBlockId st1.nblocks
        (st1.addBlock cctx.loops cctx.rubyBlockId) loc).blocks
        handlers).bexit = ⟨true, LocalVariable.noVariable, some ensureBody,
        some ensureBody, loc⟩
    rw [conditionalJump_bexit,
      if_neg (by
        intro hcontra
        simp only [deadBlockId] at hcontra hclassE
        omega),
      addBlock_blocks, if_neg (by omega),
      WalkOut_bexit_pres sub handlers (Ne.symm hne)
        (by simp only [incCounter_nblocks, unconditionalJump_nblocks,
              pushExpr_nblocks]
            exact hh),
      incCounter_blocks, unconditionalJump_bexit, if_pos ⟨hhd, rfl⟩]
  · -- the ensure continuation conditional-jumps on gotoDeadTemp
    intro hEn
    rw [hRT]
    show ((conditionalJump ensureEnd ⟨Name.gotoDeadTemp,
        st.temporaryCounter + 1⟩ deadBlockId st1.nblocks
        (st1.addBlock cctx.loops cctx.rubyBlockId) loc).blocks
        ensureEnd).bexit = ⟨true, ⟨Name.gotoDeadTemp,
        st.temporaryCounter + 1⟩, some deadBlockId, some st1.nblocks, loc⟩
    rw [conditionalJump_bexit, if_pos ⟨hEn, rfl⟩]

/-! ### Closed witnesses for C6 and C7 -/

theorem Wf_init : Wf St.init := ⟨Nat.one_pos, rfl, fun _ _ => ⟨rfl, rfl⟩⟩

theorem Wf_sampleSt : Wf sampleSt := Wf_freshBlock St.init 0 0 Wf_init

/-- A three-block state: the dead block, and two live blocks `1` and `2`. -/
def sampleSt3 : St := ((St.init.freshBlock 0 0).1.freshBlock 0 0).1

theorem Wf_sampleSt3 : Wf sampleSt3 :=
  Wf_freshBlock _ 0 0 (Wf_freshBlock St.init 0 0 Wf_init)

theorem C6_send_block_witness :
    Wf sampleSt ∧ 1 < sampleSt.nblocks ∧ (1 : Nat) ≠ deadBlockId ∧
    (∃ st2,
      walkSendBlock sampleCtx loc1 (Name.user 5) loc1 true
        (.mk loc1 [] (.EmptyTree loc1)) cLocal [] [] 1 sampleSt =
        (st2, sampleSt.nblocks + 1 + 1) ∧
      (∃ rest, (st2.blocks (sampleSt.nblocks + 1 + 1 + 1)).exprs =
        ⟨LocalVariable.selfVariable, loc1,
          .LoadSelf (some ⟨Name.user 5, parsedArgFlags [],
            sampleSt.maxRubyBlockId + 1⟩) LocalVariable.selfVariable,
          false⟩ ::
        ⟨⟨Name.blkArg, sampleSt.temporaryCounter + 1 + 1 + 1⟩, loc1,
          .LoadYieldParams (some ⟨Name.user 5, parsedArgFlags [],
            sampleSt.maxRubyBlockId + 1⟩), false⟩ :: rest) ∧
      (st2.blocks sampleSt.nblocks).bexit =
        ⟨true, LocalVariable.blockCall, some (sampleSt.nblocks + 1 + 1 + 1),
          some (sampleSt.nblocks + 1), loc1⟩ ∧
      (st2.blocks 1).bexit =
        ⟨true, LocalVariable.noVariable, some sampleSt.nblocks,
          some sampleSt.nblocks, loc1⟩ ∧
      (⟨LocalVariable.selfVariable, loc1,
        .Ident ⟨Name.selfRestore, sampleSt.temporaryCounter + 1 + 1⟩, true⟩ :
          Binding) ∈ (st2.blocks (sampleSt.nblocks + 1 + 1)).exprs) :=
  ⟨Wf_sampleSt, by decide, by decide,
   C6_send_block sampleCtx loc1 (Name.user 5) loc1 true loc1 []
     (.EmptyTree loc1) cLocal [] [] 1 sampleSt Wf_sampleSt (by decide)
     (by decide)⟩

theorem C7_rescue_tail_witness :
    Wf sampleSt3 ∧ 1 < sampleSt3.nblocks ∧ 2 < sampleSt3.nblocks ∧
    (1 : Nat) ≠ deadBlockId ∧ (2 : Nat) ≠ 1 ∧
    (∃ st1 ensureEnd,
      walk (sampleCtx.withTarget
          ⟨Name.throwAwayTemp, sampleSt3.temporaryCounter + 1 + 1⟩)
        (.EmptyTree loc1) 2
        ((unconditionalJump 1 2
          (sampleSt3.incCounter.pushExpr 1
            ⟨Name.gotoDeadTemp, sampleSt3.temporaryCounter + 1⟩ loc1
            (.Literal (TypePtr.boolLit true)) true) loc1).incCounter) =
        (st1, ensureEnd) ∧
      walkRescueTail sampleCtx (.EmptyTree loc1) 1 2 loc1 sampleSt3 =
        (conditionalJump ensureEnd
          ⟨Name.gotoDeadTemp, sampleSt3.temporaryCounter + 1⟩ deadBlockId
          st1.nblocks (st1.addBlock sampleCtx.loops sampleCtx.rubyBlockId)
          loc1, st1.nblocks) ∧
      sampleSt3.nblocks ≤ st1.nblocks ∧
      (⟨⟨Name.gotoDeadTemp, sampleSt3.temporaryCounter + 1⟩, loc1,
        .Literal (TypePtr.boolLit true), true⟩ : Binding) ∈
        (((walkRescueTail sampleCtx (.EmptyTree loc1) 1 2 loc1
          sampleSt3).1).blocks 1).exprs ∧
      (((walkRescueTail sampleCtx (.EmptyTree loc1) 1 2 loc1
          sampleSt3).1).blocks 1).bexit =
        ⟨true, LocalVariable.noVariable, some 2, some 2, loc1⟩ ∧
      (ensureEnd ≠ deadBlockId →
        (((walkRescueTail sampleCtx (.EmptyTree loc1) 1 2 loc1
            sampleSt3).1).blocks ensureEnd).bexit =
          ⟨true, ⟨Name.gotoDeadTemp, sampleSt3.temporaryCounter + 1⟩,
            some deadBlockId, some st1.nblocks, loc1⟩)) :=
  ⟨Wf_sampleSt3, by decide, by decide, by decide, by decide,
   C7_rescue_tail sampleCtx (.EmptyTree loc1) 1 2 loc1 sampleSt3 Wf_sampleSt3
     (by decide) (by decide) (by decide) (by decide)⟩
